import Mathlib

/-!
# MMT/TLV demultiplexer (dantto4k): shallow embedding and verified properties

The development embeds `src/mmttlvdemuxer.cpp` as pure Lean functions over an
explicit demuxer state.  Bytes are natural numbers, C++ exceptions that escape a
function are the `none` of an `Option` result, and every class whose
implementation is not among the sources (the byte reader, the TLV header
parser, the bit-field parsers, the fragment assembler, the MFU processors, the
smart card) is either modelled from the specification or taken as a field of
the collaborator record `Ext`.
-/

namespace MmtTlv

/-! ## Byte reader -/

/-- Modelled from the spec: `Common::ReadStream` (its header is not among the
sources).  "A forward byte cursor over a bounded buffer with big-endian integer
reads, bounded sub-readers, peek, skip, and end-of-input detection."  The
buffer is a list of bytes and `cur` is the cursor. -/
structure ReadStream where
  buffer : List Nat
  cur : Nat
deriving DecidableEq, Repr

namespace ReadStream

/-- Modelled from the spec: a reader over a fresh copy of `data`, positioned at
its start (the constructor `ReadStream(const std::vector<uint8_t>&)`). -/
def ofData (data : List Nat) : ReadStream := ⟨data, 0⟩

/-- Modelled from the spec: the bytes not yet consumed. -/
def remaining (s : ReadStream) : List Nat := s.buffer.drop s.cur

/-- Modelled from the spec: `leftBytes`, the number of bytes not yet consumed. -/
def leftBytes (s : ReadStream) : Nat := s.buffer.length - s.cur

/-- Modelled from the spec: `isEof`, the end-of-input detection. -/
def isEof (s : ReadStream) : Bool := s.leftBytes == 0

/-- Modelled from the spec: `peek`.  Copy the next `n` bytes without moving the
cursor; `none` is the exception thrown when fewer than `n` bytes are left.  The
reader is returned as well, so that "peek does not advance" is a property of
the model and not of its type. -/
def peek (s : ReadStream) (n : Nat) : Option (List Nat × ReadStream) :=
  if s.leftBytes < n then none else some (s.remaining.take n, s)

/-- Modelled from the spec: `skip`.  Advance the cursor by `n` bytes; `none` is
the exception thrown when fewer than `n` bytes are left. -/
def skip (s : ReadStream) (n : Nat) : Option ReadStream :=
  if s.leftBytes < n then none else some { s with cur := s.cur + n }

/-- Modelled from the spec: `read`.  Read the next `n` bytes and advance the
cursor past them; `none` is the exception thrown when fewer are left. -/
def read (s : ReadStream) (n : Nat) : Option (List Nat × ReadStream) :=
  if s.leftBytes < n then none
  else some (s.remaining.take n, { s with cur := s.cur + n })

/-- Modelled from the spec: the big-endian value of a byte string. -/
def beValue (bytes : List Nat) : Nat := bytes.foldl (fun acc b => acc * 256 + b) 0

/-- Modelled from the spec: `peek8U`, the next byte, not consumed. -/
def peek8U (s : ReadStream) : Option Nat :=
  match s.peek 1 with
  | some (bytes, _) => some (beValue bytes)
  | none => none

/-- Modelled from the spec: `peekBe16U`, the next big-endian 16-bit value, not
consumed. -/
def peekBe16U (s : ReadStream) : Option Nat :=
  match s.peek 2 with
  | some (bytes, _) => some (beValue bytes)
  | none => none

/-- Modelled from the spec: `get8U`, read one byte. -/
def get8U (s : ReadStream) : Option (Nat × ReadStream) :=
  match s.read 1 with
  | some (bytes, s1) => some (beValue bytes, s1)
  | none => none

/-- Modelled from the spec: `getBe16U`, read a big-endian 16-bit value. -/
def getBe16U (s : ReadStream) : Option (Nat × ReadStream) :=
  match s.read 2 with
  | some (bytes, s1) => some (beValue bytes, s1)
  | none => none

/-- Modelled from the spec: `getBe32U`, read a big-endian 32-bit value. -/
def getBe32U (s : ReadStream) : Option (Nat × ReadStream) :=
  match s.read 4 with
  | some (bytes, s1) => some (beValue bytes, s1)
  | none => none

/-- Modelled from the spec: a bounded sub-reader, the constructor
`ReadStream(ReadStream&, size_t)`: a reader over the next `n` bytes of `s`,
which is not advanced.  The parsers that use it skip `n` bytes of `s`
afterwards, which raises when fewer than `n` bytes are left, so what they return
does not depend on what the constructor does in that case; the model gives the
sub-reader the bytes that are there. -/
def sub (s : ReadStream) (n : Nat) : ReadStream := ⟨s.remaining.take n, 0⟩

end ReadStream

/-! ## TLV framing -/

/-- Modelled from the spec: the `TlvPacketType` constants (`tlv.h` is not among
the sources).  §6: "Packet types: `0x01` IPv6, `0x02` header-compressed IP,
`0x03` transmission-control signal". -/
def TlvPacketType.Ipv6Packet : Nat := 0x01

/-- Modelled from the spec: see `TlvPacketType.Ipv6Packet`. -/
def TlvPacketType.HeaderCompressedIpPacket : Nat := 0x02

/-- Modelled from the spec: see `TlvPacketType.Ipv6Packet`. -/
def TlvPacketType.TransmissionControlSignalPacket : Nat := 0x03

/-- The demuxer's `tlv` member: the last TLV packet unpacked. -/
structure Tlv where
  packetType : Nat
  dataLength : Nat
  data : List Nat
deriving DecidableEq, Repr

/-- Modelled from the spec: `Tlv::unpack` (`tlv.cpp` is not among the sources).
§4.1: "Byte 0 `0x7F`; byte 1 packet type; bytes 2–3 unsigned data length;
payload follows immediately.  If fewer than `4 + data_length` bytes are
available, return `NeedMoreBytes` without consuming input."  On success the
header and the payload are consumed and the payload is kept in `data`, which is
what `tlv.getData()` hands to the dispatcher. -/
def Tlv.unpack (t : Tlv) (s : ReadStream) : Bool × Tlv × ReadStream :=
  match s.remaining with
  | _ :: ty :: l1 :: l0 :: rest =>
    let n := l1 * 256 + l0
    if rest.length < n then (false, t, s)
    else (true, { packetType := ty, dataLength := n, data := rest.take n },
          { s with cur := s.cur + (4 + n) })
  | _ => (false, t, s)

/-- `MmtTlvDemuxer::isVaildTlv`: peek two bytes; the sync byte must be `0x7F`
and the packet type must not lie strictly between `0x04` and `0xFD`.  A failed
peek (the caught `std::runtime_error`) gives `false`.  The reader after the
call is returned next to the verdict. -/
def isVaildTlv (stream : ReadStream) : Bool × ReadStream :=
  match stream.peek 2 with
  | none => (false, stream)
  | some (bytes, stream1) =>
    if bytes.getD 0 0 != 0x7F then (false, stream1)
    else if bytes.getD 1 0 > 0x04 && bytes.getD 1 0 < 0xFD then (false, stream1)
    else (true, stream1)

/-! ## Ordered maps keyed by packet id (`std::map`) -/

/-- Lookup of `std::map::find`: the value stored under `k`, if any. -/
def Map.find {α : Type} : List (Nat × α) → Nat → Option α
  | [], _ => none
  | (k1, v) :: rest, k => if k1 = k then some v else Map.find rest k

/-- Assignment through `operator[]`: the value under `k` is replaced, or the
pair is inserted at its place in key order. -/
def Map.insert {α : Type} : List (Nat × α) → Nat → α → List (Nat × α)
  | [], k, v => [(k, v)]
  | (k1, v1) :: rest, k, v =>
    if k < k1 then (k, v) :: (k1, v1) :: rest
    else if k = k1 then (k, v) :: rest
    else (k1, v1) :: Map.insert rest k v

/-- Mutation of the object stored under `k` through a shared pointer to it. -/
def Map.update {α : Type} (m : List (Nat × α)) (k : Nat) (f : α → α) : List (Nat × α) :=
  m.map (fun e => if e.1 = k then (e.1, f e.2) else e)

/-- The representation invariant of a `std::map`: the keys are strictly
increasing, so no key occurs twice. -/
def Map.Ordered {α : Type} (m : List (Nat × α)) : Prop :=
  (m.map Prod.fst).Pairwise (· < ·)

instance {α : Type} (m : List (Nat × α)) : Decidable (Map.Ordered m) := by
  unfold Map.Ordered; exact inferInstance

/-! ## Streams, timestamp caches and the MMT package table -/

/-- Modelled from the spec: the `AssetType` constants (their header is not among
the sources), taken as the four-character codes `hev1`, `mp4a`, `stpp`, `aapp`
packed big-endian into 32 bits. -/
def AssetType.hev1 : Nat := 0x68657631

/-- Modelled from the spec: see `AssetType.hev1`. -/
def AssetType.mp4a : Nat := 0x6D703461

/-- Modelled from the spec: see `AssetType.hev1`. -/
def AssetType.stpp : Nat := 0x73747070

/-- Modelled from the spec: see `AssetType.hev1`. -/
def AssetType.aapp : Nat := 0x61617070

/-- One entry of an MPU timestamp descriptor, also the element type of
`MmtStream::mpuTimestamps`. -/
structure MpuTimestampEntry where
  mpuSequenceNumber : Nat
  mpuPresentationTime : Nat
deriving DecidableEq, Repr

/-- The MPU timestamp descriptor, as far as the demuxer reads it. -/
structure MpuTimestampDescriptor where
  entries : List MpuTimestampEntry
deriving DecidableEq, Repr

/-- One entry of an MPU extended timestamp descriptor, also the element type of
`MmtStream::mpuExtendedTimestamps`; the fields are those the demuxer copies. -/
structure MpuExtendedTimestampEntry where
  mpuSequenceNumber : Nat
  mpuDecodingTimeOffset : Nat
  numOfAu : Nat
  ptsOffsets : List Nat
  dtsPtsOffsets : List Nat
deriving DecidableEq, Repr

/-- The MPU extended timestamp descriptor, as far as the demuxer reads it. -/
structure MpuExtendedTimestampDescriptor where
  timescaleFlag : Bool
  timescale : Nat
  entries : List MpuExtendedTimestampEntry
deriving DecidableEq, Repr

/-- Fields of `VideoComponentDescriptor` (see `videoComponentDescriptor.cpp`). -/
structure VideoComponentDescriptor where
  videoResolution : Nat
  videoAspectRatio : Nat
  videoScanFlag : Nat
  videoFrameRate : Nat
  componentTag : Nat
  videoTransferCharacteristics : Nat
  language : List Nat
  text : List Nat
deriving DecidableEq, Repr

/-- The MH audio component descriptor; its fields are not read by the demuxer. -/
structure MhAudioComponentDescriptor where
  body : List Nat
deriving DecidableEq, Repr

/-- A descriptor attached to an MPT asset, by the class its tag selects. -/
inductive MmtDescriptor where
  | mpuTimestamp (d : MpuTimestampDescriptor)
  | mpuExtendedTimestamp (d : MpuExtendedTimestampDescriptor)
  | mhStreamIdentification (componentTag : Nat)
  | videoComponent (d : VideoComponentDescriptor)
  | mhAudioComponent (d : MhAudioComponentDescriptor)
  | other (tag : Nat)
deriving DecidableEq, Repr

/-- A general location info of an asset. -/
structure LocationInfo where
  locationType : Nat
  packetId : Nat
deriving DecidableEq, Repr

/-- An asset of the MMT package table. -/
structure Asset where
  assetType : Nat
  locationInfos : List LocationInfo
  descriptors : List MmtDescriptor
deriving DecidableEq, Repr

/-- The MMT package table, as far as the demuxer reads it. -/
structure Mpt where
  assets : List Asset
deriving DecidableEq, Repr

/-- The stream time base. -/
structure TimeBase where
  num : Nat
  den : Nat
deriving DecidableEq, Repr

/-- An elementary stream (`MmtStream`); `P` is the type of MFU processors. -/
structure MmtStream (P : Type) where
  packetId : Nat
  assetType : Nat
  streamIndex : Nat
  lastMpuSequenceNumber : Nat
  auIndex : Nat
  rapFlag : Bool
  timeBase : TimeBase
  mpuTimestamps : List MpuTimestampEntry
  mpuExtendedTimestamps : List MpuExtendedTimestampEntry
  mfuDataProcessor : Option P
  componentTag : Nat
  videoComponentDescriptor : Option VideoComponentDescriptor
  mhAudioComponentDescriptor : Option MhAudioComponentDescriptor

/-- Modelled from the spec: the constructor `MmtStream(packetId)` (`mmtStream.h`
is not among the sources).  A fresh stream has empty timestamp caches, last MPU
sequence number 0, no MFU processor and no descriptors attached. -/
def MmtStream.new {P : Type} (packetId : Nat) : MmtStream P :=
  { packetId := packetId, assetType := 0, streamIndex := 0,
    lastMpuSequenceNumber := 0, auIndex := 0, rapFlag := false,
    timeBase := ⟨0, 0⟩, mpuTimestamps := [], mpuExtendedTimestamps := [],
    mfuDataProcessor := none, componentTag := 0,
    videoComponentDescriptor := none, mhAudioComponentDescriptor := none }

/-- The two search loops of the merge functions: overwrite, through `f`, the
first element that satisfies `p`; `none` when the loop ends with `find` still
false. -/
def overwriteFirst {α : Type} (p : α → Bool) (f : α → α) : List α → Option (List α)
  | [] => none
  | a :: rest =>
    if p a then some (f a :: rest)
    else match overwriteFirst p f rest with
      | some rest1 => some (a :: rest1)
      | none => none

/-- The minimum search of the merge functions, from index `i` on, with the
running `minIndex` and `minMpuSequenceNumber`; `seqs` are the sequence numbers
of the cache from index `i`. -/
def minIndexLoop : List Nat → Nat → Nat → Nat → Nat
  | [], _, minIndex, _ => minIndex
  | s :: rest, i, minIndex, minSeq =>
    if minSeq > s then minIndexLoop rest (i + 1) i s
    else minIndexLoop rest (i + 1) minIndex minSeq

/-- Body of the loop of `processMpuTimestampDescriptor` for one entry `ts`. -/
def mergeMpuTimestamp (lastMpuSequenceNumber : Nat) (cache : List MpuTimestampEntry)
    (ts : MpuTimestampEntry) : List MpuTimestampEntry :=
  match overwriteFirst (fun e => e.mpuSequenceNumber == ts.mpuSequenceNumber)
      (fun e => { e with mpuPresentationTime := ts.mpuPresentationTime }) cache with
  | some cache1 => cache1
  | none =>
    match overwriteFirst (fun e => decide (e.mpuSequenceNumber < lastMpuSequenceNumber))
        (fun e => { e with mpuSequenceNumber := ts.mpuSequenceNumber,
                           mpuPresentationTime := ts.mpuPresentationTime }) cache with
    | some cache1 => cache1
    | none =>
      if cache.length ≥ 100 then
        let minIndex := minIndexLoop (cache.map (·.mpuSequenceNumber)) 0 0 0xFFFFFFFF
        cache.modify
          (fun e => { e with mpuSequenceNumber := ts.mpuSequenceNumber,
                             mpuPresentationTime := ts.mpuPresentationTime }) minIndex
      else cache ++ [ts]

/-- `MmtTlvDemuxer::processMpuTimestampDescriptor`. -/
def processMpuTimestampDescriptor {P : Type} (descriptor : MpuTimestampDescriptor)
    (mmtStream : MmtStream P) : MmtStream P :=
  { mmtStream with
    mpuTimestamps :=
      descriptor.entries.foldl (mergeMpuTimestamp mmtStream.lastMpuSequenceNumber)
        mmtStream.mpuTimestamps }

/-- Successive calls of `processMpuTimestampDescriptor` on one stream, one call
per descriptor, in list order. -/
def processMpuTimestampDescriptors {P : Type} (descriptors : List MpuTimestampDescriptor)
    (mmtStream : MmtStream P) : MmtStream P :=
  descriptors.foldl (fun s descriptor => processMpuTimestampDescriptor descriptor s) mmtStream

/-- The field-by-field overwrite of an extended timestamp entry. -/
def MpuExtendedTimestampEntry.assignFrom (e ts : MpuExtendedTimestampEntry)
    (withSeq : Bool) : MpuExtendedTimestampEntry :=
  { e with
    mpuSequenceNumber := if withSeq then ts.mpuSequenceNumber else e.mpuSequenceNumber,
    mpuDecodingTimeOffset := ts.mpuDecodingTimeOffset,
    numOfAu := ts.numOfAu,
    ptsOffsets := ts.ptsOffsets,
    dtsPtsOffsets := ts.dtsPtsOffsets }

/-- Body of the loop of `processMpuExtendedTimestampDescriptor` for one entry. -/
def mergeMpuExtendedTimestamp (lastMpuSequenceNumber : Nat)
    (cache : List MpuExtendedTimestampEntry) (ts : MpuExtendedTimestampEntry) :
    List MpuExtendedTimestampEntry :=
  if lastMpuSequenceNumber > ts.mpuSequenceNumber then cache
  else
    match overwriteFirst (fun e => e.mpuSequenceNumber == ts.mpuSequenceNumber)
        (fun e => e.assignFrom ts false) cache with
    | some cache1 => cache1
    | none =>
      match overwriteFirst (fun e => decide (e.mpuSequenceNumber < lastMpuSequenceNumber))
          (fun e => e.assignFrom ts true) cache with
      | some cache1 => cache1
      | none =>
        if cache.length ≥ 100 then
          let minIndex := minIndexLoop (cache.map (·.mpuSequenceNumber)) 0 0 0xFFFFFFFF
          cache.modify (fun e => e.assignFrom ts true) minIndex
        else cache ++ [ts]

/-- `MmtTlvDemuxer::processMpuExtendedTimestampDescriptor`. -/
def processMpuExtendedTimestampDescriptor {P : Type}
    (descriptor : MpuExtendedTimestampDescriptor) (mmtStream : MmtStream P) : MmtStream P :=
  let timeBase : TimeBase :=
    if descriptor.timescaleFlag then ⟨1, descriptor.timescale⟩ else mmtStream.timeBase
  { mmtStream with
    timeBase := timeBase,
    mpuExtendedTimestamps :=
      descriptor.entries.foldl (mergeMpuExtendedTimestamp mmtStream.lastMpuSequenceNumber)
        mmtStream.mpuExtendedTimestamps }

/-! ## Packets, tables, assemblers and the demuxer state -/

/-- Modelled from the spec: the encryption flag of the scrambling extension
header, "encryption-flag ∈ {none, even, odd, reserved}". -/
inductive EncryptionFlag where
  | UNSCRAMBLED
  | RESERVED
  | EVEN
  | ODD
deriving DecidableEq, Repr

/-- The scrambling extension header of an MMTP packet. -/
structure ExtensionHeaderScrambling where
  encryptionFlag : EncryptionFlag
deriving DecidableEq, Repr

/-- Modelled from the spec: the MMTP payload type, "MPU |
control-message-aggregate | other". -/
inductive PayloadType where
  | Mpu
  | ContainsOneOrMoreControlMessage
  | Other
deriving DecidableEq, Repr

/-- The demuxer's `mmt` member: the last MMTP packet unpacked. -/
structure Mmtp where
  packetId : Nat
  packetSequenceNumber : Nat
  rapFlag : Bool
  payloadType : PayloadType
  extensionHeaderScrambling : Option ExtensionHeaderScrambling
  payload : List Nat
deriving DecidableEq, Repr

/-- Modelled from the spec: the fragmentation indicator, "not-fragmented | head
| middle | tail". -/
inductive FragmentationIndicator where
  | NotFragmented
  | FirstFragment
  | MiddleFragment
  | LastFragment
deriving DecidableEq, Repr

/-- Modelled from the spec: the MPU fragment type, "MPU metadata |
movie-fragment metadata | MFU". -/
inductive FragmentType where
  | MpuMetadata
  | MovieFragmentMetadata
  | Mfu
deriving DecidableEq, Repr

/-- The demuxer's `mpu` member: the last MPU payload header unpacked. -/
structure Mpu where
  mpuSequenceNumber : Nat
  aggregateFlag : Bool
  fragmentationIndicator : FragmentationIndicator
  timedFlag : Bool
  fragmentType : FragmentType
  payload : List Nat
deriving DecidableEq, Repr

/-- A data unit of an MPU payload. -/
structure DataUnit where
  data : List Nat
deriving DecidableEq, Repr

/-- A signaling message header with its payload. -/
structure SignalingMessage where
  aggregationFlag : Bool
  lengthExtensionFlag : Bool
  fragmentationIndicator : FragmentationIndicator
  payload : List Nat
deriving DecidableEq, Repr

/-- Modelled from the spec: the states of a fragment assembler, "State ∈ {Init,
NotStarted, InFragment}". -/
inductive FragmentAssembler.State where
  | Init
  | NotStarted
  | InFragment
deriving DecidableEq, Repr

/-- Modelled from the spec: a fragment assembler "holds an accumulating byte
buffer and the expected next packet-sequence-number". -/
structure FragmentAssembler where
  state : FragmentAssembler.State
  data : List Nat
  last_seq : Nat
deriving DecidableEq, Repr

/-- Modelled from the spec: a newly constructed assembler is in `Init` with an
empty buffer. -/
def FragmentAssembler.new : FragmentAssembler := ⟨.Init, [], 0⟩

/-- Modelled from the spec: `FragmentAssembler::checkState` (the assembler's
code is not among the sources).  "Contiguity test: the MMTP packet sequence
number of each successor fragment must equal predecessor + 1 (modulo 2³²).  Any
mismatch discards the partially assembled buffer and transitions to `Init`."
The member `last_seq` holds the predecessor, so the expected next packet
sequence number is `last_seq + 1`. -/
def FragmentAssembler.checkState (a : FragmentAssembler) (packetSequenceNumber : Nat) :
    FragmentAssembler :=
  if packetSequenceNumber = (a.last_seq + 1) % 2 ^ 32 then
    { a with last_seq := packetSequenceNumber }
  else ⟨.Init, [], packetSequenceNumber⟩

/-- Modelled from the spec: `FragmentAssembler::assemble` (the assembler's code
is not among the sources); it answers whether a unit is complete, and the
complete unit is the buffer `data`, which the caller reads and then clears.
The state machine of §4.3: a head starts the buffer anew and goes to
`InFragment`; a middle is appended in `InFragment` and dropped otherwise; a
tail is appended and emitted in `InFragment`, going to `Init`, and dropped
otherwise; "complete: emit": a unit that is not fragmented is taken into the
"accumulating byte buffer" and emitted.  The table names no reset of the buffer
for a complete unit, as it does for a head; the buffer is empty in `Init` by the
invariant of §4.1.  The table has no row for `NotStarted`, which is given the
row of `Init`.  The gap test is that of `checkState`, which the caller invokes
first. -/
def FragmentAssembler.assemble (a : FragmentAssembler) (fragment : List Nat)
    (fragmentationIndicator : FragmentationIndicator) (_packetSequenceNumber : Nat) :
    Bool × FragmentAssembler :=
  match fragmentationIndicator with
  | .NotFragmented => (true, { a with data := a.data ++ fragment })
  | .FirstFragment => (false, { a with state := .InFragment, data := fragment })
  | .MiddleFragment =>
    if a.state = .InFragment then (false, { a with data := a.data ++ fragment })
    else (false, a)
  | .LastFragment =>
    if a.state = .InFragment then
      (true, { a with state := .Init, data := a.data ++ fragment })
    else (false, a)

/-- The ACAS card, as far as the demuxer reads it. -/
structure AcasCard where
  ready : Bool
  lastDecryptedEcm : List Nat
deriving DecidableEq, Repr

/-- The ECM table, as far as the demuxer reads it. -/
structure Ecm where
  ecmData : List Nat
deriving DecidableEq, Repr

/-- A table object by its run-time class, which is what a
`std::dynamic_pointer_cast` tests. -/
inductive Table where
  | mpt (t : Mpt)
  | ecm (t : Ecm)
  | nit (body : List Nat)
  | mhCdt (body : List Nat)
  | mhEit (body : List Nat)
  | mhSdt (body : List Nat)
  | mhTot (body : List Nat)
  | plt (body : List Nat)
  | mhBit (body : List Nat)
  | other (body : List Nat)
deriving DecidableEq, Repr

/-- `std::dynamic_pointer_cast<Mpt>`. -/
def Table.asMpt : Table → Option Mpt
  | .mpt t => some t
  | _ => none

/-- `std::dynamic_pointer_cast<Ecm>`. -/
def Table.asEcm : Table → Option Ecm
  | .ecm t => some t
  | _ => none

/-- The table callbacks of `DemuxerHandler`. -/
inductive TableCallback where
  | onNit
  | onEcm
  | onMhCdt
  | onMhEit
  | onMhSdt
  | onMhTot
  | onMpt
  | onPlt
  | onMhBit
deriving DecidableEq, Repr

/-- The run-time class a table callback casts its argument to. -/
def TableCallback.accepts : TableCallback → Table → Bool
  | .onNit, .nit _ => true
  | .onEcm, .ecm _ => true
  | .onMhCdt, .mhCdt _ => true
  | .onMhEit, .mhEit _ => true
  | .onMhSdt, .mhSdt _ => true
  | .onMhTot, .mhTot _ => true
  | .onMpt, .mpt _ => true
  | .onPlt, .plt _ => true
  | .onMhBit, .mhBit _ => true
  | _, _ => false

/-- The data callbacks of `DemuxerHandler`. -/
inductive DataCallback where
  | onVideoData
  | onAudioData
  | onSubtitleData
  | onApplicationData
deriving DecidableEq, Repr

/-- Output of an MFU processor, as far as the demuxer reads it. -/
structure MfuData where
  streamIndex : Nat
  data : List Nat
deriving DecidableEq, Repr

/-- A parsed NTPv4 packet. -/
structure NTPv4 where
  body : List Nat
deriving DecidableEq, Repr

/-- One call received by the consumer's `DemuxerHandler`.  A table callback
records the result of the pointer cast (`none` is a null pointer); a data
callback records the key of `mapStream` under which the stream handed over is
registered. -/
inductive Event where
  | table (cb : TableCallback) (t : Option Table)
  | ntp (n : NTPv4)
  | data (cb : DataCallback) (streamKey : Nat) (mfu : MfuData)
deriving DecidableEq, Repr

/-- The demuxer's `compressedIPPacket` member; its fields are not read here. -/
structure CompressedIPPacket where
  body : List Nat
deriving DecidableEq, Repr

/-- State of `MmtTlvDemuxer`.  `demuxerHandler` is `none` while no handler is
installed and otherwise holds the calls the handler has received, oldest first;
`processorCalls` lists the (packet id, bytes) of every MFU processor
invocation.  `mapStreamByStreamIdx` maps a stream index to the packet id of the
stream object it shares with `mapStream`. -/
structure MmtTlvDemuxer (P : Type) where
  tlv : Tlv
  compressedIPPacket : CompressedIPPacket
  mmt : Mmtp
  mpu : Mpu
  mapAssembler : List (Nat × FragmentAssembler)
  mapStream : List (Nat × MmtStream P)
  mapStreamByStreamIdx : List (Nat × Nat)
  acasCard : AcasCard
  demuxerHandler : Option (List Event)
  processorCalls : List (Nat × List Nat)

/-- The constants of `MmtTableId` and `MmtMessageId` and of the IPv6 layer that
the demuxer switches on; their headers are not among the sources. -/
structure Consts where
  tableEcm : Nat
  tableMpt : Nat
  tableMhCdt : Nat
  tableMhEit : List Nat
  tableMhSdt : Nat
  tableMhTot : Nat
  tablePlt : Nat
  tableMhBit : Nat
  messagePa : Nat
  messageM2Section : Nat
  messageM2ShortSection : Nat
  protocolUdp : Nat
  portNtp : Nat

/-- The collaborators of the demuxer whose code is not among the sources: the
table factories with the tables' `unpack`, the header parsers, the fragment
assembler operations, the MFU processor factory and processors, and the card's
ECM decryption.  A factory answers `none` for a null pointer. -/
structure Ext (P : Type) where
  consts : Consts
  tlvTableFactory : Nat → Option (ReadStream → Table × ReadStream)
  mmtTableFactory : Nat → Option (ReadStream → Table × ReadStream)
  ipv6Unpack : ReadStream → Nat × ReadStream
  udpUnpack : ReadStream → Nat × ReadStream
  ntpUnpack : ReadStream → Bool × NTPv4 × ReadStream
  compressedIPPacketUnpack : CompressedIPPacket → ReadStream → CompressedIPPacket × ReadStream
  mmtUnpack : Mmtp → ReadStream → Mmtp × ReadStream
  mmtDecryptPayload : Mmtp → List Nat → Mmtp
  mpuUnpack : Mpu → ReadStream → Bool × Mpu × ReadStream
  dataUnitUnpack : ReadStream → Bool → Bool → Bool × DataUnit × ReadStream
  signalingMessageUnpack : ReadStream → Bool × SignalingMessage × ReadStream
  paMessageUnpack : ReadStream → List Nat × ReadStream
  m2SectionMessageUnpack : ReadStream → ReadStream
  m2ShortSectionMessageUnpack : ReadStream → ReadStream
  checkState : FragmentAssembler → Nat → FragmentAssembler
  assemble : FragmentAssembler → List Nat → FragmentationIndicator → Nat →
    Bool × FragmentAssembler
  assemblerClear : FragmentAssembler → FragmentAssembler
  mfuDataProcessorCreate : Nat → Option P
  mfuProcess : P → MmtStream P → List Nat → Option MfuData × MmtStream P
  decryptEcm : AcasCard → List Nat → AcasCard

section Demuxer

variable {P : Type}

/-- First loop of `processMmtPackageTable`: the map `mapMpt` from the packet ids
announced in-band to their asset types. -/
def mptAnnounced (mpt : Mpt) : List (Nat × Nat) :=
  mpt.assets.foldl
    (fun m asset =>
      asset.locationInfos.foldl
        (fun m1 locationInfo =>
          if locationInfo.locationType = 0 then
            Map.insert m1 locationInfo.packetId asset.assetType
          else m1)
        m)
    []

/-- Pruning loop of `processMmtPackageTable`, skipped when `mapMpt` is empty. -/
def pruneStreams (mapMpt : List (Nat × Nat)) (mapStream : List (Nat × MmtStream P)) :
    List (Nat × MmtStream P) :=
  if mapMpt.length ≠ 0 then
    mapStream.filter
      (fun e =>
        match Map.find mapMpt e.1 with
        | some assetType => assetType == e.2.assetType
        | none => false)
  else mapStream

/-- The variables the asset loop of `processMmtPackageTable` carries. -/
structure MptLoop (P : Type) where
  mapStream : List (Nat × MmtStream P)
  mapStreamByStreamIdx : List (Nat × Nat)
  streamIndex : Nat

/-- Body of the inner loop over the location infos of one asset; `cur` is the
local `mmtStream` pointer, by the packet id of the stream it points to. -/
def locationStep (ext : Ext P) (assetType : Nat) (acc : MptLoop P × Option Nat)
    (locationInfo : LocationInfo) : MptLoop P × Option Nat :=
  if locationInfo.locationType = 0 ∧
      (assetType = AssetType.hev1 ∨ assetType = AssetType.mp4a ∨
        assetType = AssetType.stpp) then
    let st := acc.1
    let found : MmtStream P :=
      match Map.find st.mapStream locationInfo.packetId with
      | some s => s
      | none => MmtStream.new locationInfo.packetId
    let mmtStream : MmtStream P :=
      { found with
        assetType := assetType,
        streamIndex := st.streamIndex,
        mfuDataProcessor :=
          match found.mfuDataProcessor with
          | some p => some p
          | none => ext.mfuDataProcessorCreate assetType }
    ({ mapStream := Map.insert st.mapStream locationInfo.packetId mmtStream,
       mapStreamByStreamIdx :=
         Map.insert st.mapStreamByStreamIdx st.streamIndex locationInfo.packetId,
       streamIndex := st.streamIndex + 1 },
     some locationInfo.packetId)
  else acc

/-- The descriptor switch of `processMmtPackageTable`, applied to the stream
that `mmtStream` points to. -/
def applyDescriptor (mmtStream : MmtStream P) (descriptor : MmtDescriptor) : MmtStream P :=
  match descriptor with
  | .mpuTimestamp d => processMpuTimestampDescriptor d mmtStream
  | .mpuExtendedTimestamp d => processMpuExtendedTimestampDescriptor d mmtStream
  | .mhStreamIdentification componentTag => { mmtStream with componentTag := componentTag }
  | .videoComponent d => { mmtStream with videoComponentDescriptor := some d }
  | .mhAudioComponent d => { mmtStream with mhAudioComponentDescriptor := some d }
  | .other _ => mmtStream

/-- Body of the asset loop of `processMmtPackageTable`. -/
def assetStep (ext : Ext P) (st : MptLoop P) (asset : Asset) : MptLoop P :=
  match asset.locationInfos.foldl (locationStep ext asset.assetType) (st, none) with
  | (st1, none) => st1
  | (st1, some pid) =>
    { st1 with
      mapStream :=
        Map.update st1.mapStream pid (fun s => asset.descriptors.foldl applyDescriptor s) }

/-- `MmtTlvDemuxer::processMmtPackageTable`. -/
def processMmtPackageTable (ext : Ext P) (d : MmtTlvDemuxer P) (mpt : Mpt) :
    MmtTlvDemuxer P :=
  let pruned := pruneStreams (mptAnnounced mpt) d.mapStream
  let final := mpt.assets.foldl (assetStep ext) ⟨pruned, [], 0⟩
  { d with mapStream := final.mapStream, mapStreamByStreamIdx := final.mapStreamByStreamIdx }

/-- The condition on the asset type under which the asset loop of
`processMmtPackageTable` registers a stream: `hev1`, `mp4a` or `stpp`. -/
def registersAssetType (assetType : Nat) : Prop :=
  assetType = AssetType.hev1 ∨ assetType = AssetType.mp4a ∨ assetType = AssetType.stpp

instance (assetType : Nat) : Decidable (registersAssetType assetType) := by
  unfold registersAssetType; exact inferInstance

/-- The packet ids an asset announces in-band (location type 0), in
declaration order. -/
def Asset.inBandPacketIds (asset : Asset) : List Nat :=
  (asset.locationInfos.filter (fun li => li.locationType = 0)).map (·.packetId)

/-- The packet ids the MPT announces in-band, in declaration order. -/
def Mpt.inBandPacketIds (mpt : Mpt) : List Nat :=
  mpt.assets.flatMap Asset.inBandPacketIds

/-- The packet ids for which the asset loop registers a stream while it
processes `asset`, in order: its in-band packet ids when the asset type
satisfies the condition of the loop, none otherwise. -/
def Asset.registrations (asset : Asset) : List Nat :=
  if registersAssetType asset.assetType then asset.inBandPacketIds else []

/-- The packet ids for which the asset loop registers a stream, in MPT
declaration order. -/
def Mpt.registrations (mpt : Mpt) : List Nat :=
  mpt.assets.flatMap Asset.registrations

/-- The assignments the inner loop makes to the stream it found or created:
asset type, stream index, and an MFU processor when the stream has none. -/
def registerStream (ext : Ext P) (assetType streamIndex : Nat) (found : MmtStream P) :
    MmtStream P :=
  { found with
    assetType := assetType,
    streamIndex := streamIndex,
    mfuDataProcessor :=
      match found.mfuDataProcessor with
      | some p => some p
      | none => ext.mfuDataProcessorCreate assetType }

/-- The entries of all MPU timestamp descriptors of an asset. -/
def Asset.timestampEntries (asset : Asset) : List MpuTimestampEntry :=
  asset.descriptors.flatMap
    (fun descriptor =>
      match descriptor with
      | .mpuTimestamp d => d.entries
      | _ => [])

/-- The entries of all MPU extended timestamp descriptors of an asset. -/
def Asset.extendedTimestampEntries (asset : Asset) : List MpuExtendedTimestampEntry :=
  asset.descriptors.flatMap
    (fun descriptor =>
      match descriptor with
      | .mpuExtendedTimestamp d => d.entries
      | _ => [])

/-- Whether a descriptor is an MPU timestamp or MPU extended timestamp
descriptor. -/
def MmtDescriptor.isTimestamp : MmtDescriptor → Bool
  | .mpuTimestamp _ => true
  | .mpuExtendedTimestamp _ => true
  | _ => false

/-- The fields of a stream that no descriptor of an MPT asset assigns:
`s1` has the packet id, asset type, stream index, last MPU sequence number, AU
index, RAP flag and MFU processor of `s`. -/
def MmtStream.sameCore (s s1 : MmtStream P) : Prop :=
  s1.packetId = s.packetId ∧ s1.assetType = s.assetType ∧ s1.streamIndex = s.streamIndex ∧
    s1.lastMpuSequenceNumber = s.lastMpuSequenceNumber ∧ s1.auIndex = s.auIndex ∧
    s1.rapFlag = s.rapFlag ∧ s1.mfuDataProcessor = s.mfuDataProcessor

/-- Invariant of the asset loop of `processMmtPackageTable` after it has
registered the packet ids `L`, in this order: the counter `streamIndex` is the
number of registrations, the by-stream-index view maps `i` to the `i`-th
registered packet id and has no other key, and the stream registered under the
`i`-th packet id has stream index `i`. -/
def MptLoop.Indexed (L : List Nat) (st : MptLoop P) : Prop :=
  st.streamIndex = L.length ∧ st.mapStreamByStreamIdx = L.enum ∧
    ∀ i p, L[i]? = some p → ∃ s, Map.find st.mapStream p = some s ∧ s.streamIndex = i

/-- A guarded handler call, `if (demuxerHandler) demuxerHandler->...`: the call
is appended to the log of an installed handler. -/
def callHandler (d : MmtTlvDemuxer P) (e : Event) : MmtTlvDemuxer P :=
  { d with demuxerHandler := d.demuxerHandler.map (fun log => log ++ [e]) }

/-- A guarded table callback with the pointer cast of its argument. -/
def tableCallback (d : MmtTlvDemuxer P) (cb : TableCallback) (table : Table) :
    MmtTlvDemuxer P :=
  callHandler d (.table cb (if cb.accepts table then some table else none))

/-- `MmtTlvDemuxer::processTlvTable`. -/
def processTlvTable (ext : Ext P) (d : MmtTlvDemuxer P) (stream : ReadStream) :
    Option (MmtTlvDemuxer P) :=
  match stream.peek8U with
  | none => none
  | some tableId =>
    match ext.tlvTableFactory tableId with
    | none => some d
    | some unpack =>
      let table := (unpack stream).1
      if tableId = ext.consts.tableEcm then some (tableCallback d .onNit table)
      else some d

/-- `MmtTlvDemuxer::processEcm`; the card's exception is caught inside. -/
def processEcm (ext : Ext P) (d : MmtTlvDemuxer P) (ecm : Ecm) : MmtTlvDemuxer P :=
  { d with acasCard := ext.decryptEcm d.acasCard ecm.ecmData }

/-- The second switch of `processMmtTable`: the table callbacks. -/
def mmtTableCallbacks (ext : Ext P) (d : MmtTlvDemuxer P) (tableId : Nat) (table : Table) :
    MmtTlvDemuxer P :=
  if tableId = ext.consts.tableEcm then tableCallback d .onEcm table
  else if tableId = ext.consts.tableMhCdt then tableCallback d .onMhCdt table
  else if tableId ∈ ext.consts.tableMhEit then tableCallback d .onMhEit table
  else if tableId = ext.consts.tableMhSdt then tableCallback d .onMhSdt table
  else if tableId = ext.consts.tableMhTot then tableCallback d .onMhTot table
  else if tableId = ext.consts.tableMpt then tableCallback d .onMpt table
  else if tableId = ext.consts.tablePlt then tableCallback d .onPlt table
  else if tableId = ext.consts.tableMhBit then tableCallback d .onMhBit table
  else d

/-- `MmtTlvDemuxer::processMmtTable`; the reader after the call is returned.  A
failed cast of the table to `Mpt` or `Ecm` is a null dereference (`none`). -/
def processMmtTable (ext : Ext P) (d : MmtTlvDemuxer P) (stream : ReadStream) :
    Option (MmtTlvDemuxer P × ReadStream) :=
  match stream.peek8U with
  | none => none
  | some tableId =>
    match ext.mmtTableFactory tableId with
    | none =>
      match stream.skip stream.leftBytes with
      | none => none
      | some stream1 => some (d, stream1)
    | some unpack =>
      let table := (unpack stream).1
      let stream1 := (unpack stream).2
      let d1 : Option (MmtTlvDemuxer P) :=
        if tableId = ext.consts.tableMpt then
          match table.asMpt with
          | none => none
          | some mpt => some (processMmtPackageTable ext d mpt)
        else if tableId = ext.consts.tableEcm then
          match table.asEcm with
          | none => none
          | some ecm => some (processEcm ext d ecm)
        else some d
      match d1 with
      | none => none
      | some d2 => some (mmtTableCallbacks ext d2 tableId table, stream1)

/-- The loop of `processPaMessage`, `while (!nstream.isEof())`; `none` also when
the fuel runs out before the end of input. -/
def paMessageLoop (ext : Ext P) : Nat → MmtTlvDemuxer P → ReadStream →
    Option (MmtTlvDemuxer P)
  | 0, d, nstream => if nstream.isEof then some d else none
  | fuel + 1, d, nstream =>
    if nstream.isEof then some d
    else
      match processMmtTable ext d nstream with
      | none => none
      | some (d1, nstream1) => paMessageLoop ext fuel d1 nstream1

/-- `MmtTlvDemuxer::processPaMessage`. -/
def processPaMessage (ext : Ext P) (fuel : Nat) (d : MmtTlvDemuxer P) (stream : ReadStream) :
    Option (MmtTlvDemuxer P) :=
  paMessageLoop ext fuel d (ReadStream.ofData (ext.paMessageUnpack stream).1)

/-- `MmtTlvDemuxer::processM2SectionMessage`. -/
def processM2SectionMessage (ext : Ext P) (d : MmtTlvDemuxer P) (stream : ReadStream) :
    Option (MmtTlvDemuxer P) :=
  match processMmtTable ext d (ext.m2SectionMessageUnpack stream) with
  | none => none
  | some (d1, _) => some d1

/-- `MmtTlvDemuxer::processM2ShortSectionMessage`. -/
def processM2ShortSectionMessage (ext : Ext P) (d : MmtTlvDemuxer P) (stream : ReadStream) :
    Option (MmtTlvDemuxer P) :=
  match processMmtTable ext d (ext.m2ShortSectionMessageUnpack stream) with
  | none => none
  | some (d1, _) => some d1

/-- `MmtTlvDemuxer::processSignalingMessage`. -/
def processSignalingMessage (ext : Ext P) (fuel : Nat) (d : MmtTlvDemuxer P)
    (stream : ReadStream) : Option (MmtTlvDemuxer P) :=
  match stream.peekBe16U with
  | none => none
  | some id =>
    if id = ext.consts.messagePa then processPaMessage ext fuel d stream
    else if id = ext.consts.messageM2Section then processM2SectionMessage ext d stream
    else if id = ext.consts.messageM2ShortSection then
      processM2ShortSectionMessage ext d stream
    else some d

/-- `MmtTlvDemuxer::getAssembler`: the assembler of `pid`, created on first use. -/
def getAssembler (d : MmtTlvDemuxer P) (pid : Nat) : FragmentAssembler × MmtTlvDemuxer P :=
  match Map.find d.mapAssembler pid with
  | none =>
    (FragmentAssembler.new,
     { d with mapAssembler := Map.insert d.mapAssembler pid FragmentAssembler.new })
  | some assembler => (assembler, d)

/-- A write through the shared pointer to the assembler of `pid`. -/
def setAssembler (d : MmtTlvDemuxer P) (pid : Nat) (assembler : FragmentAssembler) :
    MmtTlvDemuxer P :=
  { d with mapAssembler := Map.insert d.mapAssembler pid assembler }

/-- `MmtTlvDemuxer::getStream`. -/
def getStream (d : MmtTlvDemuxer P) (pid : Nat) : Option (MmtStream P) :=
  Map.find d.mapStream pid

/-- The data callback selected by the asset type of the stream. -/
def dataCallbackOf (assetType : Nat) : Option DataCallback :=
  if assetType = AssetType.hev1 then some .onVideoData
  else if assetType = AssetType.mp4a then some .onAudioData
  else if assetType = AssetType.stpp then some .onSubtitleData
  else if assetType = AssetType.aapp then some .onApplicationData
  else none

/-- `MmtTlvDemuxer::processMfuData` on the bytes left in its stream.  Advancing
the iterator of `mapStream` beyond its end is undefined (`none`). -/
def processMfuData (ext : Ext P) (d : MmtTlvDemuxer P) (data : List Nat) :
    Option (MmtTlvDemuxer P) :=
  match getStream d d.mmt.packetId with
  | none => some d
  | some mmtStream =>
    match mmtStream.mfuDataProcessor with
    | none => some d
    | some processor =>
      let ret := (ext.mfuProcess processor mmtStream data).1
      let mmtStream1 := (ext.mfuProcess processor mmtStream data).2
      let d1 : MmtTlvDemuxer P :=
        { d with
          mapStream := Map.update d.mapStream d.mmt.packetId (fun _ => mmtStream1),
          processorCalls := d.processorCalls ++ [(d.mmt.packetId, data)] }
      match ret with
      | none => some d1
      | some mfuData =>
        if mfuData.streamIndex > d1.mapStream.length then none
        else
          match d1.mapStream.get? mfuData.streamIndex with
          | none => some d1
          | some it =>
            match dataCallbackOf mmtStream1.assetType with
            | none => some d1
            | some cb => some (callHandler d1 (.data cb it.1 mfuData))

/-- The statements of `processMpu` for one data unit: assemble it and, when a
unit is complete, process it and clear the assembler. -/
def assembleMfu (ext : Ext P) (d : MmtTlvDemuxer P) (dataUnit : DataUnit) :
    Option (MmtTlvDemuxer P) :=
  let assembler := (getAssembler d d.mmt.packetId).1
  let res := ext.assemble assembler dataUnit.data d.mpu.fragmentationIndicator
    d.mmt.packetSequenceNumber
  let d1 := setAssembler d d.mmt.packetId res.2
  if res.1 then
    match processMfuData ext d1 res.2.data with
    | none => none
    | some d2 =>
      some (setAssembler d2 d.mmt.packetId
        (ext.assemblerClear (getAssembler d2 d.mmt.packetId).1))
  else some d1

/-- The loop of `processMpu` over aggregated data units,
`while (!nstream.isEof())`; `none` also when the fuel runs out. -/
def aggregatedMfuLoop (ext : Ext P) : Nat → MmtTlvDemuxer P → ReadStream →
    Option (MmtTlvDemuxer P)
  | 0, d, nstream => if nstream.isEof then some d else none
  | fuel + 1, d, nstream =>
    if nstream.isEof then some d
    else
      let res := ext.dataUnitUnpack nstream d.mpu.timedFlag d.mpu.aggregateFlag
      if !res.1 then some d
      else
        match assembleMfu ext d res.2.1 with
        | none => none
        | some d1 => aggregatedMfuLoop ext fuel d1 res.2.2

/-- `MmtTlvDemuxer::processMpu`. -/
def processMpu (ext : Ext P) (fuel : Nat) (d0 : MmtTlvDemuxer P) (stream : ReadStream) :
    Option (MmtTlvDemuxer P) :=
  let res := ext.mpuUnpack d0.mpu stream
  let d1 : MmtTlvDemuxer P := { d0 with mpu := res.2.1 }
  if !res.1 then some d1
  else
    let assembler := (getAssembler d1 d1.mmt.packetId).1
    let d := (getAssembler d1 d1.mmt.packetId).2
    let nstream := ReadStream.ofData d.mpu.payload
    match getStream d d.mmt.packetId with
    | none => some d
    | some mmtStream =>
      if d.mpu.aggregateFlag &&
          d.mpu.fragmentationIndicator != FragmentationIndicator.NotFragmented then some d
      else if d.mpu.fragmentType != FragmentType.Mfu then some d
      else if assembler.state == FragmentAssembler.State.Init && !d.mmt.rapFlag then some d
      else
        let tracked : Option (MmtStream P) :=
          if assembler.state == FragmentAssembler.State.Init then
            some { mmtStream with lastMpuSequenceNumber := d.mpu.mpuSequenceNumber }
          else if d.mpu.mpuSequenceNumber =
              (mmtStream.lastMpuSequenceNumber + 1) % 2 ^ 32 then
            some { mmtStream with
                   lastMpuSequenceNumber := d.mpu.mpuSequenceNumber, auIndex := 0 }
          else if d.mpu.mpuSequenceNumber ≠ mmtStream.lastMpuSequenceNumber then none
          else some mmtStream
        match tracked with
        | none =>
          some (setAssembler d d.mmt.packetId
            { assembler with state := FragmentAssembler.State.Init })
        | some mmtStream1 =>
          let assembler1 := ext.checkState assembler d.mmt.packetSequenceNumber
          let mmtStream2 : MmtStream P := { mmtStream1 with rapFlag := d.mmt.rapFlag }
          let d2 : MmtTlvDemuxer P :=
            { setAssembler d d.mmt.packetId assembler1 with
              mapStream := Map.update d.mapStream d.mmt.packetId (fun _ => mmtStream2) }
          if d.mpu.aggregateFlag == false then
            let unit := ext.dataUnitUnpack nstream d.mpu.timedFlag d.mpu.aggregateFlag
            if !unit.1 then some d2
            else assembleMfu ext d2 unit.2.1
          else aggregatedMfuLoop ext fuel d2 nstream

/-- The statements of `processSignalingMessages` around one `assemble` call:
the whole payload of the signaling message is assembled and, when a message is
complete, it is processed and the assembler is cleared. -/
def assembleSignaling (ext : Ext P) (fuel : Nat) (d : MmtTlvDemuxer P)
    (signalingMessage : SignalingMessage) : Option (MmtTlvDemuxer P) :=
  let assembler := (getAssembler d d.mmt.packetId).1
  let res := ext.assemble assembler signalingMessage.payload
    signalingMessage.fragmentationIndicator d.mmt.packetSequenceNumber
  let d1 := setAssembler d d.mmt.packetId res.2
  if res.1 then
    match processSignalingMessage ext fuel d1 (ReadStream.ofData res.2.data) with
    | none => none
    | some d2 =>
      some (setAssembler d2 d.mmt.packetId
        (ext.assemblerClear (getAssembler d2 d.mmt.packetId).1))
  else some d1

/-- The loop of `processSignalingMessages` over an aggregated payload, with the
condition of the source, `while (nstream.isEof())`; `none` for the exception of
a read at the end of input, and when the fuel runs out. -/
def aggregatedSignalingLoop (ext : Ext P) (fuel : Nat) (signalingMessage : SignalingMessage) :
    Nat → MmtTlvDemuxer P → ReadStream → Option (MmtTlvDemuxer P)
  | 0, d, nstream => if nstream.isEof then none else some d
  | n + 1, d, nstream =>
    if nstream.isEof then
      match (if signalingMessage.lengthExtensionFlag then nstream.getBe32U
             else nstream.getBe16U) with
      | none => none
      | some (_, nstream1) =>
        match assembleSignaling ext fuel d signalingMessage with
        | none => none
        | some d1 => aggregatedSignalingLoop ext fuel signalingMessage n d1 nstream1
    else some d

/-- `MmtTlvDemuxer::processSignalingMessages`. -/
def processSignalingMessages (ext : Ext P) (fuel : Nat) (d0 : MmtTlvDemuxer P)
    (stream : ReadStream) : Option (MmtTlvDemuxer P) :=
  let res := ext.signalingMessageUnpack stream
  if !res.1 then some d0
  else
    let signalingMessage := res.2.1
    let assembler := (getAssembler d0 d0.mmt.packetId).1
    let d := setAssembler d0 d0.mmt.packetId
      (ext.checkState assembler d0.mmt.packetSequenceNumber)
    if !signalingMessage.aggregationFlag then assembleSignaling ext fuel d signalingMessage
    else if signalingMessage.fragmentationIndicator != FragmentationIndicator.NotFragmented then
      some d
    else
      aggregatedSignalingLoop ext fuel signalingMessage fuel d
        (ReadStream.ofData signalingMessage.payload)

/-- Result of `processPacket`: the status returned, the demuxer afterwards and
the caller's reader afterwards. -/
structure PacketResult (P : Type) where
  status : Int
  demuxer : MmtTlvDemuxer P
  stream : ReadStream

/-- The `Ipv6Packet` case of `processPacket`.  The NTP callback is not guarded:
without a handler the call is a null dereference (`none`). -/
def processIpv6 (ext : Ext P) (d : MmtTlvDemuxer P) (tlvDataStream : ReadStream) :
    Option (MmtTlvDemuxer P) :=
  let ipv6 := ext.ipv6Unpack tlvDataStream
  if ipv6.1 = ext.consts.protocolUdp then
    let udpHeader := ext.udpUnpack ipv6.2
    if udpHeader.1 = ext.consts.portNtp then
      let ntp := ext.ntpUnpack udpHeader.2
      if !ntp.1 then some d
      else
        match d.demuxerHandler with
        | none => none
        | some _ => some (callHandler d (.ntp ntp.2.1))
    else some d
  else some d

/-- The `HeaderCompressedIpPacket` case of `processPacket`. -/
def processHeaderCompressed (ext : Ext P) (fuel : Nat) (d0 : MmtTlvDemuxer P)
    (tlvDataStream : ReadStream) : Option (MmtTlvDemuxer P) :=
  let cip := ext.compressedIPPacketUnpack d0.compressedIPPacket tlvDataStream
  let mmtRes := ext.mmtUnpack d0.mmt cip.2
  let d : MmtTlvDemuxer P := { d0 with compressedIPPacket := cip.1, mmt := mmtRes.1 }
  let scrambled : Bool :=
    match d.mmt.extensionHeaderScrambling with
    | some h => h.encryptionFlag == EncryptionFlag.ODD || h.encryptionFlag == EncryptionFlag.EVEN
    | none => false
  if scrambled && !d.acasCard.ready then some d
  else
    let d1 : MmtTlvDemuxer P :=
      if scrambled then
        { d with mmt := ext.mmtDecryptPayload d.mmt d.acasCard.lastDecryptedEcm }
      else d
    let mmtpPayloadStream := ReadStream.ofData d1.mmt.payload
    match d1.mmt.payloadType with
    | .Mpu => processMpu ext fuel d1 mmtpPayloadStream
    | .ContainsOneOrMoreControlMessage => processSignalingMessages ext fuel d1 mmtpPayloadStream
    | .Other => some d1

/-- `MmtTlvDemuxer::processPacket`.  `none` is an exception that escapes the
call (or a loop that outruns `fuel`). -/
def processPacket (ext : Ext P) (fuel : Nat) (d : MmtTlvDemuxer P) (stream : ReadStream) :
    Option (PacketResult P) :=
  if stream.leftBytes < 4 then some ⟨-1, d, stream⟩
  else
    let valid := isVaildTlv stream
    if !valid.1 then
      match valid.2.skip 1 with
      | none => none
      | some stream1 => some ⟨-2, d, stream1⟩
    else
      let unpacked := d.tlv.unpack valid.2
      let d1 : MmtTlvDemuxer P := { d with tlv := unpacked.2.1 }
      let stream1 := unpacked.2.2
      if !unpacked.1 then some ⟨-1, d1, stream1⟩
      else if stream1.leftBytes < d1.tlv.dataLength then some ⟨-1, d1, stream1⟩
      else
        let tlvDataStream := ReadStream.ofData d1.tlv.data
        let after : Option (MmtTlvDemuxer P) :=
          if d1.tlv.packetType = TlvPacketType.TransmissionControlSignalPacket then
            processTlvTable ext d1 tlvDataStream
          else if d1.tlv.packetType = TlvPacketType.Ipv6Packet then
            processIpv6 ext d1 tlvDataStream
          else if d1.tlv.packetType = TlvPacketType.HeaderCompressedIpPacket then
            processHeaderCompressed ext fuel d1 tlvDataStream
          else some d1
        match after with
        | none => none
        | some d2 => some ⟨1, d2, stream1⟩

end Demuxer

/-! ## Descriptor and table parsers -/

/-- `VideoComponentDescriptor::unpack` on the descriptor object `d`; `none` is
the return value `false`, otherwise the object and the reader after the call.
The base class parser `MmtDescriptorTemplate::unpack` is not among the sources
and is the parameter `headerUnpack`: it answers `none` when it returns `false`
or raises, otherwise the descriptor length it read and the reader behind the
header. -/
def VideoComponentDescriptor.unpack (headerUnpack : ReadStream → Option (Nat × ReadStream))
    (d : VideoComponentDescriptor) (stream : ReadStream) :
    Option (VideoComponentDescriptor × ReadStream) :=
  match headerUnpack stream with
  | none => none
  | some (descriptorLength, stream) =>
    let nstream := stream.sub descriptorLength
    match nstream.get8U with
    | none => none
    | some (uint8, nstream) =>
      let videoResolution := (uint8 &&& 0b11110000) >>> 4
      let videoAspectRatio := uint8 &&& 0b0001111
      match nstream.get8U with
      | none => none
      | some (uint8, nstream) =>
        let videoScanFlag := (uint8 &&& 0b10000000) >>> 7
        let videoFrameRate := uint8 &&& 0b00011111
        match nstream.getBe16U with
        | none => none
        | some (componentTag, nstream) =>
          match nstream.get8U with
          | none => none
          | some (uint8, nstream) =>
            let videoTransferCharacteristics := (uint8 &&& 0b11110000) >>> 4
            match nstream.read 3 with
            | none => none
            | some (language, nstream) =>
              let textLength := nstream.leftBytes
              let text : Option (List Nat) :=
                if textLength ≠ 0 then (nstream.read textLength).map Prod.fst
                else some d.text
              match text with
              | none => none
              | some text =>
                match stream.skip descriptorLength with
                | none => none
                | some stream =>
                  some ({ videoResolution := videoResolution,
                          videoAspectRatio := videoAspectRatio,
                          videoScanFlag := videoScanFlag,
                          videoFrameRate := videoFrameRate,
                          componentTag := componentTag,
                          videoTransferCharacteristics := videoTransferCharacteristics,
                          language := language ++ [0],
                          text := text }, stream)

/-- One entry of the broadcaster loop of the MH-BIT (see `mhBIt.cpp`); `D` is
the class of the descriptor list. -/
structure MhBit.Broadcaster (D : Type) where
  broadcasterId : Nat
  broadcasterDescriptorsLength : Nat
  descriptors : D
deriving DecidableEq, Repr

/-- Fields of `MhBit` (see `mhBIt.cpp`); those of the base class are left
out. -/
structure MhBit (D : Type) where
  sectionSyntaxIndicator : Nat
  sectionLength : Nat
  originalNetworkId : Nat
  versionNumber : Nat
  currentNextIndicator : Nat
  sectionNumber : Nat
  lastSectionNumber : Nat
  broadcastViewPropriety : Nat
  firstDescriptorsLength : Nat
  descriptors : D
  broadcasters : List (MhBit.Broadcaster D)
  crc32 : Nat
deriving DecidableEq, Repr

/-- The collaborators of `MhBit::unpack` whose code is not among the sources:
the base class parser `MmtTableBase::unpack` (its return value and the reader
after it, `none` when it raises), a newly constructed descriptor list, and the
descriptor list parser (`none` when it raises). -/
structure SectionExt (D : Type) where
  tableBaseUnpack : ReadStream → Option (Bool × ReadStream)
  descriptorsNew : D
  descriptorsUnpack : D → ReadStream → Option D

/-- `MhBit::Broadcaster::unpack` on a newly constructed entry; `none` is the
return value `false`. -/
def MhBit.Broadcaster.unpack {D : Type} (ext : SectionExt D) (stream : ReadStream) :
    Option (MhBit.Broadcaster D × ReadStream) :=
  match stream.get8U with
  | none => none
  | some (broadcasterId, stream) =>
    match stream.getBe16U with
    | none => none
    | some (uint16, stream) =>
      let broadcasterDescriptorsLength := uint16 &&& 0b0000111111111111
      let nstream := stream.sub broadcasterDescriptorsLength
      match ext.descriptorsUnpack ext.descriptorsNew nstream with
      | none => none
      | some descriptors =>
        match stream.skip broadcasterDescriptorsLength with
        | none => none
        | some stream =>
          some ({ broadcasterId := broadcasterId,
                  broadcasterDescriptorsLength := broadcasterDescriptorsLength,
                  descriptors := descriptors }, stream)

/-- The loop `while (stream.leftBytes())` of `MhBit::unpack`.  The outer `none`
is the model running out of fuel; `some none` is an entry whose `unpack`
returned `false`; otherwise the broadcasters and the reader when the loop
ends. -/
def MhBit.broadcasterLoop {D : Type} (ext : SectionExt D) :
    Nat → ReadStream → List (MhBit.Broadcaster D) →
      Option (Option (List (MhBit.Broadcaster D) × ReadStream))
  | 0, _, _ => none
  | fuel + 1, stream, broadcasters =>
    if stream.leftBytes ≠ 0 then
      match MhBit.Broadcaster.unpack ext stream with
      | none => some none
      | some (entry, stream1) =>
        MhBit.broadcasterLoop ext fuel stream1 (broadcasters ++ [entry])
    else some (some (broadcasters, stream))

/-- The statements of `MhBit::unpack` before the broadcaster loop; `none` is
the return value `false`. -/
def MhBit.unpackHeader {D : Type} (ext : SectionExt D) (bit : MhBit D) (stream : ReadStream) :
    Option (MhBit D × ReadStream) :=
  match ext.tableBaseUnpack stream with
  | none => none
  | some (ok, stream) =>
    if !ok then none
    else
      match stream.getBe16U with
      | none => none
      | some (uint16, stream) =>
        let sectionSyntaxIndicator := (uint16 &&& 0b1000000000000000) >>> 15
        let sectionLength := uint16 &&& 0b0000111111111111
        match stream.getBe16U with
        | none => none
        | some (originalNetworkId, stream) =>
          match stream.get8U with
          | none => none
          | some (uint8, stream) =>
            let versionNumber := (uint8 &&& 0b00111110) >>> 1
            let currentNextIndicator := uint8 &&& 1
            match stream.get8U with
            | none => none
            | some (sectionNumber, stream) =>
              match stream.get8U with
              | none => none
              | some (lastSectionNumber, stream) =>
                match stream.getBe16U with
                | none => none
                | some (uint16, stream) =>
                  let broadcastViewPropriety := (uint16 &&& 0b0001000000000000) >>> 12
                  let firstDescriptorsLength := uint16 &&& 0b0000111111111111
                  let nstream := stream.sub firstDescriptorsLength
                  match ext.descriptorsUnpack bit.descriptors nstream with
                  | none => none
                  | some descriptors =>
                    match stream.skip firstDescriptorsLength with
                    | none => none
                    | some stream =>
                      some ({ bit with
                              sectionSyntaxIndicator := sectionSyntaxIndicator,
                              sectionLength := sectionLength,
                              originalNetworkId := originalNetworkId,
                              versionNumber := versionNumber,
                              currentNextIndicator := currentNextIndicator,
                              sectionNumber := sectionNumber,
                              lastSectionNumber := lastSectionNumber,
                              broadcastViewPropriety := broadcastViewPropriety,
                              firstDescriptorsLength := firstDescriptorsLength,
                              descriptors := descriptors }, stream)

/-- `MhBit::unpack` on the table object `bit`.  The outer `none` is the model
running out of fuel; `some none` is the return value `false`; otherwise the
return value is `true`, with the object and the reader after the call. -/
def MhBit.unpack {D : Type} (ext : SectionExt D) (fuel : Nat) (bit : MhBit D)
    (stream : ReadStream) : Option (Option (MhBit D × ReadStream)) :=
  match MhBit.unpackHeader ext bit stream with
  | none => some none
  | some (bit1, stream1) =>
    match MhBit.broadcasterLoop ext fuel stream1 bit1.broadcasters with
    | none => none
    | some none => some none
    | some (some (broadcasters, stream2)) =>
      match stream2.getBe32U with
      | none => some none
      | some (crc32, stream3) =>
        some (some ({ bit1 with broadcasters := broadcasters, crc32 := crc32 }, stream3))

/-! ## Concrete collaborators for closed examples -/

/-- Modelled from the spec: the constructor `MmtTlvDemuxer()` leaves every map
empty, no handler installed and the card not ready ("no ECM has been decrypted
yet"). -/
def MmtTlvDemuxer.new {P : Type} : MmtTlvDemuxer P :=
  { tlv := ⟨0, 0, []⟩, compressedIPPacket := ⟨[]⟩,
    mmt := ⟨0, 0, false, .Other, none, []⟩,
    mpu := ⟨0, false, .NotFragmented, false, .Mfu, []⟩,
    mapAssembler := [], mapStream := [], mapStreamByStreamIdx := [],
    acasCard := ⟨false, []⟩, demuxerHandler := none, processorCalls := [] }

/-- Sample constants (the ARIB STD-B60 table and message ids, UDP and NTP). -/
def Consts.sample : Consts :=
  { tableEcm := 0x82, tableMpt := 0x20, tableMhCdt := 0xA2,
    tableMhEit := (List.range 17).map (fun i => 0x8B + i),
    tableMhSdt := 0x9F, tableMhTot := 0xA1, tablePlt := 0x80, tableMhBit := 0x9D,
    messagePa := 0x0000, messageM2Section := 0x8000, messageM2ShortSection := 0x8002,
    protocolUdp := 17, portNtp := 123 }

/-- Sample collaborators: no table is known to the factories, the header
parsers read nothing and report failure, the assembler operations leave the
assembler alone, and there is no MFU processor. -/
def Ext.idle : Ext Unit :=
  { consts := Consts.sample,
    tlvTableFactory := fun _ => none,
    mmtTableFactory := fun _ => none,
    ipv6Unpack := fun s => (0, s),
    udpUnpack := fun s => (0, s),
    ntpUnpack := fun s => (false, ⟨[]⟩, s),
    compressedIPPacketUnpack := fun c s => (c, s),
    mmtUnpack := fun m s => (m, s),
    mmtDecryptPayload := fun m _ => m,
    mpuUnpack := fun m s => (false, m, s),
    dataUnitUnpack := fun s _ _ => (false, ⟨[]⟩, s),
    signalingMessageUnpack := fun s => (false, ⟨false, false, .NotFragmented, []⟩, s),
    paMessageUnpack := fun s => ([], s),
    m2SectionMessageUnpack := fun s => s,
    m2ShortSectionMessageUnpack := fun s => s,
    checkState := fun a _ => a,
    assemble := fun a _ _ _ => (false, a),
    assemblerClear := fun a => a,
    mfuDataProcessorCreate := fun _ => none,
    mfuProcess := fun _ s _ => (none, s),
    decryptEcm := fun c _ => c }

/-- A stream whose timestamp cache is full: 100 entries with sequence numbers
10, ..., 109, none older than the last MPU sequence number 10. -/
def MmtStream.sampleFull : MmtStream Unit :=
  { (MmtStream.new 0x100 : MmtStream Unit) with
    assetType := AssetType.hev1,
    lastMpuSequenceNumber := 10,
    mpuTimestamps := (List.range 100).map (fun i => ⟨i + 10, 0⟩) }

/-- A stream with a short cache holding two stale entries (sequence numbers 2
and 1, older than the last MPU sequence number 3). -/
def MmtStream.sampleStale : MmtStream Unit :=
  { (MmtStream.new 0x100 : MmtStream Unit) with
    assetType := AssetType.hev1,
    lastMpuSequenceNumber := 3,
    mpuTimestamps := [⟨5, 50⟩, ⟨2, 20⟩, ⟨1, 10⟩, ⟨7, 70⟩] }

/-- A demuxer with the full-cache sample stream registered under `0x100`. -/
def MmtTlvDemuxer.sample : MmtTlvDemuxer Unit :=
  { (MmtTlvDemuxer.new : MmtTlvDemuxer Unit) with
    mapStream := [(0x100, MmtStream.sampleFull)] }

/-- An MPT that announces `0x100` as HEVC with a timestamp descriptor of 150
entries and an extended timestamp descriptor of 120 entries, and `0x101` as AAC
with no descriptor. -/
def Mpt.sample : Mpt :=
  { assets :=
      [ { assetType := AssetType.hev1,
          locationInfos := [⟨0, 0x100⟩],
          descriptors :=
            [ .mpuTimestamp ⟨(List.range 150).map (fun i => ⟨i + 50, i⟩)⟩,
              .mpuExtendedTimestamp
                ⟨true, 90000, (List.range 120).map (fun i => ⟨i + 50, 0, 1, [0], [0]⟩)⟩ ] },
        { assetType := AssetType.mp4a,
          locationInfos := [⟨0, 0x101⟩],
          descriptors := [] } ] }

/-- Collaborators as in `Ext.idle`, except that every MMTP packet is reported
to carry the scrambling extension with encryption flag `ODD`. -/
def Ext.scrambledOdd : Ext Unit :=
  { Ext.idle with
    mmtUnpack := fun m s => ({ m with extensionHeaderScrambling := some ⟨.ODD⟩ }, s) }

/-- A header-compressed IP TLV packet: the TLV header `7F 02 00 1A` and a
26-byte payload (compressed IP header, MMTP header with an extension header,
two payload bytes). -/
def scrambledPacket : List Nat :=
  [0x7F, 0x02, 0x00, 0x1A,
   0x00, 0x10, 0x61,
   0x02, 0x00, 0x01, 0x00, 0x00, 0x00, 0x00, 0x00, 0x00, 0x00, 0x00, 0x01,
   0x00, 0x00, 0x00, 0x05, 0x80, 0x01, 0x00, 0x01, 0x18,
   0xAB, 0xCD]

/-- A stream with last MPU sequence number 10 and two cached extended
timestamps (sequence numbers 10 and 12). -/
def MmtStream.sampleExtended : MmtStream Unit :=
  { (MmtStream.new 0x100 : MmtStream Unit) with
    assetType := AssetType.hev1,
    lastMpuSequenceNumber := 10,
    mpuExtendedTimestamps := [⟨10, 1, 1, [0], [0]⟩, ⟨12, 2, 1, [0], [0]⟩] }

/-- An extended timestamp descriptor all of whose entries (sequence numbers 3,
9 and 9) are older than sequence number 10. -/
def MpuExtendedTimestampDescriptor.sampleStale : MpuExtendedTimestampDescriptor :=
  ⟨true, 90000, [⟨3, 7, 2, [1, 2], [3, 4]⟩, ⟨9, 7, 1, [1], [3]⟩, ⟨9, 8, 1, [5], [6]⟩]⟩

/-- An MPT that announces nothing in-band: its only asset has a location of
type 1 and carries a timestamp descriptor. -/
def Mpt.sampleNoInBand : Mpt :=
  { assets :=
      [ { assetType := AssetType.hev1,
          locationInfos := [⟨1, 0x100⟩],
          descriptors := [.mpuTimestamp ⟨[⟨77, 7⟩]⟩] } ] }

/-- Collaborators as in `Ext.idle`, except that every MPU payload header
unpacks to an MFU fragment with MPU sequence number 12, not fragmented and not
aggregated. -/
def Ext.mpuTwelve : Ext Unit :=
  { Ext.idle with
    mpuUnpack := fun _ s => (true, ⟨12, false, .NotFragmented, true, .Mfu, [0xAA]⟩, s) }

/-- A demuxer with one HEVC stream under packet id `0x100` (last MPU sequence
number 10), whose MMTP packet is for `0x100` with the given RAP flag, and whose
assembler for `0x100` is the given one. -/
def MmtTlvDemuxer.sampleMpu (rapFlag : Bool) (assembler : FragmentAssembler) :
    MmtTlvDemuxer Unit :=
  { (MmtTlvDemuxer.new : MmtTlvDemuxer Unit) with
    mmt := ⟨0x100, 8, rapFlag, .Mpu, none, []⟩,
    mapStream :=
      [(0x100, { (MmtStream.new 0x100 : MmtStream Unit) with
                 assetType := AssetType.hev1, lastMpuSequenceNumber := 10,
                 mfuDataProcessor := some () })],
    mapAssembler := [(0x100, assembler)],
    demuxerHandler := some [] }

/-- Collaborators for signaling examples: a signaling message header unpacks to
an aggregated, not fragmented message with 16-bit lengths whose payload is the
rest of the reader; an M2 section message header is two bytes long; the MMT
table factory knows the PLT (table id `0x80`), which it unpacks to the rest of
the reader; the assembler emits what it is given. -/
def Ext.signaling : Ext Unit :=
  { Ext.idle with
    signalingMessageUnpack := fun s => (true, ⟨true, false, .NotFragmented, s.remaining⟩, s),
    m2SectionMessageUnpack := fun s => { s with cur := s.cur + 2 },
    mmtTableFactory := fun tableId =>
      if tableId = 0x80 then some (fun s => (.plt s.remaining, { s with cur := s.buffer.length }))
      else none,
    assemble := fun a bytes _ _ => (true, { a with data := bytes }),
    assemblerClear := fun _ => FragmentAssembler.new }

/-- A demuxer with a handler installed and an MMTP packet for packet id 0. -/
def MmtTlvDemuxer.sampleHandler : MmtTlvDemuxer Unit :=
  { (MmtTlvDemuxer.new : MmtTlvDemuxer Unit) with demuxerHandler := some [] }

/-- A demuxer with two registered streams: the full-cache HEVC stream under
`0x100` and an AAC stream under `0x200`. -/
def MmtTlvDemuxer.sampleTwo : MmtTlvDemuxer Unit :=
  { (MmtTlvDemuxer.new : MmtTlvDemuxer Unit) with
    mapStream :=
      [(0x100, MmtStream.sampleFull),
       (0x200, { (MmtStream.new 0x200 : MmtStream Unit) with assetType := AssetType.mp4a })] }

/-- An MPT that announces `0x100` as HEVC with a stream identification
descriptor and no timestamp descriptor, and `0x101` as AAC; `0x200` is not
announced. -/
def Mpt.sampleKeep : Mpt :=
  { assets :=
      [ { assetType := AssetType.hev1,
          locationInfos := [⟨0, 0x100⟩],
          descriptors := [.mhStreamIdentification 5] },
        { assetType := AssetType.mp4a,
          locationInfos := [⟨0, 0x101⟩],
          descriptors := [] } ] }

/-- Collaborators as in `Ext.idle`, with MFU processors that record the asset
type they were created for. -/
def Ext.typed : Ext Nat :=
  { consts := Consts.sample,
    tlvTableFactory := fun _ => none,
    mmtTableFactory := fun _ => none,
    ipv6Unpack := fun s => (0, s),
    udpUnpack := fun s => (0, s),
    ntpUnpack := fun s => (false, ⟨[]⟩, s),
    compressedIPPacketUnpack := fun c s => (c, s),
    mmtUnpack := fun m s => (m, s),
    mmtDecryptPayload := fun m _ => m,
    mpuUnpack := fun m s => (false, m, s),
    dataUnitUnpack := fun s _ _ => (false, ⟨[]⟩, s),
    signalingMessageUnpack := fun s => (false, ⟨false, false, .NotFragmented, []⟩, s),
    paMessageUnpack := fun s => ([], s),
    m2SectionMessageUnpack := fun s => s,
    m2ShortSectionMessageUnpack := fun s => s,
    checkState := fun a _ => a,
    assemble := fun a _ _ _ => (false, a),
    assemblerClear := fun a => a,
    mfuDataProcessorCreate := fun assetType => some assetType,
    mfuProcess := fun _ s _ => (none, s),
    decryptEcm := fun c _ => c }

/-- A demuxer with one TTML stream under `0x100`, with a processor created for
TTML and one cached timestamp. -/
def MmtTlvDemuxer.sampleTtml : MmtTlvDemuxer Nat :=
  { (MmtTlvDemuxer.new : MmtTlvDemuxer Nat) with
    mapStream :=
      [(0x100, { (MmtStream.new 0x100 : MmtStream Nat) with
                 assetType := AssetType.stpp,
                 lastMpuSequenceNumber := 4,
                 mfuDataProcessor := some AssetType.stpp,
                 mpuTimestamps := [⟨4, 40⟩] })] }

/-- An MPT in which two assets announce the same packet id `0x100` in-band, the
first as HEVC and the second as AAC. -/
def Mpt.sampleTwice : Mpt :=
  { assets :=
      [ { assetType := AssetType.hev1, locationInfos := [⟨0, 0x100⟩], descriptors := [] },
        { assetType := AssetType.mp4a, locationInfos := [⟨0, 0x100⟩], descriptors := [] } ] }

/-- An MPT that announces `0x100` in-band once, as AAC, with a timestamp
descriptor of two entries. -/
def Mpt.sampleRetype : Mpt :=
  { assets :=
      [ { assetType := AssetType.mp4a,
          locationInfos := [⟨0, 0x100⟩],
          descriptors := [.mpuTimestamp ⟨[⟨700, 7⟩, ⟨701, 8⟩]⟩] } ] }

/-- An MPT whose only asset has asset type `aapp` and announces packet id
`0x200` in-band. -/
def Mpt.sampleApplication : Mpt :=
  { assets := [ { assetType := AssetType.aapp, locationInfos := [⟨0, 0x200⟩], descriptors := [] } ] }

/-- An MPT that declares, in this order, `0x300` as AAC, then `0x100` as HEVC
(with a second location that is not in-band), then `0x050` with an asset type
(`0x6D703476`) for which no stream is registered. -/
def Mpt.sampleOrder : Mpt :=
  { assets :=
      [ { assetType := AssetType.mp4a, locationInfos := [⟨0, 0x300⟩], descriptors := [] },
        { assetType := AssetType.hev1,
          locationInfos := [⟨0, 0x100⟩, ⟨1, 0x999⟩],
          descriptors := [.mhStreamIdentification 5] },
        { assetType := 0x6D703476, locationInfos := [⟨0, 0x050⟩], descriptors := [] } ] }

/-- A timestamp descriptor that repeats the sequence number 7 and also carries
the sequence number 5, which a cache may hold already. -/
def MpuTimestampDescriptor.sampleRepeat : MpuTimestampDescriptor :=
  ⟨[⟨7, 70⟩, ⟨5, 55⟩, ⟨7, 71⟩, ⟨8, 80⟩]⟩

/-- An extended timestamp descriptor that repeats the sequence number 12 and
carries a stale entry (sequence number 3). -/
def MpuExtendedTimestampDescriptor.sampleRepeat : MpuExtendedTimestampDescriptor :=
  ⟨false, 0, [⟨12, 5, 1, [1], [2]⟩, ⟨3, 0, 1, [0], [0]⟩, ⟨14, 6, 1, [3], [4]⟩,
    ⟨14, 7, 1, [5], [6]⟩]⟩

/-- Collaborators as in `Ext.idle`, with a TLV table factory that creates a
`Nit` for table id `0x40` and an `Ecm` for table id `0x82` (the value of
`tableEcm` in `Consts.sample`); both tables unpack the rest of the reader. -/
def Ext.tlvTables : Ext Unit :=
  { Ext.idle with
    tlvTableFactory := fun tableId =>
      if tableId = 0x40 then
        some (fun s => (.nit s.remaining, { s with cur := s.buffer.length }))
      else if tableId = 0x82 then
        some (fun s => (.ecm ⟨s.remaining⟩, { s with cur := s.buffer.length }))
      else none }

/-- Collaborators as in `Ext.idle`, with an MFU processor for every asset type
that reports, for each call, the stream index of the stream it was given and
the bytes it was given. -/
def Ext.reporting : Ext Unit :=
  { Ext.idle with
    mfuDataProcessorCreate := fun _ => some (),
    mfuProcess := fun _ s data => (some ⟨s.streamIndex, data⟩, s) }

/-- The demuxer after `processMmtPackageTable` on `Mpt.sampleOrder` (which
declares `0x300` before `0x100`), started with a handler installed and an
empty registry, when an MMTP packet for packet id `0x300` has been unpacked. -/
def MmtTlvDemuxer.sampleDeclared : MmtTlvDemuxer Unit :=
  { processMmtPackageTable Ext.reporting MmtTlvDemuxer.sampleHandler Mpt.sampleOrder with
    mmt := ⟨0x300, 8, true, .Mpu, none, []⟩ }

/-- A sample descriptor header parser: a 16-bit tag followed by an 8-bit
descriptor length. -/
def sampleDescriptorHeader (s : ReadStream) : Option (Nat × ReadStream) :=
  match s.getBe16U with
  | none => none
  | some (_, s1) => s1.get8U

/-- A video component descriptor object with every field zero or empty. -/
def VideoComponentDescriptor.sampleEmpty : VideoComponentDescriptor :=
  ⟨0, 0, 0, 0, 0, 0, [], []⟩

/-- A video component descriptor: tag `80 10`, length 10, the eight fixed body
bytes `51 85 00 30 20 6A 70 6E` and the text `41 42`, followed by one byte that
belongs to the next descriptor. -/
def VideoComponentDescriptor.sampleBytes : List Nat :=
  [0x80, 0x10, 0x0A, 0x51, 0x85, 0x00, 0x30, 0x20, 0x6A, 0x70, 0x6E, 0x41, 0x42, 0xFF]

/-- Sample collaborators of `MhBit::unpack`: the base class parser reads the
table id and succeeds, and a descriptor list is the bytes it is given. -/
def SectionExt.sample : SectionExt (List Nat) :=
  { tableBaseUnpack := fun s => s.get8U.map (fun r => (true, r.2)),
    descriptorsNew := [],
    descriptorsUnpack := fun _ s => some s.remaining }

/-- A newly constructed MH-BIT object. -/
def MhBit.sampleEmpty : MhBit (List Nat) :=
  ⟨0, 0, 0, 0, 0, 0, 0, 0, 0, [], [], 0⟩

/-- A well-formed MH-BIT section: table id `9D`, the fixed fields
`B0 12 00 0B C1 00 00`, `F0 00` (first descriptors length 0), one broadcaster
entry `01 F0 02 AA BB` (broadcaster id 1, two bytes of descriptors) and the
CRC32 `DE AD BE EF`. -/
def MhBit.sampleSection : List Nat :=
  [0x9D, 0xB0, 0x12, 0x00, 0x0B, 0xC1, 0x00, 0x00, 0xF0, 0x00,
   0x01, 0xF0, 0x02, 0xAA, 0xBB,
   0xDE, 0xAD, 0xBE, 0xEF]

/-- An MPT that announces `0x100` in-band once, with asset type `aapp`, and
carries a timestamp descriptor for it. -/
def Mpt.sampleRetypeApplication : Mpt :=
  { assets :=
      [ { assetType := AssetType.aapp,
          locationInfos := [⟨0, 0x100⟩],
          descriptors := [.mpuTimestamp ⟨[⟨700, 7⟩]⟩] } ] }

/-! ## Theorems -/

section Theorems

variable {P : Type}

theorem ReadStream.leftBytes_eq_length_remaining (s : ReadStream) :
    s.leftBytes = s.remaining.length := by
  simp [ReadStream.leftBytes, ReadStream.remaining]

theorem ReadStream.peek_two (stream : ReadStream) (b0 b1 : Nat) (rest : List Nat)
    (h : stream.remaining = b0 :: b1 :: rest) :
    stream.peek 2 = some ([b0, b1], stream) := by
  have hl : ¬ stream.leftBytes < 2 := by
    rw [ReadStream.leftBytes_eq_length_remaining, h]; simp
  simp [ReadStream.peek, hl, h]

theorem isVaildTlv_of_remaining (stream : ReadStream) (b0 b1 : Nat) (rest : List Nat)
    (h : stream.remaining = b0 :: b1 :: rest) :
    isVaildTlv stream = (decide (b0 = 0x7F ∧ (b1 ≤ 0x04 ∨ 0xFD ≤ b1)), stream) := by
  unfold isVaildTlv
  rw [ReadStream.peek_two stream b0 b1 rest h]
  by_cases h0 : b0 = 0x7F
  · by_cases h1 : 0x04 < b1 ∧ b1 < 0xFD
    · have : ¬ (b1 ≤ 4 ∨ 253 ≤ b1) := by omega
      simp [h0, h1, this]
    · have : b1 ≤ 4 ∨ 253 ≤ b1 := by omega
      simp [h0, h1, this]
  · simp [h0]

/-! ### The search loops of the timestamp merges -/

theorem overwriteFirst_eq_none {α : Type} (p : α → Bool) (f : α → α) (l : List α)
    (h : ∀ a ∈ l, p a = false) : overwriteFirst p f l = none := by
  induction l with
  | nil => rfl
  | cons a rest ih =>
    have ha : p a = false := h a (List.mem_cons_self a rest)
    have hr : overwriteFirst p f rest = none :=
      ih (fun b hb => h b (List.mem_cons_of_mem a hb))
    simp [overwriteFirst, ha, hr]

theorem overwriteFirst_length {α : Type} (p : α → Bool) (f : α → α) :
    ∀ (l l1 : List α), overwriteFirst p f l = some l1 → l1.length = l.length := by
  intro l
  induction l with
  | nil => intro l1 h; simp [overwriteFirst] at h
  | cons a rest ih =>
    intro l1 h
    unfold overwriteFirst at h
    by_cases ha : p a = true
    · simp [ha] at h
      subst h
      simp
    · simp [ha] at h
      cases hr : overwriteFirst p f rest with
      | none => simp [hr] at h
      | some rest1 =>
        simp [hr] at h
        subst h
        simp [ih rest1 hr]

theorem overwriteFirst_first {α : Type} (p : α → Bool) (f : α → α) :
    ∀ (l : List α), (∃ a ∈ l, p a = true) →
      ∃ i, ∃ hi : i < l.length, p (l.get ⟨i, hi⟩) = true ∧
        (∀ j, ∀ hj : j < l.length, j < i → p (l.get ⟨j, hj⟩) = false) ∧
        overwriteFirst p f l = some (l.set i (f (l.get ⟨i, hi⟩))) := by
  intro l
  induction l with
  | nil => intro h; obtain ⟨a, ha, _⟩ := h; simp at ha
  | cons a rest ih =>
    intro h
    by_cases ha : p a = true
    · refine ⟨0, by simp, ?_, ?_, ?_⟩
      · simpa using ha
      · intro j hj hlt; omega
      · simp [overwriteFirst, ha]
    · have hrest : ∃ b ∈ rest, p b = true := by
        obtain ⟨b, hb, hpb⟩ := h
        rcases List.mem_cons.mp hb with rfl | hb1
        · exact absurd hpb ha
        · exact ⟨b, hb1, hpb⟩
      obtain ⟨i, hi, hpi, hbefore, heq⟩ := ih hrest
      refine ⟨i + 1, by simp; omega, ?_, ?_, ?_⟩
      · simpa using hpi
      · intro j hj hlt
        cases j with
        | zero => simpa using ha
        | succ k =>
          have hk : k < rest.length := by simpa using hj
          simpa using hbefore k hk (by omega)
      · simp [overwriteFirst, ha, heq]

theorem minIndexLoop_spec :
    ∀ (seqs : List Nat) (i minIndex minSeq : Nat),
      (minIndexLoop seqs i minIndex minSeq = minIndex ∧ ∀ s ∈ seqs, minSeq ≤ s) ∨
      (∃ j, ∃ hj : j < seqs.length, minIndexLoop seqs i minIndex minSeq = i + j ∧
        seqs.get ⟨j, hj⟩ < minSeq ∧ ∀ s ∈ seqs, seqs.get ⟨j, hj⟩ ≤ s) := by
  intro seqs
  induction seqs with
  | nil => intro i minIndex minSeq; left; simp [minIndexLoop]
  | cons s rest ih =>
    intro i minIndex minSeq
    by_cases hlt : minSeq > s
    · rcases ih (i + 1) i s with ⟨hr, hall⟩ | ⟨j, hj, hr, hjlt, hall⟩
      · right
        refine ⟨0, by simp, ?_, ?_, ?_⟩
        · simp [minIndexLoop, hlt, hr]
        · simpa using hlt
        · intro t ht
          rcases List.mem_cons.mp ht with rfl | ht1
          · simp
          · simpa using hall t ht1
      · right
        refine ⟨j + 1, by simp; omega, ?_, ?_, ?_⟩
        · simp [minIndexLoop, hlt, hr]; omega
        · simp only [List.get_eq_getElem, List.getElem_cons_succ]
          simp only [List.get_eq_getElem] at hjlt
          omega
        · intro t ht
          simp only [List.get_eq_getElem, List.getElem_cons_succ]
          simp only [List.get_eq_getElem] at hjlt hall
          rcases List.mem_cons.mp ht with rfl | ht1
          · omega
          · exact hall t ht1
    · rcases ih (i + 1) minIndex minSeq with ⟨hr, hall⟩ | ⟨j, hj, hr, hjlt, hall⟩
      · left
        refine ⟨by simp [minIndexLoop, hlt, hr], ?_⟩
        intro t ht
        rcases List.mem_cons.mp ht with rfl | ht1
        · omega
        · exact hall t ht1
      · right
        refine ⟨j + 1, by simp; omega, ?_, ?_, ?_⟩
        · simp [minIndexLoop, hlt, hr]; omega
        · simp only [List.get_eq_getElem, List.getElem_cons_succ]
          simp only [List.get_eq_getElem] at hjlt
          exact hjlt
        · intro t ht
          simp only [List.get_eq_getElem, List.getElem_cons_succ]
          simp only [List.get_eq_getElem] at hjlt hall
          rcases List.mem_cons.mp ht with rfl | ht1
          · omega
          · exact hall t ht1

/-- The index found by the minimum search over a non-empty cache of 32-bit
sequence numbers is in range and holds a minimum. -/
theorem minIndexLoop_min (seqs : List Nat) (hne : 0 < seqs.length)
    (hb : ∀ s ∈ seqs, s < 2 ^ 32) :
    ∃ hi : minIndexLoop seqs 0 0 0xFFFFFFFF < seqs.length,
      ∀ s ∈ seqs, seqs.get ⟨minIndexLoop seqs 0 0 0xFFFFFFFF, hi⟩ ≤ s := by
  rcases minIndexLoop_spec seqs 0 0 0xFFFFFFFF with ⟨hr, hall⟩ | ⟨j, hj, hr, _, hall⟩
  · rw [hr]
    refine ⟨hne, ?_⟩
    intro s hs
    have h0 : seqs.get ⟨0, hne⟩ ∈ seqs := List.get_mem seqs 0 hne
    have := hb _ h0
    have := hall s hs
    omega
  · have hrj : minIndexLoop seqs 0 0 0xFFFFFFFF = j := by omega
    simp only [hrj]
    exact ⟨hj, hall⟩

/-- C1: for a reader whose next two bytes are `b0`, `b1`, `isVaildTlv` answers
true exactly when `b0 = 0x7F` and (`b1 ≤ 0x04` or `b1 ≥ 0xFD`), and the reader
after the call is the reader before it. -/
theorem isVaildTlv_iff_sync_and_type (stream : ReadStream) (b0 b1 : Nat) (rest : List Nat)
    (h : stream.remaining = b0 :: b1 :: rest) :
    ((isVaildTlv stream).1 = true ↔ b0 = 0x7F ∧ (b1 ≤ 0x04 ∨ 0xFD ≤ b1)) ∧
      (isVaildTlv stream).2 = stream := by
  rw [isVaildTlv_of_remaining stream b0 b1 rest h]
  simp

/-- Witness of C1 on the reader over `7F 03 00 01`. -/
theorem isVaildTlv_iff_sync_and_type_witness :
    (((isVaildTlv ⟨[0x7F, 0x03, 0x00, 0x01], 0⟩).1 = true ↔
        0x7F = 0x7F ∧ (0x03 ≤ 0x04 ∨ 0xFD ≤ 0x03)) ∧
      (isVaildTlv ⟨[0x7F, 0x03, 0x00, 0x01], 0⟩).2 = ⟨[0x7F, 0x03, 0x00, 0x01], 0⟩) :=
  isVaildTlv_iff_sync_and_type ⟨[0x7F, 0x03, 0x00, 0x01], 0⟩ 0x7F 0x03 [0x00, 0x01] rfl

/-- C2: on a reader with at least 4 bytes left whose first two bytes `b0`, `b1`
are not a valid TLV start, `processPacket` returns `-2`, the reader has advanced
by exactly one byte, and the demuxer (handler log, stream registry, assemblers
and every other member) is the demuxer before the call. -/
theorem processPacket_invalid_framing (ext : Ext P) (fuel : Nat) (d : MmtTlvDemuxer P)
    (stream : ReadStream) (b0 b1 : Nat) (rest : List Nat)
    (h4 : 4 ≤ stream.leftBytes) (h : stream.remaining = b0 :: b1 :: rest)
    (hbad : b0 ≠ 0x7F ∨ (0x04 < b1 ∧ b1 < 0xFD)) :
    processPacket ext fuel d stream =
      some ⟨-2, d, { buffer := stream.buffer, cur := stream.cur + 1 }⟩ := by
  have hv : ¬ (b0 = 0x7F ∧ (b1 ≤ 0x04 ∨ 0xFD ≤ b1)) := by omega
  have h1 : ¬ stream.leftBytes < 1 := by omega
  have h4n : ¬ stream.leftBytes < 4 := by omega
  unfold processPacket
  rw [isVaildTlv_of_remaining stream b0 b1 rest h]
  simp [h4n, hv, ReadStream.skip, h1]

/-- Witness of C2 on the buffer `AA 7F 03 00 01 42`. -/
theorem processPacket_invalid_framing_witness :
    processPacket Ext.idle 0 MmtTlvDemuxer.new ⟨[0xAA, 0x7F, 0x03, 0x00, 0x01, 0x42], 0⟩ =
      some ⟨-2, MmtTlvDemuxer.new, ⟨[0xAA, 0x7F, 0x03, 0x00, 0x01, 0x42], 1⟩⟩ :=
  processPacket_invalid_framing Ext.idle 0 MmtTlvDemuxer.new
    ⟨[0xAA, 0x7F, 0x03, 0x00, 0x01, 0x42], 0⟩ 0xAA 0x7F [0x03, 0x00, 0x01, 0x42]
    (by decide) rfl (by decide)

/-- C3: on a reader with fewer than 4 bytes left (the empty input included)
`processPacket` returns `-1`, the reader is the reader before the call, and the
demuxer is the demuxer before the call, so no callback was invoked and no state
changed. -/
theorem processPacket_short_input (ext : Ext P) (fuel : Nat) (d : MmtTlvDemuxer P)
    (stream : ReadStream) (h : stream.leftBytes < 4) :
    processPacket ext fuel d stream = some ⟨-1, d, stream⟩ := by
  unfold processPacket
  simp [h]

/-- Witness of C3 on the empty input. -/
theorem processPacket_short_input_witness :
    processPacket Ext.idle 0 MmtTlvDemuxer.new ⟨[], 0⟩ =
      some ⟨-1, MmtTlvDemuxer.new, ⟨[], 0⟩⟩ :=
  processPacket_short_input Ext.idle 0 MmtTlvDemuxer.new ⟨[], 0⟩ (by decide)

/-- C4, as stated, fails: on the one-byte input `00` the status is `-1`, not
`-2`, and the cursor stays at 0, not 1. -/
theorem processPacket_single_zero_not_resync :
    (processPacket Ext.idle 0 MmtTlvDemuxer.new ⟨[0x00], 0⟩).map
        (fun r => (r.status, r.stream.cur)) = some (-1, 0) ∧
      (processPacket Ext.idle 0 MmtTlvDemuxer.new ⟨[0x00], 0⟩).map
        (fun r => (r.status, r.stream.cur)) ≠ some (-2, 1) := by
  constructor
  · rfl
  · decide

/-- C4, amended: on the one-byte input `00` `processPacket` returns `-1` and
consumes no byte (and changes no demuxer state), whatever the collaborators and
the demuxer state. -/
theorem processPacket_single_zero (ext : Ext P) (fuel : Nat) (d : MmtTlvDemuxer P) :
    processPacket ext fuel d ⟨[0x00], 0⟩ = some ⟨-1, d, ⟨[0x00], 0⟩⟩ := by
  unfold processPacket
  simp [ReadStream.leftBytes]

/-- C5 at its own example: on `AA 7F 03 00 01 42` the first call returns `-2`
with only `AA` consumed; the next call unpacks the complete TLV packet
`7F 03 00 01 42` (the cursor is at the end of the buffer) and then returns `-1`,
not `+1`: the length check after `tlv.unpack` compares the bytes that follow the
packet with its data length.  The payload `42` is not dispatched: the demuxer
differs from the one before the call in its `tlv` member only. -/
theorem processPacket_resync_example (ext : Ext P) (fuel : Nat) (d : MmtTlvDemuxer P) :
    processPacket ext fuel d ⟨[0xAA, 0x7F, 0x03, 0x00, 0x01, 0x42], 0⟩ =
        some ⟨-2, d, ⟨[0xAA, 0x7F, 0x03, 0x00, 0x01, 0x42], 1⟩⟩ ∧
      processPacket ext fuel d ⟨[0xAA, 0x7F, 0x03, 0x00, 0x01, 0x42], 1⟩ =
        some ⟨-1, { d with tlv := ⟨0x03, 1, [0x42]⟩ },
          ⟨[0xAA, 0x7F, 0x03, 0x00, 0x01, 0x42], 6⟩⟩ := by
  constructor <;> rfl

/-! ### Complete TLV packets -/

theorem ReadStream.leftBytes_after_packet (stream : ReadStream) (b0 ty l1 l0 : Nat)
    (payload rest : List Nat)
    (h : stream.remaining = b0 :: ty :: l1 :: l0 :: (payload ++ rest))
    (hlen : payload.length = l1 * 256 + l0) :
    ReadStream.leftBytes ⟨stream.buffer, stream.cur + (4 + (l1 * 256 + l0))⟩ =
      rest.length := by
  have hl : stream.remaining.length = 4 + (l1 * 256 + l0) + rest.length := by
    rw [h]
    simp only [List.length_cons, List.length_append, hlen]
    omega
  simp only [ReadStream.remaining, List.length_drop] at hl
  simp only [ReadStream.leftBytes]
  omega

theorem Tlv.unpack_complete (t : Tlv) (stream : ReadStream) (b0 ty l1 l0 : Nat)
    (payload rest : List Nat)
    (h : stream.remaining = b0 :: ty :: l1 :: l0 :: (payload ++ rest))
    (hlen : payload.length = l1 * 256 + l0) :
    t.unpack stream =
      (true, ⟨ty, l1 * 256 + l0, payload⟩,
        ⟨stream.buffer, stream.cur + (4 + (l1 * 256 + l0))⟩) := by
  unfold Tlv.unpack
  rw [h]
  have h1 : ¬ (payload ++ rest).length < l1 * 256 + l0 := by
    rw [List.length_append]; omega
  have h2 : List.take (l1 * 256 + l0) (payload ++ rest) = payload := by
    rw [← hlen]; exact List.take_left' rfl
  simp only [h1, if_false, h2]

/-- The length check that follows `tlv.unpack`: a complete valid TLV packet
followed by fewer bytes than its own data length is consumed, and
`processPacket` returns `-1` without dispatching its payload. -/
theorem processPacket_complete_packet_short_tail (ext : Ext P) (fuel : Nat)
    (d : MmtTlvDemuxer P) (stream : ReadStream) (ty l1 l0 : Nat) (payload rest : List Nat)
    (h : stream.remaining = 0x7F :: ty :: l1 :: l0 :: (payload ++ rest))
    (hty : ty ≤ 0x04 ∨ 0xFD ≤ ty)
    (hlen : payload.length = l1 * 256 + l0)
    (hshort : rest.length < l1 * 256 + l0) :
    processPacket ext fuel d stream =
      some ⟨-1, { d with tlv := ⟨ty, l1 * 256 + l0, payload⟩ },
        ⟨stream.buffer, stream.cur + (4 + (l1 * 256 + l0))⟩⟩ := by
  have hleft : ¬ stream.leftBytes < 4 := by
    rw [ReadStream.leftBytes_eq_length_remaining, h]; simp
  have hadv : ReadStream.leftBytes ⟨stream.buffer, stream.cur + (4 + (l1 * 256 + l0))⟩ =
      rest.length :=
    ReadStream.leftBytes_after_packet stream 0x7F ty l1 l0 payload rest h hlen
  have hv := isVaildTlv_of_remaining stream 0x7F ty _ h
  have hu := Tlv.unpack_complete d.tlv stream 0x7F ty l1 l0 payload rest h hlen
  simp [processPacket, hv, hu, hleft, hty, hadv, hshort]

/-- The not-ready path of `processPacket`: a complete header-compressed IP TLV
packet followed by at least as many bytes as its data length, whose MMTP packet
is reported to carry the scrambling extension with flag `ODD` or `EVEN`, while
the card is not ready.  The call returns `+1` having consumed the packet; only
the members `tlv`, `compressedIPPacket` and `mmt` change, so the handler log,
the stream registry and the assembler map are as before. -/
theorem processPacket_scrambled_not_ready (ext : Ext P) (fuel : Nat)
    (d : MmtTlvDemuxer P) (stream : ReadStream) (l1 l0 : Nat) (payload rest : List Nat)
    (flag : EncryptionFlag)
    (h : stream.remaining =
      0x7F :: TlvPacketType.HeaderCompressedIpPacket :: l1 :: l0 :: (payload ++ rest))
    (hlen : payload.length = l1 * 256 + l0)
    (htail : l1 * 256 + l0 ≤ rest.length)
    (hscr : (ext.mmtUnpack d.mmt
        (ext.compressedIPPacketUnpack d.compressedIPPacket
          (ReadStream.ofData payload)).2).1.extensionHeaderScrambling = some ⟨flag⟩)
    (hflag : flag = EncryptionFlag.ODD ∨ flag = EncryptionFlag.EVEN)
    (hready : d.acasCard.ready = false) :
    processPacket ext fuel d stream =
      some ⟨1,
        { d with
          tlv := ⟨TlvPacketType.HeaderCompressedIpPacket, l1 * 256 + l0, payload⟩,
          compressedIPPacket :=
            (ext.compressedIPPacketUnpack d.compressedIPPacket (ReadStream.ofData payload)).1,
          mmt := (ext.mmtUnpack d.mmt
            (ext.compressedIPPacketUnpack d.compressedIPPacket
              (ReadStream.ofData payload)).2).1 },
        ⟨stream.buffer, stream.cur + (4 + (l1 * 256 + l0))⟩⟩ := by
  have hleft : ¬ stream.leftBytes < 4 := by
    rw [ReadStream.leftBytes_eq_length_remaining, h]; simp
  have hadv : ReadStream.leftBytes ⟨stream.buffer, stream.cur + (4 + (l1 * 256 + l0))⟩ =
      rest.length :=
    ReadStream.leftBytes_after_packet stream 0x7F _ l1 l0 payload rest h hlen
  have hnot : ¬ rest.length < l1 * 256 + l0 := by omega
  have hsc : (flag == EncryptionFlag.ODD || flag == EncryptionFlag.EVEN) = true := by
    rcases hflag with rfl | rfl <;> rfl
  have hv := isVaildTlv_of_remaining stream 0x7F _ _ h
  have hu := Tlv.unpack_complete d.tlv stream 0x7F _ l1 l0 payload rest h hlen
  simp [processPacket, hv, hu, hleft, hadv, hnot, TlvPacketType.HeaderCompressedIpPacket,
    TlvPacketType.TransmissionControlSignalPacket, TlvPacketType.Ipv6Packet,
    processHeaderCompressed, hscr, hsc, hready]

/-- C6 at a failing input: the reader holds exactly one header-compressed IP
TLV packet and nothing after it.  Whatever the collaborators report about its
MMTP header (the scrambling extension with flag `ODD` included) and whether or
not the card is ready, `processPacket` consumes the packet and returns `-1`,
not `+1`, by the length check that follows `tlv.unpack`; with the card not
ready and 26 more bytes behind the same packet it returns `+1`. -/
theorem processPacket_scrambled_at_end_of_buffer (ext : Ext P) (fuel : Nat)
    (d : MmtTlvDemuxer P) :
    processPacket ext fuel d ⟨scrambledPacket, 0⟩ =
        some ⟨-1, { d with tlv := ⟨0x02, 26, scrambledPacket.drop 4⟩ },
          ⟨scrambledPacket, 30⟩⟩ ∧
      (processPacket Ext.scrambledOdd 0 MmtTlvDemuxer.new
          ⟨scrambledPacket ++ List.replicate 26 0, 0⟩).map
        (fun r => (r.status, r.stream.cur)) = some (1, 30) := by
  constructor
  · exact processPacket_complete_packet_short_tail ext fuel d ⟨scrambledPacket, 0⟩
      0x02 0x00 0x1A (scrambledPacket.drop 4) [] rfl (by decide) rfl (by decide)
  · rfl

/-! ### Timestamp caches -/

theorem mergeMpuTimestamp_append (last : Nat) (cache : List MpuTimestampEntry)
    (ts : MpuTimestampEntry)
    (hnew : ∀ e ∈ cache, e.mpuSequenceNumber ≠ ts.mpuSequenceNumber)
    (hfresh : ∀ e ∈ cache, ¬ e.mpuSequenceNumber < last)
    (hroom : cache.length < 100) :
    mergeMpuTimestamp last cache ts = cache ++ [ts] := by
  have h1 := overwriteFirst_eq_none
    (fun e : MpuTimestampEntry => e.mpuSequenceNumber == ts.mpuSequenceNumber)
    (fun e => { e with mpuPresentationTime := ts.mpuPresentationTime }) cache
    (by intro e he; simpa using hnew e he)
  have h2 := overwriteFirst_eq_none
    (fun e : MpuTimestampEntry => decide (e.mpuSequenceNumber < last))
    (fun e => { e with mpuSequenceNumber := ts.mpuSequenceNumber,
                       mpuPresentationTime := ts.mpuPresentationTime }) cache
    (by intro e he; simpa using hfresh e he)
  have h3 : ¬ cache.length ≥ 100 := by omega
  simp only [mergeMpuTimestamp, h1, h2, h3, if_false]

theorem mergeMpuTimestamp_evict (last : Nat) (cache : List MpuTimestampEntry)
    (ts : MpuTimestampEntry)
    (hnew : ∀ e ∈ cache, e.mpuSequenceNumber ≠ ts.mpuSequenceNumber)
    (hfresh : ∀ e ∈ cache, ¬ e.mpuSequenceNumber < last)
    (hfull : 100 ≤ cache.length) :
    mergeMpuTimestamp last cache ts =
      cache.set (minIndexLoop (cache.map (·.mpuSequenceNumber)) 0 0 0xFFFFFFFF) ts := by
  have h1 := overwriteFirst_eq_none
    (fun e : MpuTimestampEntry => e.mpuSequenceNumber == ts.mpuSequenceNumber)
    (fun e => { e with mpuPresentationTime := ts.mpuPresentationTime }) cache
    (by intro e he; simpa using hnew e he)
  have h2 := overwriteFirst_eq_none
    (fun e : MpuTimestampEntry => decide (e.mpuSequenceNumber < last))
    (fun e => { e with mpuSequenceNumber := ts.mpuSequenceNumber,
                       mpuPresentationTime := ts.mpuPresentationTime }) cache
    (by intro e he; simpa using hfresh e he)
  have h3 : cache.length ≥ 100 := hfull
  simp only [mergeMpuTimestamp, h1, h2, h3, if_true]
  rw [List.set_eq_modify]

theorem foldl_mergeMpuTimestamp_range (time : Nat → Nat) :
    ∀ n, n ≤ 100 →
      ((List.range n).map (fun i => (⟨i, time i⟩ : MpuTimestampEntry))).foldl
          (mergeMpuTimestamp 0) [] =
        (List.range n).map (fun i => (⟨i, time i⟩ : MpuTimestampEntry)) := by
  intro n
  induction n with
  | zero => intro _; rfl
  | succ n ih =>
    intro hn
    rw [List.range_succ, List.map_append, List.foldl_append, ih (by omega)]
    simp only [List.map_cons, List.map_nil, List.foldl_cons, List.foldl_nil]
    apply mergeMpuTimestamp_append
    · intro e he
      obtain ⟨i, hi, rfl⟩ := List.mem_map.mp he
      have := List.mem_range.mp hi
      simp only [ne_eq]
      omega
    · intro e _; omega
    · simp; omega

theorem processMpuTimestampDescriptor_101_cache (s : MmtStream P) (time : Nat → Nat)
    (hempty : s.mpuTimestamps = []) (hlast : s.lastMpuSequenceNumber = 0) :
    (processMpuTimestampDescriptor
        ⟨(List.range 101).map (fun i => ⟨i, time i⟩)⟩ s).mpuTimestamps =
      ⟨100, time 100⟩ :: (List.range' 1 99).map (fun i => ⟨i, time i⟩) := by
  have hidx : minIndexLoop (List.range 100) 0 0 0xFFFFFFFF = 0 := by decide
  have hr : List.range 100 = 0 :: List.range' 1 99 := by decide
  simp only [processMpuTimestampDescriptor, hempty, hlast]
  rw [List.range_succ, List.map_append, List.foldl_append,
    foldl_mergeMpuTimestamp_range time 100 (le_refl _)]
  simp only [List.map_cons, List.map_nil, List.foldl_cons, List.foldl_nil]
  rw [mergeMpuTimestamp_evict]
  · have hm : List.map (fun e : MpuTimestampEntry => e.mpuSequenceNumber)
        (List.map (fun i => (⟨i, time i⟩ : MpuTimestampEntry)) (List.range 100)) =
        List.range 100 := by
      rw [List.map_map]
      exact List.map_id _
    rw [hm, hidx, hr]
    rfl
  · intro e he
    obtain ⟨i, hi, rfl⟩ := List.mem_map.mp he
    have := List.mem_range.mp hi
    simp only [ne_eq]
    omega
  · intro e _; omega
  · simp

theorem processMpuTimestampDescriptor_append (a b : List MpuTimestampEntry)
    (s : MmtStream P) :
    processMpuTimestampDescriptor ⟨b⟩ (processMpuTimestampDescriptor ⟨a⟩ s) =
      processMpuTimestampDescriptor ⟨a ++ b⟩ s := by
  simp [processMpuTimestampDescriptor, List.foldl_append]

theorem processMpuTimestampDescriptors_eq_flatten :
    ∀ (descriptors : List MpuTimestampDescriptor) (s : MmtStream P),
      processMpuTimestampDescriptors descriptors s =
        processMpuTimestampDescriptor ⟨(descriptors.map (·.entries)).flatten⟩ s := by
  intro descriptors
  induction descriptors with
  | nil => intro s; rfl
  | cons descriptor rest ih =>
    intro s
    have hstep : processMpuTimestampDescriptors (descriptor :: rest) s =
        processMpuTimestampDescriptors rest (processMpuTimestampDescriptor descriptor s) := rfl
    rw [hstep, ih]
    exact processMpuTimestampDescriptor_append descriptor.entries _ s

/-- C8: from a fresh stream (empty `mpuTimestamps`, last MPU sequence number
0), merging the 101 entries with sequence numbers 0, 1, ..., 100 in that order
through `processMpuTimestampDescriptor` (with any presentation times, and
however the entries are distributed over successive descriptors) leaves a cache
of exactly 100 entries in which sequence number 0 is absent and sequence number
100 is present. -/
theorem processMpuTimestampDescriptor_101_increasing (s : MmtStream P) (time : Nat → Nat)
    (descriptors : List MpuTimestampDescriptor)
    (hempty : s.mpuTimestamps = []) (hlast : s.lastMpuSequenceNumber = 0)
    (hentries : (descriptors.map (·.entries)).flatten =
      (List.range 101).map (fun i => ⟨i, time i⟩)) :
    (processMpuTimestampDescriptors descriptors s).mpuTimestamps.length = 100 ∧
      (∀ e ∈ (processMpuTimestampDescriptors descriptors s).mpuTimestamps,
        e.mpuSequenceNumber ≠ 0) ∧
      (∃ e ∈ (processMpuTimestampDescriptors descriptors s).mpuTimestamps,
        e.mpuSequenceNumber = 100 ∧ e.mpuPresentationTime = time 100) := by
  rw [processMpuTimestampDescriptors_eq_flatten, hentries,
    processMpuTimestampDescriptor_101_cache s time hempty hlast]
  refine ⟨by simp, ?_, ⟨⟨100, time 100⟩, by simp, rfl, rfl⟩⟩
  intro e he
  rcases List.mem_cons.mp he with rfl | he1
  · simp
  · obtain ⟨i, hi, rfl⟩ := List.mem_map.mp he1
    have := (List.mem_range'_1.mp hi).1
    simp only [ne_eq]
    omega

/-- Witness of C8 on the stream constructed for packet id 1, with presentation
time `1000 + i` for sequence number `i`, the entries arriving in one descriptor
of 60 entries followed by one of 41. -/
theorem processMpuTimestampDescriptor_101_increasing_witness :
    (processMpuTimestampDescriptors
        [⟨(List.range 60).map (fun i => ⟨i, 1000 + i⟩)⟩,
         ⟨(List.range' 60 41).map (fun i => ⟨i, 1000 + i⟩)⟩]
        (MmtStream.new 1 : MmtStream Unit)).mpuTimestamps.length = 100 ∧
      (∀ e ∈ (processMpuTimestampDescriptors
          [⟨(List.range 60).map (fun i => ⟨i, 1000 + i⟩)⟩,
           ⟨(List.range' 60 41).map (fun i => ⟨i, 1000 + i⟩)⟩]
          (MmtStream.new 1 : MmtStream Unit)).mpuTimestamps,
        e.mpuSequenceNumber ≠ 0) ∧
      (∃ e ∈ (processMpuTimestampDescriptors
          [⟨(List.range 60).map (fun i => ⟨i, 1000 + i⟩)⟩,
           ⟨(List.range' 60 41).map (fun i => ⟨i, 1000 + i⟩)⟩]
          (MmtStream.new 1 : MmtStream Unit)).mpuTimestamps,
        e.mpuSequenceNumber = 100 ∧ e.mpuPresentationTime = 1000 + 100) :=
  processMpuTimestampDescriptor_101_increasing (MmtStream.new 1) (fun i => 1000 + i)
    [⟨(List.range 60).map (fun i => ⟨i, 1000 + i⟩)⟩,
     ⟨(List.range' 60 41).map (fun i => ⟨i, 1000 + i⟩)⟩]
    rfl rfl (by decide)

/-- C9: when the sequence number of the incoming entry `ts` is not in the
cache, no cached entry is older than the stream's last MPU sequence number and
the cache holds 100 entries (of 32-bit sequence numbers), the cache after
`processMpuTimestampDescriptor` is the cache before it with one entry replaced
by `ts`, at an index `i` that holds a minimum sequence number of the whole
cache; every other index keeps its entry and the size stays 100. -/
theorem processMpuTimestampDescriptor_evicts_min (s : MmtStream P) (ts : MpuTimestampEntry)
    (hbound : ∀ e ∈ s.mpuTimestamps, e.mpuSequenceNumber < 2 ^ 32)
    (hnew : ∀ e ∈ s.mpuTimestamps, e.mpuSequenceNumber ≠ ts.mpuSequenceNumber)
    (hfresh : ∀ e ∈ s.mpuTimestamps, ¬ e.mpuSequenceNumber < s.lastMpuSequenceNumber)
    (hfull : s.mpuTimestamps.length = 100) :
    ∃ i, ∃ hi : i < s.mpuTimestamps.length,
      (∀ e ∈ s.mpuTimestamps,
        (s.mpuTimestamps.get ⟨i, hi⟩).mpuSequenceNumber ≤ e.mpuSequenceNumber) ∧
      (processMpuTimestampDescriptor ⟨[ts]⟩ s).mpuTimestamps = s.mpuTimestamps.set i ts ∧
      (processMpuTimestampDescriptor ⟨[ts]⟩ s).mpuTimestamps.length = 100 ∧
      (processMpuTimestampDescriptor ⟨[ts]⟩ s).mpuTimestamps[i]? = some ts ∧
      (∀ j, j ≠ i →
        (processMpuTimestampDescriptor ⟨[ts]⟩ s).mpuTimestamps[j]? = s.mpuTimestamps[j]?) := by
  have hne : 0 < (s.mpuTimestamps.map (·.mpuSequenceNumber)).length := by
    simp [hfull]
  have hb : ∀ q ∈ s.mpuTimestamps.map (·.mpuSequenceNumber), q < 2 ^ 32 := by
    intro q hq
    obtain ⟨e, he, rfl⟩ := List.mem_map.mp hq
    exact hbound e he
  obtain ⟨hi, hmin⟩ := minIndexLoop_min _ hne hb
  have hi1 : minIndexLoop (s.mpuTimestamps.map (·.mpuSequenceNumber)) 0 0 0xFFFFFFFF <
      s.mpuTimestamps.length := by simpa using hi
  have hres : (processMpuTimestampDescriptor ⟨[ts]⟩ s).mpuTimestamps =
      s.mpuTimestamps.set
        (minIndexLoop (s.mpuTimestamps.map (·.mpuSequenceNumber)) 0 0 0xFFFFFFFF) ts := by
    simp only [processMpuTimestampDescriptor, List.foldl_cons, List.foldl_nil]
    exact mergeMpuTimestamp_evict _ _ _ hnew hfresh (by omega)
  refine ⟨_, hi1, ?_, hres, ?_, ?_, ?_⟩
  · intro e he
    have := hmin e.mpuSequenceNumber (List.mem_map.mpr ⟨e, he, rfl⟩)
    simpa using this
  · rw [hres]; simp [hfull]
  · rw [hres]; simp [hi1]
  · intro j hj
    rw [hres]
    exact List.getElem?_set_ne (Ne.symm hj)

/-- Witness of C9 on the full sample cache (sequence numbers 10..109) and the
incoming entry with sequence number 500. -/
theorem processMpuTimestampDescriptor_evicts_min_witness :
    ∃ i, ∃ hi : i < MmtStream.sampleFull.mpuTimestamps.length,
      (∀ e ∈ MmtStream.sampleFull.mpuTimestamps,
        (MmtStream.sampleFull.mpuTimestamps.get ⟨i, hi⟩).mpuSequenceNumber ≤
          e.mpuSequenceNumber) ∧
      (processMpuTimestampDescriptor ⟨[⟨500, 42⟩]⟩ MmtStream.sampleFull).mpuTimestamps =
        MmtStream.sampleFull.mpuTimestamps.set i ⟨500, 42⟩ ∧
      (processMpuTimestampDescriptor ⟨[⟨500, 42⟩]⟩ MmtStream.sampleFull).mpuTimestamps.length =
        100 ∧
      (processMpuTimestampDescriptor ⟨[⟨500, 42⟩]⟩ MmtStream.sampleFull).mpuTimestamps[i]? =
        some ⟨500, 42⟩ ∧
      (∀ j, j ≠ i →
        (processMpuTimestampDescriptor ⟨[⟨500, 42⟩]⟩ MmtStream.sampleFull).mpuTimestamps[j]? =
          MmtStream.sampleFull.mpuTimestamps[j]?) :=
  processMpuTimestampDescriptor_evicts_min MmtStream.sampleFull ⟨500, 42⟩
    (by decide) (by decide) (by decide) (by decide)

/-- C10: when the sequence number of the incoming entry `ts` is not in the
cache and some cached entry is stale (its sequence number is below the
stream's last MPU sequence number), `processMpuTimestampDescriptor` overwrites
the first stale entry, in cache order, with `ts`; every other index keeps its
entry and the size of the cache does not change.  Nothing is assumed about the
size of the cache or about `ts` being stale itself. -/
theorem processMpuTimestampDescriptor_overwrites_first_stale (s : MmtStream P)
    (ts : MpuTimestampEntry)
    (hnew : ∀ e ∈ s.mpuTimestamps, e.mpuSequenceNumber ≠ ts.mpuSequenceNumber)
    (hstale : ∃ e ∈ s.mpuTimestamps, e.mpuSequenceNumber < s.lastMpuSequenceNumber) :
    ∃ i, ∃ hi : i < s.mpuTimestamps.length,
      (s.mpuTimestamps.get ⟨i, hi⟩).mpuSequenceNumber < s.lastMpuSequenceNumber ∧
      (∀ j, ∀ hj : j < s.mpuTimestamps.length, j < i →
        ¬ (s.mpuTimestamps.get ⟨j, hj⟩).mpuSequenceNumber < s.lastMpuSequenceNumber) ∧
      (processMpuTimestampDescriptor ⟨[ts]⟩ s).mpuTimestamps = s.mpuTimestamps.set i ts ∧
      (processMpuTimestampDescriptor ⟨[ts]⟩ s).mpuTimestamps.length =
        s.mpuTimestamps.length ∧
      (processMpuTimestampDescriptor ⟨[ts]⟩ s).mpuTimestamps[i]? = some ts ∧
      (∀ j, j ≠ i →
        (processMpuTimestampDescriptor ⟨[ts]⟩ s).mpuTimestamps[j]? = s.mpuTimestamps[j]?) := by
  have h1 := overwriteFirst_eq_none
    (fun e : MpuTimestampEntry => e.mpuSequenceNumber == ts.mpuSequenceNumber)
    (fun e => { e with mpuPresentationTime := ts.mpuPresentationTime }) s.mpuTimestamps
    (by intro e he; simpa using hnew e he)
  obtain ⟨i, hi, hpi, hbefore, heq⟩ := overwriteFirst_first
    (fun e : MpuTimestampEntry => decide (e.mpuSequenceNumber < s.lastMpuSequenceNumber))
    (fun e => { e with mpuSequenceNumber := ts.mpuSequenceNumber,
                       mpuPresentationTime := ts.mpuPresentationTime }) s.mpuTimestamps
    (by obtain ⟨e, he, hlt⟩ := hstale; exact ⟨e, he, by simpa using hlt⟩)
  have hres : (processMpuTimestampDescriptor ⟨[ts]⟩ s).mpuTimestamps =
      s.mpuTimestamps.set i ts := by
    simp only [processMpuTimestampDescriptor, List.foldl_cons, List.foldl_nil,
      mergeMpuTimestamp, h1, heq]
  refine ⟨i, hi, by simpa using hpi, ?_, hres, ?_, ?_, ?_⟩
  · intro j hj hlt
    simpa using hbefore j hj hlt
  · rw [hres]; simp
  · rw [hres]; simp [hi]
  · intro j hj
    rw [hres]
    exact List.getElem?_set_ne (Ne.symm hj)

/-- Witness of C10 on the sample cache `5, 2, 1, 7` with last MPU sequence
number 3 and an incoming entry (sequence number 0) that is stale itself. -/
theorem processMpuTimestampDescriptor_overwrites_first_stale_witness :
    ∃ i, ∃ hi : i < MmtStream.sampleStale.mpuTimestamps.length,
      (MmtStream.sampleStale.mpuTimestamps.get ⟨i, hi⟩).mpuSequenceNumber <
        MmtStream.sampleStale.lastMpuSequenceNumber ∧
      (∀ j, ∀ hj : j < MmtStream.sampleStale.mpuTimestamps.length, j < i →
        ¬ (MmtStream.sampleStale.mpuTimestamps.get ⟨j, hj⟩).mpuSequenceNumber <
          MmtStream.sampleStale.lastMpuSequenceNumber) ∧
      (processMpuTimestampDescriptor ⟨[⟨0, 99⟩]⟩ MmtStream.sampleStale).mpuTimestamps =
        MmtStream.sampleStale.mpuTimestamps.set i ⟨0, 99⟩ ∧
      (processMpuTimestampDescriptor ⟨[⟨0, 99⟩]⟩ MmtStream.sampleStale).mpuTimestamps.length =
        MmtStream.sampleStale.mpuTimestamps.length ∧
      (processMpuTimestampDescriptor ⟨[⟨0, 99⟩]⟩ MmtStream.sampleStale).mpuTimestamps[i]? =
        some ⟨0, 99⟩ ∧
      (∀ j, j ≠ i →
        (processMpuTimestampDescriptor ⟨[⟨0, 99⟩]⟩ MmtStream.sampleStale).mpuTimestamps[j]? =
          MmtStream.sampleStale.mpuTimestamps[j]?) :=
  processMpuTimestampDescriptor_overwrites_first_stale MmtStream.sampleStale ⟨0, 99⟩
    (by decide) (by decide)

/-! ### The cache-size invariant through `processMmtPackageTable` -/

theorem foldl_invariant {α β : Type} (Q : α → Prop) (f : α → β → α)
    (hf : ∀ a b, Q a → Q (f a b)) : ∀ (l : List β) (a : α), Q a → Q (l.foldl f a) := by
  intro l
  induction l with
  | nil => intro a ha; exact ha
  | cons b rest ih => intro a ha; exact ih (f a b) (hf a b ha)

theorem Map.find_mem {α : Type} : ∀ (m : List (Nat × α)) (k : Nat) (v : α),
    Map.find m k = some v → (k, v) ∈ m := by
  intro m
  induction m with
  | nil => intro k v h; simp [Map.find] at h
  | cons e rest ih =>
    intro k v h
    obtain ⟨k1, v1⟩ := e
    unfold Map.find at h
    by_cases hk : k1 = k
    · simp [hk] at h
      subst hk; subst h
      exact List.mem_cons_self _ _
    · simp [hk] at h
      exact List.mem_cons_of_mem _ (ih k v h)

theorem Map.mem_insert {α : Type} : ∀ (m : List (Nat × α)) (k : Nat) (v : α) (e : Nat × α),
    e ∈ Map.insert m k v → e = (k, v) ∨ e ∈ m := by
  intro m
  induction m with
  | nil => intro k v e h; left; simpa [Map.insert] using h
  | cons e1 rest ih =>
    intro k v e h
    obtain ⟨k1, v1⟩ := e1
    unfold Map.insert at h
    by_cases hlt : k < k1
    · simp only [hlt, if_true] at h
      rcases List.mem_cons.mp h with h1 | h1
      · left; exact h1
      · right; exact h1
    · by_cases heq : k = k1
      · subst heq
        simp only [hlt, if_true, if_false] at h
        rcases List.mem_cons.mp h with h1 | h1
        · left; exact h1
        · right; exact List.mem_cons_of_mem _ h1
      · simp only [hlt, heq, if_false] at h
        rcases List.mem_cons.mp h with h1 | h1
        · right; rw [h1]; exact List.mem_cons_self _ _
        · rcases ih k v e h1 with h2 | h2
          · left; exact h2
          · right; exact List.mem_cons_of_mem _ h2

theorem Map.mem_update {α : Type} (m : List (Nat × α)) (k : Nat) (f : α → α) (e : Nat × α)
    (h : e ∈ Map.update m k f) : ∃ e0 ∈ m, e = e0 ∨ e = (e0.1, f e0.2) := by
  unfold Map.update at h
  obtain ⟨e0, he0, heq⟩ := List.mem_map.mp h
  refine ⟨e0, he0, ?_⟩
  by_cases hk : e0.1 = k
  · right; simp [hk] at heq; rw [← heq, hk]
  · left; simp [hk] at heq; exact heq.symm

theorem mergeMpuTimestamp_length_le (last : Nat) (cache : List MpuTimestampEntry)
    (ts : MpuTimestampEntry) (h : cache.length ≤ 100) :
    (mergeMpuTimestamp last cache ts).length ≤ 100 := by
  unfold mergeMpuTimestamp
  split
  · rename_i cache1 h1
    rw [overwriteFirst_length _ _ _ _ h1]; exact h
  · split
    · rename_i cache1 h1
      rw [overwriteFirst_length _ _ _ _ h1]; exact h
    · split
      · simpa using h
      · simp only [List.length_append, List.length_singleton]; omega

theorem mergeMpuExtendedTimestamp_length_le (last : Nat)
    (cache : List MpuExtendedTimestampEntry) (ts : MpuExtendedTimestampEntry)
    (h : cache.length ≤ 100) :
    (mergeMpuExtendedTimestamp last cache ts).length ≤ 100 := by
  unfold mergeMpuExtendedTimestamp
  split
  · exact h
  · split
    · rename_i cache1 h1
      rw [overwriteFirst_length _ _ _ _ h1]; exact h
    · split
      · rename_i cache1 h1
        rw [overwriteFirst_length _ _ _ _ h1]; exact h
      · split
        · simpa using h
        · simp only [List.length_append, List.length_singleton]; omega

theorem applyDescriptor_caches_bounded (s : MmtStream P) (descriptor : MmtDescriptor)
    (h : s.mpuTimestamps.length ≤ 100 ∧ s.mpuExtendedTimestamps.length ≤ 100) :
    (applyDescriptor s descriptor).mpuTimestamps.length ≤ 100 ∧
      (applyDescriptor s descriptor).mpuExtendedTimestamps.length ≤ 100 := by
  cases descriptor with
  | mpuTimestamp d =>
    refine ⟨?_, h.2⟩
    exact foldl_invariant (fun c : List MpuTimestampEntry => c.length ≤ 100) _
      (fun c ts hc => mergeMpuTimestamp_length_le _ c ts hc) d.entries _ h.1
  | mpuExtendedTimestamp d =>
    refine ⟨h.1, ?_⟩
    exact foldl_invariant (fun c : List MpuExtendedTimestampEntry => c.length ≤ 100) _
      (fun c ts hc => mergeMpuExtendedTimestamp_length_le _ c ts hc) d.entries _ h.2
  | mhStreamIdentification t => exact h
  | videoComponent d => exact h
  | mhAudioComponent d => exact h
  | other t => exact h

theorem locationStep_caches_bounded (ext : Ext P) (assetType : Nat)
    (acc : MptLoop P × Option Nat) (locationInfo : LocationInfo)
    (h : ∀ e ∈ acc.1.mapStream,
      e.2.mpuTimestamps.length ≤ 100 ∧ e.2.mpuExtendedTimestamps.length ≤ 100) :
    ∀ e ∈ (locationStep ext assetType acc locationInfo).1.mapStream,
      e.2.mpuTimestamps.length ≤ 100 ∧ e.2.mpuExtendedTimestamps.length ≤ 100 := by
  unfold locationStep
  split
  · intro e he
    rcases Map.mem_insert _ _ _ _ he with h1 | h1
    · rw [h1]
      cases hf : Map.find acc.1.mapStream locationInfo.packetId with
      | none => simp [MmtStream.new]
      | some s0 =>
        have := h _ (Map.find_mem _ _ _ hf)
        simpa using this
    · exact h e h1
  · exact h

theorem assetStep_caches_bounded (ext : Ext P) (st : MptLoop P) (asset : Asset)
    (h : ∀ e ∈ st.mapStream,
      e.2.mpuTimestamps.length ≤ 100 ∧ e.2.mpuExtendedTimestamps.length ≤ 100) :
    ∀ e ∈ (assetStep ext st asset).mapStream,
      e.2.mpuTimestamps.length ≤ 100 ∧ e.2.mpuExtendedTimestamps.length ≤ 100 := by
  have hloop := foldl_invariant
    (fun acc : MptLoop P × Option Nat => ∀ e ∈ acc.1.mapStream,
      e.2.mpuTimestamps.length ≤ 100 ∧ e.2.mpuExtendedTimestamps.length ≤ 100)
    (locationStep ext asset.assetType)
    (fun acc li hacc => locationStep_caches_bounded ext asset.assetType acc li hacc)
    asset.locationInfos (st, none) h
  unfold assetStep
  split
  · rename_i st1 heq
    rw [heq] at hloop
    exact hloop
  · rename_i st1 pid heq
    rw [heq] at hloop
    intro e he
    have he1 : e ∈ Map.update st1.mapStream pid
        (fun s => asset.descriptors.foldl applyDescriptor s) := he
    obtain ⟨e0, he0, h1 | h1⟩ := Map.mem_update _ _ _ _ he1
    · rw [h1]; exact hloop e0 he0
    · rw [h1]
      exact foldl_invariant
        (fun s : MmtStream P =>
          s.mpuTimestamps.length ≤ 100 ∧ s.mpuExtendedTimestamps.length ≤ 100)
        applyDescriptor (fun s dsc hs => applyDescriptor_caches_bounded s dsc hs)
        asset.descriptors e0.2 (hloop e0 he0)

theorem pruneStreams_subset (mapMpt : List (Nat × Nat)) (mapStream : List (Nat × MmtStream P))
    (e : Nat × MmtStream P) (h : e ∈ pruneStreams mapMpt mapStream) : e ∈ mapStream := by
  unfold pruneStreams at h
  split at h
  · exact (List.mem_filter.mp h).1
  · exact h

/-- C7: if every registered stream holds at most 100 entries in
`mpuTimestamps` and at most 100 in `mpuExtendedTimestamps`, then after
`processMmtPackageTable`, on any MPT and with any collaborators, every
registered stream still holds at most 100 entries in each cache; and a newly
constructed stream has both caches empty. -/
theorem processMmtPackageTable_caches_bounded (ext : Ext P) (d : MmtTlvDemuxer P) (mpt : Mpt)
    (h : ∀ e ∈ d.mapStream,
      e.2.mpuTimestamps.length ≤ 100 ∧ e.2.mpuExtendedTimestamps.length ≤ 100) :
    (∀ e ∈ (processMmtPackageTable ext d mpt).mapStream,
      e.2.mpuTimestamps.length ≤ 100 ∧ e.2.mpuExtendedTimestamps.length ≤ 100) ∧
    (∀ packetId, (MmtStream.new packetId : MmtStream P).mpuTimestamps = [] ∧
      (MmtStream.new packetId : MmtStream P).mpuExtendedTimestamps = []) := by
  refine ⟨?_, fun _ => ⟨rfl, rfl⟩⟩
  unfold processMmtPackageTable
  exact foldl_invariant
    (fun st : MptLoop P => ∀ e ∈ st.mapStream,
      e.2.mpuTimestamps.length ≤ 100 ∧ e.2.mpuExtendedTimestamps.length ≤ 100)
    (assetStep ext) (fun st asset hst => assetStep_caches_bounded ext st asset hst)
    mpt.assets ⟨pruneStreams (mptAnnounced mpt) d.mapStream, [], 0⟩
    (fun e he => h e (pruneStreams_subset _ _ e he))

/-- Witness of C7: the sample demuxer (one stream with a full cache) and the
sample MPT, whose descriptors carry 150 and 120 entries. -/
theorem processMmtPackageTable_caches_bounded_witness :
    (∀ e ∈ (processMmtPackageTable Ext.idle MmtTlvDemuxer.sample Mpt.sample).mapStream,
      e.2.mpuTimestamps.length ≤ 100 ∧ e.2.mpuExtendedTimestamps.length ≤ 100) ∧
    (∀ packetId, (MmtStream.new packetId : MmtStream Unit).mpuTimestamps = [] ∧
      (MmtStream.new packetId : MmtStream Unit).mpuExtendedTimestamps = []) :=
  processMmtPackageTable_caches_bounded Ext.idle MmtTlvDemuxer.sample Mpt.sample
    (by decide)

/-! ### Stale input of the extended timestamp merge -/

theorem overwriteFirst_mem {α : Type} (p : α → Bool) (f : α → α) :
    ∀ (l l1 : List α), overwriteFirst p f l = some l1 →
      ∀ x ∈ l1, x ∈ l ∨ ∃ a ∈ l, p a = true ∧ x = f a := by
  intro l
  induction l with
  | nil => intro l1 h; simp [overwriteFirst] at h
  | cons a rest ih =>
    intro l1 h x hx
    unfold overwriteFirst at h
    by_cases ha : p a = true
    · simp [ha] at h
      subst h
      rcases List.mem_cons.mp hx with rfl | hx1
      · right; exact ⟨a, List.mem_cons_self _ _, ha, rfl⟩
      · left; exact List.mem_cons_of_mem _ hx1
    · simp [ha] at h
      cases hr : overwriteFirst p f rest with
      | none => simp [hr] at h
      | some rest1 =>
        simp [hr] at h
        subst h
        rcases List.mem_cons.mp hx with rfl | hx1
        · left; exact List.mem_cons_self _ _
        · rcases ih rest1 hr x hx1 with h1 | ⟨b, hb, hpb, hxb⟩
          · left; exact List.mem_cons_of_mem _ h1
          · right; exact ⟨b, List.mem_cons_of_mem _ hb, hpb, hxb⟩

theorem mem_modify {α : Type} (f : α → α) :
    ∀ (l : List α) (n : Nat) (x : α), x ∈ l.modify f n → x ∈ l ∨ ∃ a ∈ l, x = f a := by
  intro l
  induction l with
  | nil => intro n x hx; simp at hx
  | cons a rest ih =>
    intro n x hx
    cases n with
    | zero =>
      simp only [List.modify_zero_cons] at hx
      rcases List.mem_cons.mp hx with rfl | hx1
      · right; exact ⟨a, List.mem_cons_self _ _, rfl⟩
      · left; exact List.mem_cons_of_mem _ hx1
    | succ k =>
      simp only [List.modify_succ_cons] at hx
      rcases List.mem_cons.mp hx with rfl | hx1
      · left; exact List.mem_cons_self _ _
      · rcases ih k x hx1 with h1 | ⟨b, hb, hxb⟩
        · left; exact List.mem_cons_of_mem _ h1
        · right; exact ⟨b, List.mem_cons_of_mem _ hb, hxb⟩

theorem mergeMpuExtendedTimestamp_stale (last : Nat) (cache : List MpuExtendedTimestampEntry)
    (ts : MpuExtendedTimestampEntry) (h : ts.mpuSequenceNumber < last) :
    mergeMpuExtendedTimestamp last cache ts = cache := by
  have h1 : last > ts.mpuSequenceNumber := h
  simp [mergeMpuExtendedTimestamp, h1]

theorem foldl_mergeMpuExtendedTimestamp_filter (last : Nat) :
    ∀ (entries : List MpuExtendedTimestampEntry) (cache : List MpuExtendedTimestampEntry),
      entries.foldl (mergeMpuExtendedTimestamp last) cache =
        (entries.filter (fun ts => decide (¬ ts.mpuSequenceNumber < last))).foldl
          (mergeMpuExtendedTimestamp last) cache := by
  intro entries
  induction entries with
  | nil => intro cache; rfl
  | cons ts rest ih =>
    intro cache
    by_cases h : ts.mpuSequenceNumber < last
    · have hf : (ts :: rest).filter (fun ts => decide (¬ ts.mpuSequenceNumber < last)) =
          rest.filter (fun ts => decide (¬ ts.mpuSequenceNumber < last)) := by
        simp [List.filter_cons, h]
      rw [hf, List.foldl_cons, mergeMpuExtendedTimestamp_stale last cache ts h]
      exact ih cache
    · have hf : (ts :: rest).filter (fun ts => decide (¬ ts.mpuSequenceNumber < last)) =
          ts :: rest.filter (fun ts => decide (¬ ts.mpuSequenceNumber < last)) := by
        simp [List.filter_cons, h]
      rw [hf, List.foldl_cons, List.foldl_cons]
      exact ih _

theorem mergeMpuExtendedTimestamp_mem (last : Nat) (cache : List MpuExtendedTimestampEntry)
    (ts : MpuExtendedTimestampEntry) :
    ∀ x ∈ mergeMpuExtendedTimestamp last cache ts,
      x ∈ cache ∨ ¬ x.mpuSequenceNumber < last := by
  intro x hx
  unfold mergeMpuExtendedTimestamp at hx
  by_cases hst : last > ts.mpuSequenceNumber
  · left; simpa [hst] using hx
  · have hge : ¬ ts.mpuSequenceNumber < last := by omega
    simp only [hst, if_false] at hx
    split at hx
    · rename_i cache1 h1
      rcases overwriteFirst_mem _ _ _ _ h1 x hx with h2 | ⟨a, _, hpa, hxa⟩
      · left; exact h2
      · right
        have hseq : a.mpuSequenceNumber = ts.mpuSequenceNumber := by simpa using hpa
        rw [hxa]
        simp only [MpuExtendedTimestampEntry.assignFrom]
        simp only [Bool.false_eq_true, if_false]
        omega
    · split at hx
      · rename_i cache1 h1
        rcases overwriteFirst_mem _ _ _ _ h1 x hx with h2 | ⟨a, _, _, hxa⟩
        · left; exact h2
        · right
          rw [hxa]
          simp only [MpuExtendedTimestampEntry.assignFrom, if_true]
          exact hge
      · split at hx
        · rcases mem_modify _ _ _ x hx with h2 | ⟨a, _, hxa⟩
          · left; exact h2
          · right
            rw [hxa]
            simp only [MpuExtendedTimestampEntry.assignFrom, if_true]
            exact hge
        · rcases List.mem_append.mp hx with h2 | h2
          · left; exact h2
          · right
            have : x = ts := by simpa using h2
            rw [this]; exact hge

/-- C11: `processMpuExtendedTimestampDescriptor` discards stale input.  If every
entry of the descriptor is older than the stream's last MPU sequence number,
`mpuExtendedTimestamps` is left exactly as it was; in general the cache after
the call is the cache obtained from the descriptor with its stale entries
removed, and every entry of the cache after the call either was in the cache
before or has a sequence number that is not below the last MPU sequence
number. -/
theorem processMpuExtendedTimestampDescriptor_discards_stale
    (descriptor : MpuExtendedTimestampDescriptor) (s : MmtStream P) :
    ((∀ ts ∈ descriptor.entries, ts.mpuSequenceNumber < s.lastMpuSequenceNumber) →
        (processMpuExtendedTimestampDescriptor descriptor s).mpuExtendedTimestamps =
          s.mpuExtendedTimestamps) ∧
      (processMpuExtendedTimestampDescriptor descriptor s).mpuExtendedTimestamps =
        (processMpuExtendedTimestampDescriptor
          { descriptor with
            entries := descriptor.entries.filter
              (fun ts => decide (¬ ts.mpuSequenceNumber < s.lastMpuSequenceNumber)) }
          s).mpuExtendedTimestamps ∧
      (∀ e ∈ (processMpuExtendedTimestampDescriptor descriptor s).mpuExtendedTimestamps,
        e ∈ s.mpuExtendedTimestamps ∨ ¬ e.mpuSequenceNumber < s.lastMpuSequenceNumber) := by
  have hfilter := foldl_mergeMpuExtendedTimestamp_filter s.lastMpuSequenceNumber
    descriptor.entries s.mpuExtendedTimestamps
  refine ⟨?_, ?_, ?_⟩
  · intro hall
    have hnil : descriptor.entries.filter
        (fun ts => decide (¬ ts.mpuSequenceNumber < s.lastMpuSequenceNumber)) = [] := by
      rw [List.filter_eq_nil_iff]
      intro ts hts
      simpa using hall ts hts
    simp only [processMpuExtendedTimestampDescriptor]
    rw [hfilter, hnil]
    rfl
  · simp only [processMpuExtendedTimestampDescriptor]
    exact hfilter
  · simp only [processMpuExtendedTimestampDescriptor]
    exact foldl_invariant
      (fun c : List MpuExtendedTimestampEntry =>
        ∀ e ∈ c, e ∈ s.mpuExtendedTimestamps ∨ ¬ e.mpuSequenceNumber < s.lastMpuSequenceNumber)
      (mergeMpuExtendedTimestamp s.lastMpuSequenceNumber)
      (fun c ts hc e he => by
        rcases mergeMpuExtendedTimestamp_mem _ c ts e he with h1 | h1
        · exact hc e h1
        · right; exact h1)
      descriptor.entries s.mpuExtendedTimestamps (fun e he => Or.inl he)

/-- Witness of C11: the sample stream (last MPU sequence number 10) and the
sample descriptor whose three entries are all stale; the cache is unchanged. -/
theorem processMpuExtendedTimestampDescriptor_discards_stale_witness :
    (processMpuExtendedTimestampDescriptor MpuExtendedTimestampDescriptor.sampleStale
        MmtStream.sampleExtended).mpuExtendedTimestamps =
      MmtStream.sampleExtended.mpuExtendedTimestamps :=
  (processMpuExtendedTimestampDescriptor_discards_stale
    MpuExtendedTimestampDescriptor.sampleStale MmtStream.sampleExtended).1 (by decide)

/-! ### An MPT that announces nothing in-band -/

theorem foldl_eq_self {α β : Type} (f : α → β → α) :
    ∀ (l : List β) (a : α), (∀ b ∈ l, ∀ x, f x b = x) → l.foldl f a = a := by
  intro l
  induction l with
  | nil => intro a _; rfl
  | cons b rest ih =>
    intro a h
    rw [List.foldl_cons, h b (List.mem_cons_self _ _) a]
    exact ih a (fun c hc x => h c (List.mem_cons_of_mem _ hc) x)

theorem locationStep_not_inband (ext : Ext P) (assetType : Nat)
    (acc : MptLoop P × Option Nat) (locationInfo : LocationInfo)
    (h : locationInfo.locationType ≠ 0) :
    locationStep ext assetType acc locationInfo = acc := by
  simp [locationStep, h]

theorem assetStep_no_inband (ext : Ext P) (st : MptLoop P) (asset : Asset)
    (h : ∀ li ∈ asset.locationInfos, li.locationType ≠ 0) :
    assetStep ext st asset = st := by
  have hfold : asset.locationInfos.foldl (locationStep ext asset.assetType) (st, none) =
      (st, none) :=
    foldl_eq_self _ _ _ (fun li hli acc => locationStep_not_inband ext _ acc li (h li hli))
  simp [assetStep, hfold]

theorem mptAnnounced_no_inband (mpt : Mpt)
    (h : ∀ asset ∈ mpt.assets, ∀ li ∈ asset.locationInfos, li.locationType ≠ 0) :
    mptAnnounced mpt = [] := by
  unfold mptAnnounced
  apply foldl_eq_self
  intro asset hasset m
  apply foldl_eq_self
  intro li hli m1
  simp [h asset hasset li hli]

/-- C14: for an MPT whose announced set is empty (no asset has a location of
type 0; an empty asset list is one case), `processMmtPackageTable` leaves the
registry by packet id exactly as it was: the same streams under the same
packet ids, each with all its fields unchanged. -/
theorem processMmtPackageTable_nothing_announced (ext : Ext P) (d : MmtTlvDemuxer P)
    (mpt : Mpt)
    (h : ∀ asset ∈ mpt.assets, ∀ li ∈ asset.locationInfos, li.locationType ≠ 0) :
    mptAnnounced mpt = [] ∧ (processMmtPackageTable ext d mpt).mapStream = d.mapStream := by
  have hann := mptAnnounced_no_inband mpt h
  refine ⟨hann, ?_⟩
  have hloop : ∀ st : MptLoop P, mpt.assets.foldl (assetStep ext) st = st := fun st =>
    foldl_eq_self _ _ _ (fun asset hasset x => assetStep_no_inband ext x asset (h asset hasset))
  simp [processMmtPackageTable, hloop, hann, pruneStreams]

/-- Witness of C14: the sample demuxer (one registered stream with a full
cache) and an MPT whose only location has type 1. -/
theorem processMmtPackageTable_nothing_announced_witness :
    mptAnnounced Mpt.sampleNoInBand = [] ∧
      (processMmtPackageTable Ext.idle MmtTlvDemuxer.sample Mpt.sampleNoInBand).mapStream =
        MmtTlvDemuxer.sample.mapStream :=
  processMmtPackageTable_nothing_announced Ext.idle MmtTlvDemuxer.sample Mpt.sampleNoInBand
    (by decide)

/-! ### Ordered maps: lookup after an update -/

theorem Map.find_insert_self {α : Type} : ∀ (m : List (Nat × α)) (k : Nat) (v : α),
    Map.find (Map.insert m k v) k = some v := by
  intro m
  induction m with
  | nil => intro k v; simp [Map.insert, Map.find]
  | cons e rest ih =>
    intro k v
    obtain ⟨k1, v1⟩ := e
    unfold Map.insert
    by_cases hlt : k < k1
    · simp [hlt, Map.find]
    · by_cases heq : k = k1
      · simp [hlt, heq, Map.find]
      · have hne : ¬ k1 = k := fun h => heq h.symm
        simp [hlt, heq, Map.find, hne, ih k v]

theorem Map.find_insert_ne {α : Type} : ∀ (m : List (Nat × α)) (k q : Nat) (v : α),
    q ≠ k → Map.find (Map.insert m k v) q = Map.find m q := by
  intro m
  induction m with
  | nil =>
    intro k q v hne
    have : ¬ k = q := fun h => hne h.symm
    simp [Map.insert, Map.find, this]
  | cons e rest ih =>
    intro k q v hne
    obtain ⟨k1, v1⟩ := e
    have hkq : ¬ k = q := fun h => hne h.symm
    unfold Map.insert
    by_cases hlt : k < k1
    · simp [hlt, Map.find, hkq]
    · by_cases heq : k = k1
      · subst heq
        simp [Map.find, hkq]
      · simp only [hlt, heq, if_false]
        by_cases hq : k1 = q
        · simp [Map.find, hq]
        · simp [Map.find, hq, ih k q v hne]

theorem Map.update_cons_eq {α : Type} (k : Nat) (f : α → α) (v1 : α)
    (rest : List (Nat × α)) :
    Map.update ((k, v1) :: rest) k f = (k, f v1) :: Map.update rest k f := by
  simp [Map.update]

theorem Map.update_cons_ne {α : Type} (k k1 : Nat) (f : α → α) (v1 : α)
    (rest : List (Nat × α)) (h : k1 ≠ k) :
    Map.update ((k1, v1) :: rest) k f = (k1, v1) :: Map.update rest k f := by
  simp [Map.update, h]

theorem Map.find_update {α : Type} (k : Nat) (f : α → α) :
    ∀ (m : List (Nat × α)) (q : Nat),
      Map.find (Map.update m k f) q =
        if q = k then (Map.find m k).map f else Map.find m q := by
  intro m
  induction m with
  | nil => intro q; simp [Map.update, Map.find]
  | cons e rest ih =>
    intro q
    obtain ⟨k1, v1⟩ := e
    by_cases hk : k1 = k
    · subst hk
      rw [Map.update_cons_eq]
      by_cases hq : q = k1
      · subst hq
        simp [Map.find]
      · have hq1 : ¬ k1 = q := fun h => hq h.symm
        simp only [Map.find, hq1, if_false, hq]
        simpa [hq] using ih q
    · rw [Map.update_cons_ne k k1 f v1 rest hk]
      by_cases hq1 : k1 = q
      · subst hq1
        simp [Map.find, hk]
      · simp only [Map.find, hq1, if_false, hk]
        exact ih q

theorem Map.length_update {α : Type} (m : List (Nat × α)) (k : Nat) (f : α → α) :
    (Map.update m k f).length = m.length := by
  simp [Map.update]

/-! ### RAP gating and sequence discontinuity in `processMpu` -/

theorem getAssembler_fst_idem (d : MmtTlvDemuxer P) (pid : Nat) :
    (getAssembler (getAssembler d pid).2 pid).1 = (getAssembler d pid).1 := by
  unfold getAssembler
  cases h : Map.find d.mapAssembler pid with
  | none => simp [Map.find_insert_self]
  | some a => simp [h]

theorem getAssembler_fst_congr (d1 d2 : MmtTlvDemuxer P) (pid : Nat)
    (h : d1.mapAssembler = d2.mapAssembler) :
    (getAssembler d1 pid).1 = (getAssembler d2 pid).1 := by
  unfold getAssembler
  rw [h]
  cases Map.find d2.mapAssembler pid <;> rfl

theorem getAssembler_keeps (d : MmtTlvDemuxer P) (pid q : Nat) (a : FragmentAssembler)
    (h : Map.find d.mapAssembler q = some a) :
    Map.find (getAssembler d pid).2.mapAssembler q = some a := by
  unfold getAssembler
  cases hp : Map.find d.mapAssembler pid with
  | none =>
    have hne : q ≠ pid := by
      intro hq; rw [hq, hp] at h; cases h
    simp [Map.find_insert_ne _ _ _ _ hne, h]
  | some a1 => simpa using h

theorem processMpu_gated (ext : Ext P) (fuel : Nat) (d : MmtTlvDemuxer P)
    (stream : ReadStream) (s : MmtStream P)
    (hreg : getStream d d.mmt.packetId = some s)
    (hinit : (getAssembler d d.mmt.packetId).1.state = FragmentAssembler.State.Init)
    (hrap : d.mmt.rapFlag = false) :
    processMpu ext fuel d stream =
      some (if (ext.mpuUnpack d.mpu stream).1 then
          { (getAssembler d d.mmt.packetId).2 with mpu := (ext.mpuUnpack d.mpu stream).2.1 }
        else { d with mpu := (ext.mpuUnpack d.mpu stream).2.1 }) := by
  unfold processMpu
  by_cases hok : (ext.mpuUnpack d.mpu stream).1 = true
  · have hasm : (getAssembler { d with mpu := (ext.mpuUnpack d.mpu stream).2.1 }
        d.mmt.packetId) =
        ((getAssembler d d.mmt.packetId).1,
          { (getAssembler d d.mmt.packetId).2 with
            mpu := (ext.mpuUnpack d.mpu stream).2.1 }) := by
      unfold getAssembler
      cases Map.find d.mapAssembler d.mmt.packetId <;> rfl
    have hstream : getStream
        { (getAssembler d d.mmt.packetId).2 with mpu := (ext.mpuUnpack d.mpu stream).2.1 }
        d.mmt.packetId = some s := by
      have : (getAssembler d d.mmt.packetId).2.mapStream = d.mapStream := by
        unfold getAssembler
        cases Map.find d.mapAssembler d.mmt.packetId <;> rfl
      simpa [getStream, this] using hreg
    have hmmt : (getAssembler d d.mmt.packetId).2.mmt = d.mmt := by
      unfold getAssembler
      cases Map.find d.mapAssembler d.mmt.packetId <;> rfl
    simp only [hok, Bool.not_true, Bool.false_eq_true, if_false, hasm, hmmt, hstream, hinit,
      hrap, beq_self_eq_true, Bool.not_false, Bool.and_self, if_true, ite_self]
    split <;> rfl
  · simp [hok]

/-- C17: RAP gating.  For an MPU payload on a registered stream, when the
assembler of the packet id is in state `Init` (a missing assembler is created
in `Init`) and the RAP flag of the MMTP packet is false, `processMpu` returns
with no handler call and no MFU processor call; the stream registry is
unchanged (so the stream keeps its last MPU sequence number, AU index and RAP
flag), the assembler of the packet id is the assembler before the call (state
`Init`, same buffer), and every other assembler is kept. -/
theorem processMpu_rap_gating (ext : Ext P) (fuel : Nat) (d : MmtTlvDemuxer P)
    (stream : ReadStream) (s : MmtStream P)
    (hreg : getStream d d.mmt.packetId = some s)
    (hinit : (getAssembler d d.mmt.packetId).1.state = FragmentAssembler.State.Init)
    (hrap : d.mmt.rapFlag = false) :
    ∃ d1, processMpu ext fuel d stream = some d1 ∧
      d1.demuxerHandler = d.demuxerHandler ∧
      d1.processorCalls = d.processorCalls ∧
      d1.mapStream = d.mapStream ∧
      getStream d1 d.mmt.packetId = some s ∧
      (getAssembler d1 d.mmt.packetId).1 = (getAssembler d d.mmt.packetId).1 ∧
      (getAssembler d1 d.mmt.packetId).1.state = FragmentAssembler.State.Init ∧
      (∀ q a, Map.find d.mapAssembler q = some a → Map.find d1.mapAssembler q = some a) := by
  have hres := processMpu_gated ext fuel d stream s hreg hinit hrap
  have hfields : (getAssembler d d.mmt.packetId).2.demuxerHandler = d.demuxerHandler ∧
      (getAssembler d d.mmt.packetId).2.processorCalls = d.processorCalls ∧
      (getAssembler d d.mmt.packetId).2.mapStream = d.mapStream := by
    unfold getAssembler
    cases Map.find d.mapAssembler d.mmt.packetId <;> exact ⟨rfl, rfl, rfl⟩
  have hidem := getAssembler_fst_idem d d.mmt.packetId
  by_cases hok : (ext.mpuUnpack d.mpu stream).1 = true
  · rw [if_pos hok] at hres
    have hasm : (getAssembler
        { (getAssembler d d.mmt.packetId).2 with mpu := (ext.mpuUnpack d.mpu stream).2.1 }
        d.mmt.packetId).1 = (getAssembler d d.mmt.packetId).1 := by
      rw [← hidem]
      exact getAssembler_fst_congr _ _ _ rfl
    refine ⟨_, hres, hfields.1, hfields.2.1, hfields.2.2, ?_, hasm, ?_, ?_⟩
    · simpa [getStream, hfields.2.2] using hreg
    · rw [hasm]; exact hinit
    · intro q a hq
      exact getAssembler_keeps d d.mmt.packetId q a hq
  · rw [if_neg hok] at hres
    have hasm : (getAssembler { d with mpu := (ext.mpuUnpack d.mpu stream).2.1 }
        d.mmt.packetId).1 = (getAssembler d d.mmt.packetId).1 :=
      getAssembler_fst_congr _ _ _ rfl
    refine ⟨_, hres, rfl, rfl, rfl, ?_, hasm, ?_, ?_⟩
    · simpa [getStream] using hreg
    · rw [hasm]; exact hinit
    · intro q a hq; exact hq

/-- Witness of C17: the sample demuxer with RAP flag false and its assembler in
`Init`, on an MFU payload. -/
theorem processMpu_rap_gating_witness :
    ∃ d1, processMpu Ext.mpuTwelve 1 (MmtTlvDemuxer.sampleMpu false FragmentAssembler.new)
        ⟨[], 0⟩ = some d1 ∧
      d1.demuxerHandler = (MmtTlvDemuxer.sampleMpu false FragmentAssembler.new).demuxerHandler ∧
      d1.processorCalls = (MmtTlvDemuxer.sampleMpu false FragmentAssembler.new).processorCalls ∧
      d1.mapStream = (MmtTlvDemuxer.sampleMpu false FragmentAssembler.new).mapStream ∧
      getStream d1 (MmtTlvDemuxer.sampleMpu false FragmentAssembler.new).mmt.packetId =
        some { (MmtStream.new 0x100 : MmtStream Unit) with
               assetType := AssetType.hev1, lastMpuSequenceNumber := 10,
               mfuDataProcessor := some () } ∧
      (getAssembler d1 (MmtTlvDemuxer.sampleMpu false FragmentAssembler.new).mmt.packetId).1 =
        (getAssembler (MmtTlvDemuxer.sampleMpu false FragmentAssembler.new)
          (MmtTlvDemuxer.sampleMpu false FragmentAssembler.new).mmt.packetId).1 ∧
      (getAssembler d1
          (MmtTlvDemuxer.sampleMpu false FragmentAssembler.new).mmt.packetId).1.state =
        FragmentAssembler.State.Init ∧
      (∀ q a,
        Map.find (MmtTlvDemuxer.sampleMpu false FragmentAssembler.new).mapAssembler q = some a →
          Map.find d1.mapAssembler q = some a) :=
  processMpu_rap_gating Ext.mpuTwelve 1 (MmtTlvDemuxer.sampleMpu false FragmentAssembler.new)
    ⟨[], 0⟩ _ rfl rfl rfl

/-- The discontinuity branch of `processMpu`: an MFU payload on a registered
stream whose assembler is not in `Init`, with an MPU sequence number that is
neither the last one nor its successor.  The call returns with the assembler's
`state` set to `Init`; its `data` and `last_seq`, the stream registry, the
handler log and the processor calls are as before. -/
theorem processMpu_discontinuity (ext : Ext P) (fuel : Nat) (d : MmtTlvDemuxer P)
    (stream rest : ReadStream) (mpu : Mpu) (s : MmtStream P) (a : FragmentAssembler)
    (hunpack : ext.mpuUnpack d.mpu stream = (true, mpu, rest))
    (hmfu : mpu.fragmentType = FragmentType.Mfu)
    (hagg : mpu.aggregateFlag = false ∨
      mpu.fragmentationIndicator = FragmentationIndicator.NotFragmented)
    (hasm : Map.find d.mapAssembler d.mmt.packetId = some a)
    (hstate : a.state ≠ FragmentAssembler.State.Init)
    (hreg : getStream d d.mmt.packetId = some s)
    (hnext : mpu.mpuSequenceNumber ≠ (s.lastMpuSequenceNumber + 1) % 2 ^ 32)
    (hsame : mpu.mpuSequenceNumber ≠ s.lastMpuSequenceNumber) :
    processMpu ext fuel d stream =
      some (setAssembler { d with mpu := mpu } d.mmt.packetId
        { a with state := FragmentAssembler.State.Init }) := by
  have hga : getAssembler { d with mpu := mpu } d.mmt.packetId = (a, { d with mpu := mpu }) := by
    simp [getAssembler, hasm]
  have hgs : getStream { d with mpu := mpu } d.mmt.packetId = some s := by
    simpa [getStream] using hreg
  have hst : (a.state == FragmentAssembler.State.Init) = false := by
    simpa using hstate
  have hgate : (mpu.aggregateFlag &&
      mpu.fragmentationIndicator != FragmentationIndicator.NotFragmented) = false := by
    rcases hagg with h | h <;> simp [h]
  unfold processMpu
  simp only [hunpack, Bool.not_true, Bool.false_eq_true, if_false, hga, hgs, hgate, hmfu,
    bne_self_eq_false, hst, Bool.false_and, hnext, hsame, ne_eq, not_true_eq_false,
    not_false_eq_true, if_true]

/-- C18 at a failing input: the assembler of packet id `0x100` is in
`InFragment` with the in-flight buffer `01 02 03`, the stream's last MPU
sequence number is 10 and an MFU payload with MPU sequence number 12 arrives.
`processMpu` makes no handler call and no processor call, keeps the last MPU
sequence number at 10 and sets the assembler's state to `Init`, but the buffer
still holds `01 02 03`: it is not dropped. -/
theorem processMpu_discontinuity_keeps_buffer :
    (processMpu Ext.mpuTwelve 1
        (MmtTlvDemuxer.sampleMpu true ⟨.InFragment, [0x01, 0x02, 0x03], 7⟩) ⟨[], 0⟩).map
      (fun d1 => (Map.find d1.mapAssembler 0x100, d1.demuxerHandler, d1.processorCalls,
        d1.mapStream.map (fun e => (e.1, e.2.lastMpuSequenceNumber)))) =
      some (some ⟨.Init, [0x01, 0x02, 0x03], 7⟩, some [], [], [(0x100, 10)]) := by
  rfl

/-! ### The bytes handed to the MFU processor -/

theorem processMfuData_records_call (ext : Ext P) (d : MmtTlvDemuxer P) (data : List Nat)
    (s : MmtStream P) (processor : P)
    (hreg : getStream d d.mmt.packetId = some s)
    (hproc : s.mfuDataProcessor = some processor)
    (hidx : ∀ out, (ext.mfuProcess processor s data).1 = some out →
      out.streamIndex ≤ d.mapStream.length) :
    ∃ d1, processMfuData ext d data = some d1 ∧
      d1.processorCalls = d.processorCalls ++ [(d.mmt.packetId, data)] ∧
      d1.mmt = d.mmt ∧ d1.mapAssembler = d.mapAssembler := by
  unfold processMfuData
  simp only [hreg, hproc]
  cases hret : (ext.mfuProcess processor s data).1 with
  | none => exact ⟨_, rfl, rfl, rfl, rfl⟩
  | some out =>
    have hle : ¬ out.streamIndex > (Map.update d.mapStream d.mmt.packetId
        (fun _ => (ext.mfuProcess processor s data).2)).length := by
      rw [Map.length_update]
      have := hidx out hret
      omega
    simp only [hle, if_false]
    split
    · exact ⟨_, rfl, rfl, rfl, rfl⟩
    · split
      · exact ⟨_, rfl, rfl, rfl, rfl⟩
      · exact ⟨_, rfl, rfl, rfl, rfl⟩

theorem getAssembler_of_insert (d : MmtTlvDemuxer P) (m : List (Nat × FragmentAssembler))
    (pid : Nat) (a : FragmentAssembler) (h : d.mapAssembler = Map.insert m pid a) :
    (getAssembler d pid).1 = a := by
  simp [getAssembler, h, Map.find_insert_self]

theorem assembleMfu_emits (ext : Ext P) (d : MmtTlvDemuxer P) (dataUnit : DataUnit)
    (s : MmtStream P) (processor : P)
    (hfi : d.mpu.fragmentationIndicator = FragmentationIndicator.NotFragmented)
    (hok : (ext.assemble (getAssembler d d.mmt.packetId).1 dataUnit.data
      FragmentationIndicator.NotFragmented d.mmt.packetSequenceNumber).1 = true)
    (hreg : getStream d d.mmt.packetId = some s)
    (hproc : s.mfuDataProcessor = some processor)
    (hidx : ∀ st bytes out, (ext.mfuProcess processor st bytes).1 = some out →
      out.streamIndex ≤ d.mapStream.length) :
    ∃ d1, assembleMfu ext d dataUnit = some d1 ∧
      d1.processorCalls = d.processorCalls ++
        [(d.mmt.packetId,
          (ext.assemble (getAssembler d d.mmt.packetId).1 dataUnit.data
            FragmentationIndicator.NotFragmented d.mmt.packetSequenceNumber).2.data)] := by
  obtain ⟨d2, hd2, hcalls, _, _⟩ := processMfuData_records_call ext
    (setAssembler d d.mmt.packetId
      (ext.assemble (getAssembler d d.mmt.packetId).1 dataUnit.data
        FragmentationIndicator.NotFragmented d.mmt.packetSequenceNumber).2)
    (ext.assemble (getAssembler d d.mmt.packetId).1 dataUnit.data
      FragmentationIndicator.NotFragmented d.mmt.packetSequenceNumber).2.data s processor
    (by simpa [setAssembler, getStream] using hreg) hproc
    (by intro out hout; exact hidx _ _ out hout)
  unfold assembleMfu
  simp only [hfi, hok, if_true]
  have hd2a : processMfuData ext
      (setAssembler d d.mmt.packetId
        (ext.assemble (getAssembler d d.mmt.packetId).1 dataUnit.data
          FragmentationIndicator.NotFragmented d.mmt.packetSequenceNumber).2)
      (ext.assemble (getAssembler d d.mmt.packetId).1 dataUnit.data
        FragmentationIndicator.NotFragmented d.mmt.packetSequenceNumber).2.data = some d2 := hd2
  rw [hd2a]
  exact ⟨_, rfl, hcalls⟩

/-- What `processMpu` hands to the MFU processor: for an accepted MPU payload
(the header unpacks, the fragment type is MFU, the RAP gate and the sequence
check pass) with aggregate flag 0 and fragmentation indicator `NotFragmented`,
carrying one data unit, on a registered stream with an MFU processor, when
`assemble` reports a complete unit the processor is invoked exactly once more,
on the buffer `assemble` leaves in the assembler that `checkState` returned. -/
theorem processMpu_passes_buffer (ext : Ext P) (fuel : Nat) (d : MmtTlvDemuxer P)
    (stream rest rest1 : ReadStream) (mpu : Mpu) (dataUnit : DataUnit)
    (s : MmtStream P) (processor : P)
    (hunpack : ext.mpuUnpack d.mpu stream = (true, mpu, rest))
    (hagg : mpu.aggregateFlag = false)
    (hfi : mpu.fragmentationIndicator = FragmentationIndicator.NotFragmented)
    (hmfu : mpu.fragmentType = FragmentType.Mfu)
    (hreg : getStream d d.mmt.packetId = some s)
    (hproc : s.mfuDataProcessor = some processor)
    (haccept :
      ((getAssembler d d.mmt.packetId).1.state = FragmentAssembler.State.Init ∧
        d.mmt.rapFlag = true) ∨
      ((getAssembler d d.mmt.packetId).1.state ≠ FragmentAssembler.State.Init ∧
        (mpu.mpuSequenceNumber = (s.lastMpuSequenceNumber + 1) % 2 ^ 32 ∨
          mpu.mpuSequenceNumber = s.lastMpuSequenceNumber)))
    (hunit : ext.dataUnitUnpack (ReadStream.ofData mpu.payload) mpu.timedFlag false =
      (true, dataUnit, rest1))
    (hok : (ext.assemble
      (ext.checkState (getAssembler d d.mmt.packetId).1 d.mmt.packetSequenceNumber)
      dataUnit.data FragmentationIndicator.NotFragmented d.mmt.packetSequenceNumber).1 = true)
    (hidx : ∀ st bytes out, (ext.mfuProcess processor st bytes).1 = some out →
      out.streamIndex ≤ d.mapStream.length) :
    ∃ d1, processMpu ext fuel d stream = some d1 ∧
      d1.processorCalls = d.processorCalls ++
        [(d.mmt.packetId,
          (ext.assemble
            (ext.checkState (getAssembler d d.mmt.packetId).1 d.mmt.packetSequenceNumber)
            dataUnit.data FragmentationIndicator.NotFragmented
            d.mmt.packetSequenceNumber).2.data)] := by
  have hga1 : (getAssembler { d with mpu := mpu } d.mmt.packetId).1 =
      (getAssembler d d.mmt.packetId).1 := getAssembler_fst_congr _ _ _ rfl
  have hG : (getAssembler { d with mpu := mpu } d.mmt.packetId).2.mapStream = d.mapStream ∧
      (getAssembler { d with mpu := mpu } d.mmt.packetId).2.mmt = d.mmt ∧
      (getAssembler { d with mpu := mpu } d.mmt.packetId).2.mpu = mpu ∧
      (getAssembler { d with mpu := mpu } d.mmt.packetId).2.processorCalls =
        d.processorCalls := by
    unfold getAssembler
    cases Map.find d.mapAssembler d.mmt.packetId <;> exact ⟨rfl, rfl, rfl, rfl⟩
  have hgs : getStream (getAssembler { d with mpu := mpu } d.mmt.packetId).2 d.mmt.packetId =
      some s := by
    simpa [getStream, hG.1] using hreg
  have hfind : Map.find d.mapStream d.mmt.packetId = some s := hreg
  have key : ∀ (d2 : MmtTlvDemuxer P) (s1 : MmtStream P),
      d2.mpu = mpu → d2.mmt = d.mmt → d2.processorCalls = d.processorCalls →
      d2.mapStream = Map.update d.mapStream d.mmt.packetId (fun _ => s1) →
      s1.mfuDataProcessor = some processor →
      (getAssembler d2 d.mmt.packetId).1 =
        ext.checkState (getAssembler d d.mmt.packetId).1 d.mmt.packetSequenceNumber →
      ∃ d1, assembleMfu ext d2 dataUnit = some d1 ∧
        d1.processorCalls = d.processorCalls ++
          [(d.mmt.packetId,
            (ext.assemble
              (ext.checkState (getAssembler d d.mmt.packetId).1 d.mmt.packetSequenceNumber)
              dataUnit.data FragmentationIndicator.NotFragmented
              d.mmt.packetSequenceNumber).2.data)] := by
    intro d2 s1 hmpu hmmt hcalls hmap hs1 hasm
    have := assembleMfu_emits ext d2 dataUnit s1 processor
      (by rw [hmpu]; exact hfi)
      (by rw [hmmt, hasm]; exact hok)
      (by simp [getStream, hmmt, hmap, Map.find_update, hfind])
      hs1
      (by
        intro st bytes out hout
        have := hidx st bytes out hout
        simpa [hmap, Map.length_update] using this)
    rw [hmmt, hasm, hcalls] at this
    exact this
  unfold processMpu
  simp only [hunpack, Bool.not_true, Bool.false_eq_true, if_false, hga1, hgs, hG.1, hG.2.1,
    hG.2.2.1, hagg, Bool.false_and, hmfu, bne_self_eq_false, beq_self_eq_true, if_true, hunit]
  rcases haccept with ⟨hinit, hrap⟩ | ⟨hninit, hseq⟩
  · simp only [hinit, beq_self_eq_true, hrap, Bool.not_true, Bool.and_false,
      Bool.false_eq_true, if_false, if_true]
    refine key _ { s with lastMpuSequenceNumber := mpu.mpuSequenceNumber, rapFlag := true }
      ?_ ?_ ?_ rfl hproc ?_
    · exact hG.2.2.1
    · exact hG.2.1
    · exact hG.2.2.2
    · exact getAssembler_of_insert _ _ _ _ rfl
  · have hst : ((getAssembler d d.mmt.packetId).1.state == FragmentAssembler.State.Init) =
        false := by simpa using hninit
    simp only [hst, Bool.false_and, Bool.false_eq_true, if_false]
    by_cases hnext : mpu.mpuSequenceNumber = (s.lastMpuSequenceNumber + 1) % 2 ^ 32
    · simp only [hnext, if_true]
      refine key _
        { s with lastMpuSequenceNumber := (s.lastMpuSequenceNumber + 1) % 2 ^ 32,
                 auIndex := 0, rapFlag := d.mmt.rapFlag }
        ?_ ?_ ?_ rfl hproc ?_
      · exact hG.2.2.1
      · exact hG.2.1
      · exact hG.2.2.2
      · exact getAssembler_of_insert _ _ _ _ rfl
    · have hsame : mpu.mpuSequenceNumber = s.lastMpuSequenceNumber := by
        rcases hseq with h | h
        · exact absurd h hnext
        · exact h
      simp only [hnext, if_false]
      simp only [hsame, ne_eq, not_true_eq_false, if_false]
      refine key _ { s with rapFlag := d.mmt.rapFlag } ?_ ?_ ?_ ?_ hproc ?_
      · exact hG.2.2.1
      · exact hG.2.1
      · exact hG.2.2.2
      · rfl
      · exact getAssembler_of_insert _ _ _ _ rfl

theorem FragmentAssembler.checkState_data (a : FragmentAssembler) (packetSequenceNumber : Nat) :
    (a.checkState packetSequenceNumber).data = a.data ∨
      (a.checkState packetSequenceNumber).data = [] := by
  unfold FragmentAssembler.checkState
  split
  · left; rfl
  · right; rfl

/-- With the assembler operations modelled from the spec, an accepted MPU
payload with aggregate flag 0 and fragmentation indicator `NotFragmented` makes
`processMpu` invoke the MFU processor exactly once more, on the buffer that
`checkState` left followed by the bytes of the data unit; so on exactly the
bytes of the data unit when the buffer of the assembler was empty when the
payload arrived. -/
theorem processMpu_passes_buffer_and_unit (ext : Ext P) (fuel : Nat) (d : MmtTlvDemuxer P)
    (stream rest rest1 : ReadStream) (mpu : Mpu) (dataUnit : DataUnit)
    (s : MmtStream P) (processor : P)
    (hcheck : ext.checkState = FragmentAssembler.checkState)
    (hassemble : ext.assemble = FragmentAssembler.assemble)
    (hunpack : ext.mpuUnpack d.mpu stream = (true, mpu, rest))
    (hagg : mpu.aggregateFlag = false)
    (hfi : mpu.fragmentationIndicator = FragmentationIndicator.NotFragmented)
    (hmfu : mpu.fragmentType = FragmentType.Mfu)
    (hreg : getStream d d.mmt.packetId = some s)
    (hproc : s.mfuDataProcessor = some processor)
    (haccept :
      ((getAssembler d d.mmt.packetId).1.state = FragmentAssembler.State.Init ∧
        d.mmt.rapFlag = true) ∨
      ((getAssembler d d.mmt.packetId).1.state ≠ FragmentAssembler.State.Init ∧
        (mpu.mpuSequenceNumber = (s.lastMpuSequenceNumber + 1) % 2 ^ 32 ∨
          mpu.mpuSequenceNumber = s.lastMpuSequenceNumber)))
    (hunit : ext.dataUnitUnpack (ReadStream.ofData mpu.payload) mpu.timedFlag false =
      (true, dataUnit, rest1))
    (hidx : ∀ st bytes out, (ext.mfuProcess processor st bytes).1 = some out →
      out.streamIndex ≤ d.mapStream.length) :
    ∃ d1, processMpu ext fuel d stream = some d1 ∧
      d1.processorCalls = d.processorCalls ++
        [(d.mmt.packetId,
          ((getAssembler d d.mmt.packetId).1.checkState d.mmt.packetSequenceNumber).data ++
            dataUnit.data)] ∧
      ((getAssembler d d.mmt.packetId).1.data = [] →
        d1.processorCalls = d.processorCalls ++ [(d.mmt.packetId, dataUnit.data)]) := by
  obtain ⟨d1, hd1, hcalls⟩ := processMpu_passes_buffer ext fuel d stream rest rest1 mpu
    dataUnit s processor hunpack hagg hfi hmfu hreg hproc haccept hunit
    (by rw [hassemble]; rfl) hidx
  rw [hassemble, hcheck] at hcalls
  have hcalls1 : d1.processorCalls = d.processorCalls ++
      [(d.mmt.packetId,
        ((getAssembler d d.mmt.packetId).1.checkState d.mmt.packetSequenceNumber).data ++
          dataUnit.data)] := hcalls
  refine ⟨d1, hd1, hcalls1, ?_⟩
  intro hempty
  rw [hcalls1]
  rcases FragmentAssembler.checkState_data (getAssembler d d.mmt.packetId).1
    d.mmt.packetSequenceNumber with h | h
  · rw [h, hempty, List.nil_append]
  · rw [h, List.nil_append]

/-- The aggregated branch of `processSignalingMessages` on a non-empty payload:
the loop condition `nstream.isEof()` is false at once, so no length is read and
nothing is assembled or processed; the only effect of the call is `checkState`
on the assembler of the packet id. -/
theorem processSignalingMessages_aggregated_nonempty (ext : Ext P) (fuel : Nat)
    (d : MmtTlvDemuxer P) (stream rest : ReadStream) (message : SignalingMessage)
    (hunpack : ext.signalingMessageUnpack stream = (true, message, rest))
    (hagg : message.aggregationFlag = true)
    (hfi : message.fragmentationIndicator = FragmentationIndicator.NotFragmented)
    (hpayload : message.payload ≠ []) :
    processSignalingMessages ext fuel d stream =
      some (setAssembler d d.mmt.packetId
        (ext.checkState (getAssembler d d.mmt.packetId).1 d.mmt.packetSequenceNumber)) := by
  have heof : (ReadStream.ofData message.payload).isEof = false := by
    cases hp : message.payload with
    | nil => exact absurd hp hpayload
    | cons b bs => simp [ReadStream.isEof, ReadStream.leftBytes, ReadStream.ofData]
  unfold processSignalingMessages
  simp only [hunpack, Bool.not_true, Bool.false_eq_true, if_false, hagg, hfi,
    bne_self_eq_false]
  cases fuel with
  | zero => simp [aggregatedSignalingLoop, heof]
  | succ n => simp [aggregatedSignalingLoop, heof]

/-- C20 at a failing input: an aggregated, not fragmented signaling message
whose payload is one length-prefixed message, `00 03` followed by the M2
section message `80 00 80`.  Processed on its own, that message makes the
handler receive `onPlt`; `processSignalingMessages` on the aggregate leaves
the handler log empty: the loop `while (nstream.isEof())` never runs on a
non-empty payload. -/
theorem processSignalingMessages_aggregated_example :
    (processSignalingMessage Ext.signaling 4 MmtTlvDemuxer.sampleHandler
        ⟨[0x80, 0x00, 0x80], 0⟩).map (fun d1 => d1.demuxerHandler) =
      some (some [.table .onPlt (some (.plt [0x80]))]) ∧
    (processSignalingMessages Ext.signaling 4 MmtTlvDemuxer.sampleHandler
        ⟨[0x00, 0x03, 0x80, 0x00, 0x80], 0⟩).map (fun d1 => d1.demuxerHandler) =
      some (some []) := by
  constructor <;> rfl

/-! ### The asset loop of `processMmtPackageTable`, seen from one packet id -/

theorem foldl_invariant_mem {α β : Type} (Q : α → Prop) (f : α → β → α) :
    ∀ (l : List β), (∀ b ∈ l, ∀ a, Q a → Q (f a b)) → ∀ a, Q a → Q (l.foldl f a) := by
  intro l
  induction l with
  | nil => intro _ a ha; exact ha
  | cons b rest ih =>
    intro hf a ha
    exact ih (fun c hc x hx => hf c (List.mem_cons_of_mem _ hc) x hx) (f a b)
      (hf b (List.mem_cons_self _ _) a ha)

theorem Asset.mem_inBandPacketIds (asset : Asset) (p : Nat) :
    p ∈ asset.inBandPacketIds ↔
      ∃ li ∈ asset.locationInfos, li.locationType = 0 ∧ li.packetId = p := by
  unfold Asset.inBandPacketIds
  constructor
  · intro h
    obtain ⟨li, hli, hp⟩ := List.mem_map.mp h
    have hf := List.mem_filter.mp hli
    exact ⟨li, hf.1, by simpa using hf.2, hp⟩
  · rintro ⟨li, hli, h0, hp⟩
    exact List.mem_map.mpr ⟨li, List.mem_filter.mpr ⟨hli, by simpa using h0⟩, hp⟩

theorem Asset.mem_registrations (asset : Asset) (p : Nat) :
    p ∈ asset.registrations ↔
      registersAssetType asset.assetType ∧ p ∈ asset.inBandPacketIds := by
  unfold Asset.registrations
  by_cases h : registersAssetType asset.assetType
  · simp [h]
  · simp [h]

theorem Mpt.mem_registrations_iff_asset (mpt : Mpt) (p : Nat) :
    p ∈ mpt.registrations ↔
      ∃ asset ∈ mpt.assets, registersAssetType asset.assetType ∧ p ∈ asset.inBandPacketIds := by
  unfold Mpt.registrations
  rw [List.mem_flatMap]
  constructor
  · rintro ⟨asset, ha, hp⟩
    exact ⟨asset, ha, (Asset.mem_registrations asset p).mp hp⟩
  · rintro ⟨asset, ha, hp⟩
    exact ⟨asset, ha, (Asset.mem_registrations asset p).mpr hp⟩

theorem locationStep_registers (ext : Ext P) (assetType : Nat)
    (acc : MptLoop P × Option Nat) (li : LocationInfo)
    (h0 : li.locationType = 0) (hT : registersAssetType assetType) :
    locationStep ext assetType acc li =
      ({ mapStream := Map.insert acc.1.mapStream li.packetId
           (registerStream ext assetType acc.1.streamIndex
             ((Map.find acc.1.mapStream li.packetId).getD (MmtStream.new li.packetId))),
         mapStreamByStreamIdx :=
           Map.insert acc.1.mapStreamByStreamIdx acc.1.streamIndex li.packetId,
         streamIndex := acc.1.streamIndex + 1 },
       some li.packetId) := by
  have hc : li.locationType = 0 ∧
      (assetType = AssetType.hev1 ∨ assetType = AssetType.mp4a ∨
        assetType = AssetType.stpp) := ⟨h0, hT⟩
  unfold locationStep
  rw [if_pos hc]
  dsimp only
  cases Map.find acc.1.mapStream li.packetId <;> rfl

theorem locationStep_skips (ext : Ext P) (assetType : Nat)
    (acc : MptLoop P × Option Nat) (li : LocationInfo)
    (h : ¬ (li.locationType = 0 ∧ registersAssetType assetType)) :
    locationStep ext assetType acc li = acc := by
  have hc : ¬ (li.locationType = 0 ∧
      (assetType = AssetType.hev1 ∨ assetType = AssetType.mp4a ∨
        assetType = AssetType.stpp)) := h
  unfold locationStep
  rw [if_neg hc]

/-- Invariant of the inner loop for the stream under packet id `p`: a property
`Q` of the lookup of `p` that every registration of `p` keeps is kept by the
loop, and the local pointer ends on `p` only if the loop registered `p`. -/
theorem locationFold_stream (ext : Ext P) (p : Nat) (Q : Option (MmtStream P) → Prop)
    (assetType : Nat) (R : Prop)
    (hreg : R → ∀ o i, Q o →
      Q (some (registerStream ext assetType i (o.getD (MmtStream.new p))))) :
    ∀ (locs : List LocationInfo),
      (∀ li ∈ locs, li.locationType = 0 → li.packetId = p →
        registersAssetType assetType → R) →
      ∀ acc : MptLoop P × Option Nat,
        Q (Map.find acc.1.mapStream p) → (acc.2 = some p → R) →
        Q (Map.find (locs.foldl (locationStep ext assetType) acc).1.mapStream p) ∧
          ((locs.foldl (locationStep ext assetType) acc).2 = some p → R) := by
  intro locs
  induction locs with
  | nil => intro _ acc hQ hcur; exact ⟨hQ, hcur⟩
  | cons li rest ih =>
    intro hset acc hQ hcur
    rw [List.foldl_cons]
    have hset1 : ∀ li1 ∈ rest, li1.locationType = 0 → li1.packetId = p →
        registersAssetType assetType → R :=
      fun li1 h1 => hset li1 (List.mem_cons_of_mem _ h1)
    by_cases hc : li.locationType = 0 ∧ registersAssetType assetType
    · rw [locationStep_registers ext assetType acc li hc.1 hc.2]
      by_cases hp : li.packetId = p
      · have hR : R := hset li (List.mem_cons_self _ _) hc.1 hp hc.2
        apply ih hset1
        · simp only [hp, Map.find_insert_self]
          exact hreg hR _ _ hQ
        · intro _; exact hR
      · apply ih hset1
        · have hne : p ≠ li.packetId := fun h => hp h.symm
          simp only [Map.find_insert_ne _ _ _ _ hne]
          exact hQ
        · intro h
          exact absurd (Option.some.inj h) hp
    · rw [locationStep_skips ext assetType acc li hc]
      exact ih hset1 acc hQ hcur

/-- Invariant of one iteration of the asset loop for the stream under `p`. -/
theorem assetStep_stream (ext : Ext P) (p : Nat) (Q : Option (MmtStream P) → Prop)
    (asset : Asset)
    (hreg : p ∈ asset.registrations → ∀ o i, Q o →
      Q (some (registerStream ext asset.assetType i (o.getD (MmtStream.new p)))))
    (hdesc : p ∈ asset.registrations → ∀ o, Q o →
      Q (o.map (fun s => asset.descriptors.foldl applyDescriptor s)))
    (st : MptLoop P) (h : Q (Map.find st.mapStream p)) :
    Q (Map.find (assetStep ext st asset).mapStream p) := by
  have hloop := locationFold_stream ext p Q asset.assetType (p ∈ asset.registrations) hreg
    asset.locationInfos
    (fun li hli h0 hp hT =>
      (Asset.mem_registrations asset p).mpr
        ⟨hT, (Asset.mem_inBandPacketIds asset p).mpr ⟨li, hli, h0, hp⟩⟩)
    (st, none) h (fun hnone => by cases hnone)
  unfold assetStep
  split
  · rename_i st1 heq
    rw [heq] at hloop
    exact hloop.1
  · rename_i st1 pid heq
    rw [heq] at hloop
    have hfind : Map.find (Map.update st1.mapStream pid
        (fun s => asset.descriptors.foldl applyDescriptor s)) p =
        if p = pid then (Map.find st1.mapStream pid).map
          (fun s => asset.descriptors.foldl applyDescriptor s)
        else Map.find st1.mapStream p := Map.find_update _ _ _ _
    show Q (Map.find (Map.update st1.mapStream pid
        (fun s => asset.descriptors.foldl applyDescriptor s)) p)
    rw [hfind]
    by_cases hp : p = pid
    · subst hp
      simp only [if_true]
      exact hdesc (hloop.2 rfl) _ hloop.1
    · simp only [hp, if_false]
      exact hloop.1

/-- Invariant of the asset loop for the stream under `p`. -/
theorem assetLoop_stream (ext : Ext P) (p : Nat) (Q : Option (MmtStream P) → Prop) :
    ∀ (assets : List Asset),
      (∀ asset ∈ assets, p ∈ asset.registrations → ∀ o i, Q o →
        Q (some (registerStream ext asset.assetType i (o.getD (MmtStream.new p))))) →
      (∀ asset ∈ assets, p ∈ asset.registrations → ∀ o, Q o →
        Q (o.map (fun s => asset.descriptors.foldl applyDescriptor s))) →
      ∀ st : MptLoop P, Q (Map.find st.mapStream p) →
        Q (Map.find (assets.foldl (assetStep ext) st).mapStream p) := by
  intro assets hreg hdesc st h
  exact foldl_invariant_mem (fun st : MptLoop P => Q (Map.find st.mapStream p))
    (assetStep ext) assets
    (fun asset hasset st1 h1 =>
      assetStep_stream ext p Q asset (hreg asset hasset) (hdesc asset hasset) st1 h1)
    st h

theorem locationStep_keeps_registered (ext : Ext P) (p : Nat) (assetType : Nat)
    (acc : MptLoop P × Option Nat) (li : LocationInfo)
    (h : (Map.find acc.1.mapStream p).isSome = true) :
    (Map.find (locationStep ext assetType acc li).1.mapStream p).isSome = true := by
  by_cases hc : li.locationType = 0 ∧ registersAssetType assetType
  · rw [locationStep_registers ext assetType acc li hc.1 hc.2]
    by_cases hp : li.packetId = p
    · simp [hp, Map.find_insert_self]
    · have hne : p ≠ li.packetId := fun h1 => hp h1.symm
      simpa [Map.find_insert_ne _ _ _ _ hne] using h
  · rw [locationStep_skips ext assetType acc li hc]
    exact h

/-- After the inner loop, `p` is registered if it was before or if the loop
met an in-band location of `p` under a registering asset type. -/
theorem locationFold_registered (ext : Ext P) (p : Nat) (assetType : Nat) :
    ∀ (locs : List LocationInfo) (acc : MptLoop P × Option Nat),
      ((Map.find acc.1.mapStream p).isSome = true ∨
        (registersAssetType assetType ∧
          ∃ li ∈ locs, li.locationType = 0 ∧ li.packetId = p)) →
      (Map.find (locs.foldl (locationStep ext assetType) acc).1.mapStream p).isSome = true := by
  intro locs
  induction locs with
  | nil =>
    intro acc h
    rcases h with h | ⟨_, li, hli, _⟩
    · exact h
    · simp at hli
  | cons li rest ih =>
    intro acc h
    rw [List.foldl_cons]
    apply ih
    rcases h with h | ⟨hT, li1, hli1, h0, hp⟩
    · left; exact locationStep_keeps_registered ext p assetType acc li h
    · rcases List.mem_cons.mp hli1 with rfl | hrest
      · left
        rw [locationStep_registers ext assetType acc li1 h0 hT]
        simp [hp, Map.find_insert_self]
      · right; exact ⟨hT, li1, hrest, h0, hp⟩

theorem assetStep_registered (ext : Ext P) (p : Nat) (st : MptLoop P) (asset : Asset)
    (h : (Map.find st.mapStream p).isSome = true ∨ p ∈ asset.registrations) :
    (Map.find (assetStep ext st asset).mapStream p).isSome = true := by
  have hloop := locationFold_registered ext p asset.assetType asset.locationInfos (st, none)
    (by
      rcases h with h | h
      · left; exact h
      · right
        have h1 := (Asset.mem_registrations asset p).mp h
        exact ⟨h1.1, (Asset.mem_inBandPacketIds asset p).mp h1.2⟩)
  unfold assetStep
  split
  · rename_i st1 heq
    rw [heq] at hloop
    exact hloop
  · rename_i st1 pid heq
    rw [heq] at hloop
    show (Map.find (Map.update st1.mapStream pid
        (fun s => asset.descriptors.foldl applyDescriptor s)) p).isSome = true
    rw [Map.find_update]
    by_cases hp : p = pid
    · subst hp
      simpa using hloop
    · simpa [hp] using hloop

theorem assetLoop_registered (ext : Ext P) (p : Nat) :
    ∀ (assets : List Asset) (st : MptLoop P),
      ((Map.find st.mapStream p).isSome = true ∨ ∃ asset ∈ assets, p ∈ asset.registrations) →
      (Map.find (assets.foldl (assetStep ext) st).mapStream p).isSome = true := by
  intro assets
  induction assets with
  | nil =>
    intro st h
    rcases h with h | ⟨a, ha, _⟩
    · exact h
    · simp at ha
  | cons asset rest ih =>
    intro st h
    rw [List.foldl_cons]
    apply ih
    rcases h with h | ⟨a, ha, hp⟩
    · left; exact assetStep_registered ext p st asset (Or.inl h)
    · rcases List.mem_cons.mp ha with rfl | hrest
      · left; exact assetStep_registered ext p st a (Or.inr hp)
      · right; exact ⟨a, hrest, hp⟩

/-! ### The announced map `mapMpt` -/

theorem mptAnnounced_inner_some (assetType p : Nat) :
    ∀ (locs : List LocationInfo) (m : List (Nat × Nat)) (t : Nat),
      Map.find (locs.foldl
          (fun m1 li => if li.locationType = 0 then Map.insert m1 li.packetId assetType else m1)
          m) p = some t →
      Map.find m p = some t ∨
        (t = assetType ∧ ∃ li ∈ locs, li.locationType = 0 ∧ li.packetId = p) := by
  intro locs
  induction locs with
  | nil => intro m t h; left; exact h
  | cons li rest ih =>
    intro m t h
    rw [List.foldl_cons] at h
    rcases ih _ t h with h1 | ⟨ht, li1, hli1, h0, hp⟩
    · by_cases hc : li.locationType = 0
      · simp only [hc, if_true] at h1
        by_cases hp : li.packetId = p
        · rw [hp, Map.find_insert_self] at h1
          right
          exact ⟨(Option.some.inj h1).symm, li, List.mem_cons_self _ _, hc, hp⟩
        · have hne : p ≠ li.packetId := fun h2 => hp h2.symm
          rw [Map.find_insert_ne _ _ _ _ hne] at h1
          left; exact h1
      · simp only [hc, if_false] at h1
        left; exact h1
    · right; exact ⟨ht, li1, List.mem_cons_of_mem _ hli1, h0, hp⟩

theorem mptAnnounced_inner_isSome (assetType p : Nat) :
    ∀ (locs : List LocationInfo) (m : List (Nat × Nat)),
      ((Map.find m p).isSome = true ∨ ∃ li ∈ locs, li.locationType = 0 ∧ li.packetId = p) →
      (Map.find (locs.foldl
          (fun m1 li => if li.locationType = 0 then Map.insert m1 li.packetId assetType else m1)
          m) p).isSome = true := by
  intro locs
  induction locs with
  | nil =>
    intro m h
    rcases h with h | ⟨li, hli, _⟩
    · exact h
    · simp at hli
  | cons li rest ih =>
    intro m h
    rw [List.foldl_cons]
    apply ih
    by_cases hc : li.locationType = 0
    · simp only [hc, if_true]
      by_cases hp : li.packetId = p
      · left; simp [hp, Map.find_insert_self]
      · have hne : p ≠ li.packetId := fun h2 => hp h2.symm
        rw [Map.find_insert_ne _ _ _ _ hne]
        rcases h with h | ⟨li1, hli1, h0, hp1⟩
        · left; exact h
        · rcases List.mem_cons.mp hli1 with rfl | hrest
          · exact absurd hp1 hp
          · right; exact ⟨li1, hrest, h0, hp1⟩
    · simp only [hc, if_false]
      rcases h with h | ⟨li1, hli1, h0, hp1⟩
      · left; exact h
      · rcases List.mem_cons.mp hli1 with rfl | hrest
        · exact absurd h0 hc
        · right; exact ⟨li1, hrest, h0, hp1⟩

theorem mptAnnounced_outer_some (p : Nat) :
    ∀ (assets : List Asset) (m : List (Nat × Nat)) (t : Nat),
      Map.find (assets.foldl
          (fun m asset =>
            asset.locationInfos.foldl
              (fun m1 li =>
                if li.locationType = 0 then Map.insert m1 li.packetId asset.assetType else m1)
              m)
          m) p = some t →
      Map.find m p = some t ∨
        ∃ asset ∈ assets, asset.assetType = t ∧ p ∈ asset.inBandPacketIds := by
  intro assets
  induction assets with
  | nil => intro m t h; left; exact h
  | cons asset rest ih =>
    intro m t h
    rw [List.foldl_cons] at h
    rcases ih _ t h with h1 | ⟨a, ha, hat, hp⟩
    · rcases mptAnnounced_inner_some asset.assetType p asset.locationInfos m t h1 with
        h2 | ⟨ht, hli⟩
      · left; exact h2
      · right
        exact ⟨asset, List.mem_cons_self _ _, ht.symm,
          (Asset.mem_inBandPacketIds asset p).mpr hli⟩
    · right; exact ⟨a, List.mem_cons_of_mem _ ha, hat, hp⟩

theorem mptAnnounced_outer_isSome (p : Nat) :
    ∀ (assets : List Asset) (m : List (Nat × Nat)),
      ((Map.find m p).isSome = true ∨ ∃ asset ∈ assets, p ∈ asset.inBandPacketIds) →
      (Map.find (assets.foldl
          (fun m asset =>
            asset.locationInfos.foldl
              (fun m1 li =>
                if li.locationType = 0 then Map.insert m1 li.packetId asset.assetType else m1)
              m)
          m) p).isSome = true := by
  intro assets
  induction assets with
  | nil =>
    intro m h
    rcases h with h | ⟨a, ha, _⟩
    · exact h
    · simp at ha
  | cons asset rest ih =>
    intro m h
    rw [List.foldl_cons]
    apply ih
    rcases h with h | ⟨a, ha, hp⟩
    · left
      exact mptAnnounced_inner_isSome asset.assetType p asset.locationInfos m (Or.inl h)
    · rcases List.mem_cons.mp ha with rfl | hrest
      · left
        exact mptAnnounced_inner_isSome a.assetType p a.locationInfos m
          (Or.inr ((Asset.mem_inBandPacketIds a p).mp hp))
      · right; exact ⟨a, hrest, hp⟩

theorem Mpt.mem_inBandPacketIds_iff_asset (mpt : Mpt) (p : Nat) :
    p ∈ mpt.inBandPacketIds ↔ ∃ asset ∈ mpt.assets, p ∈ asset.inBandPacketIds := by
  unfold Mpt.inBandPacketIds
  exact List.mem_flatMap

/-- A packet id found in `mapMpt` with asset type `t` is announced in-band by an
asset of type `t`. -/
theorem mptAnnounced_find_some (mpt : Mpt) (p t : Nat)
    (h : Map.find (mptAnnounced mpt) p = some t) :
    ∃ asset ∈ mpt.assets, asset.assetType = t ∧ p ∈ asset.inBandPacketIds := by
  rcases mptAnnounced_outer_some p mpt.assets [] t h with h1 | h1
  · simp [Map.find] at h1
  · exact h1

/-- A packet id announced in-band is a key of `mapMpt`. -/
theorem mptAnnounced_find_isSome (mpt : Mpt) (p : Nat) (h : p ∈ mpt.inBandPacketIds) :
    (Map.find (mptAnnounced mpt) p).isSome = true :=
  mptAnnounced_outer_isSome p mpt.assets [] (Or.inr ((Mpt.mem_inBandPacketIds_iff_asset mpt p).mp h))

theorem mptAnnounced_ne_nil (mpt : Mpt) (h : mpt.inBandPacketIds ≠ []) :
    (mptAnnounced mpt).length ≠ 0 := by
  obtain ⟨p, hp⟩ := List.exists_mem_of_ne_nil _ h
  have := mptAnnounced_find_isSome mpt p hp
  intro hlen
  have hnil : mptAnnounced mpt = [] := List.length_eq_zero.mp hlen
  rw [hnil] at this
  simp [Map.find] at this

/-! ### Pruning -/

theorem Map.find_filter_keeps {α : Type} (q : Nat × α → Bool) :
    ∀ (m : List (Nat × α)) (p : Nat) (v : α),
      Map.find m p = some v → q (p, v) = true → Map.find (m.filter q) p = some v := by
  intro m
  induction m with
  | nil => intro p v h; simp [Map.find] at h
  | cons e rest ih =>
    intro p v h hq
    obtain ⟨k1, v1⟩ := e
    by_cases hk : k1 = p
    · subst hk
      simp only [Map.find, if_true] at h
      have hv : v1 = v := Option.some.inj h
      subst hv
      simp [List.filter_cons, hq, Map.find]
    · simp only [Map.find, hk, if_false] at h
      by_cases hq1 : q (k1, v1) = true
      · simp only [List.filter_cons, hq1, if_true, Map.find, hk, if_false]
        exact ih p v h hq
      · simp only [List.filter_cons, hq1, if_false]
        exact ih p v h hq

theorem Map.find_filter_none {α : Type} (q : Nat × α → Bool) :
    ∀ (m : List (Nat × α)) (p : Nat),
      (∀ e ∈ m, e.1 = p → q e = false) → Map.find (m.filter q) p = none := by
  intro m
  induction m with
  | nil => intro p _; rfl
  | cons e rest ih =>
    intro p h
    obtain ⟨k1, v1⟩ := e
    have hrest : ∀ e ∈ rest, e.1 = p → q e = false :=
      fun e he => h e (List.mem_cons_of_mem _ he)
    by_cases hk : k1 = p
    · have hq : q (k1, v1) = false := h (k1, v1) (List.mem_cons_self _ _) hk
      simp only [List.filter_cons, hq, Bool.false_eq_true, if_false]
      exact ih p hrest
    · by_cases hq1 : q (k1, v1) = true
      · simp only [List.filter_cons, hq1, if_true, Map.find, hk, if_false]
        exact ih p hrest
      · simp only [List.filter_cons, hq1, if_false]
        exact ih p hrest

theorem pruneStreams_eq_filter (mapMpt : List (Nat × Nat))
    (mapStream : List (Nat × MmtStream P)) (h : mapMpt.length ≠ 0) :
    pruneStreams mapMpt mapStream =
      mapStream.filter
        (fun e =>
          match Map.find mapMpt e.1 with
          | some assetType => assetType == e.2.assetType
          | none => false) := by
  unfold pruneStreams
  rw [if_pos h]

theorem applyDescriptor_sameCore (s : MmtStream P) (descriptor : MmtDescriptor) :
    s.sameCore (applyDescriptor s descriptor) := by
  cases descriptor <;> exact ⟨rfl, rfl, rfl, rfl, rfl, rfl, rfl⟩

theorem foldl_applyDescriptor_sameCore (descriptors : List MmtDescriptor) (s : MmtStream P) :
    s.sameCore (descriptors.foldl applyDescriptor s) := by
  apply foldl_invariant (fun s1 : MmtStream P => s.sameCore s1) applyDescriptor
  · intro s1 dsc h
    have h1 := applyDescriptor_sameCore s1 dsc
    unfold MmtStream.sameCore at h h1 ⊢
    obtain ⟨a1, a2, a3, a4, a5, a6, a7⟩ := h
    obtain ⟨b1, b2, b3, b4, b5, b6, b7⟩ := h1
    exact ⟨b1.trans a1, b2.trans a2, b3.trans a3, b4.trans a4, b5.trans a5, b6.trans a6,
      b7.trans a7⟩
  · exact ⟨rfl, rfl, rfl, rfl, rfl, rfl, rfl⟩

theorem foldl_applyDescriptor_caches (descriptors : List MmtDescriptor) (s : MmtStream P)
    (h : ∀ dsc ∈ descriptors, dsc.isTimestamp = false) :
    (descriptors.foldl applyDescriptor s).mpuTimestamps = s.mpuTimestamps ∧
      (descriptors.foldl applyDescriptor s).mpuExtendedTimestamps = s.mpuExtendedTimestamps ∧
      (descriptors.foldl applyDescriptor s).timeBase = s.timeBase := by
  apply foldl_invariant_mem
    (fun s1 : MmtStream P => s1.mpuTimestamps = s.mpuTimestamps ∧
      s1.mpuExtendedTimestamps = s.mpuExtendedTimestamps ∧ s1.timeBase = s.timeBase)
    applyDescriptor descriptors
  · intro dsc hdsc s1 h1
    have hts := h dsc hdsc
    cases dsc with
    | mpuTimestamp d => simp [MmtDescriptor.isTimestamp] at hts
    | mpuExtendedTimestamp d => simp [MmtDescriptor.isTimestamp] at hts
    | mhStreamIdentification t => exact h1
    | videoComponent d => exact h1
    | mhAudioComponent d => exact h1
    | other t => exact h1
  · exact ⟨rfl, rfl, rfl⟩

/-- C13: the pruning rule of `processMmtPackageTable` when the MPT announces at
least one packet id in-band, for a stream `s` registered under `p` before the
call.  If `p` is not announced in-band, no stream is registered under `p`
afterwards.  If `p` is announced in-band and every asset that announces it has
the asset type of `s`, the stream registered under `p` afterwards is `s` itself:
same packet id, asset type, last MPU sequence number, AU index and RAP flag, and
the MFU processor it had; and if no asset that announces `p` carries a
timestamp descriptor, its `mpuTimestamps`, `mpuExtendedTimestamps` and time base
are unchanged as well. -/
theorem processMmtPackageTable_pruning (ext : Ext P) (d : MmtTlvDemuxer P) (mpt : Mpt)
    (p : Nat) (s : MmtStream P)
    (hann : mpt.inBandPacketIds ≠ [])
    (hreg : Map.find d.mapStream p = some s) :
    (p ∉ mpt.inBandPacketIds →
        Map.find (processMmtPackageTable ext d mpt).mapStream p = none) ∧
    (p ∈ mpt.inBandPacketIds →
      (∀ asset ∈ mpt.assets, p ∈ asset.inBandPacketIds → asset.assetType = s.assetType) →
      ∃ s1, Map.find (processMmtPackageTable ext d mpt).mapStream p = some s1 ∧
        s1.packetId = s.packetId ∧ s1.assetType = s.assetType ∧
        s1.lastMpuSequenceNumber = s.lastMpuSequenceNumber ∧
        s1.auIndex = s.auIndex ∧ s1.rapFlag = s.rapFlag ∧
        (∀ processor, s.mfuDataProcessor = some processor →
          s1.mfuDataProcessor = some processor) ∧
        ((∀ asset ∈ mpt.assets, p ∈ asset.inBandPacketIds →
            ∀ dsc ∈ asset.descriptors, dsc.isTimestamp = false) →
          s1.mpuTimestamps = s.mpuTimestamps ∧
            s1.mpuExtendedTimestamps = s.mpuExtendedTimestamps ∧
            s1.timeBase = s.timeBase)) := by
  have hlen := mptAnnounced_ne_nil mpt hann
  have hfinal : (processMmtPackageTable ext d mpt).mapStream =
      (mpt.assets.foldl (assetStep ext)
        ⟨pruneStreams (mptAnnounced mpt) d.mapStream, [], 0⟩).mapStream := rfl
  rw [hfinal, pruneStreams_eq_filter _ _ hlen]
  constructor
  · intro hnot
    have hmap : Map.find (mptAnnounced mpt) p = none := by
      cases hf : Map.find (mptAnnounced mpt) p with
      | none => rfl
      | some t =>
        obtain ⟨asset, hasset, _, hp⟩ := mptAnnounced_find_some mpt p t hf
        exact absurd ((Mpt.mem_inBandPacketIds_iff_asset mpt p).mpr ⟨asset, hasset, hp⟩) hnot
    apply assetLoop_stream ext p (fun o => o = none) mpt.assets
    · intro asset hasset hp
      have h1 := (Asset.mem_registrations asset p).mp hp
      exact absurd ((Mpt.mem_inBandPacketIds_iff_asset mpt p).mpr ⟨asset, hasset, h1.2⟩) hnot
    · intro asset hasset hp
      have h1 := (Asset.mem_registrations asset p).mp hp
      exact absurd ((Mpt.mem_inBandPacketIds_iff_asset mpt p).mpr ⟨asset, hasset, h1.2⟩) hnot
    · apply Map.find_filter_none
      intro e _ he
      simp [he, hmap]
  · intro hin hsame
    have hmap : Map.find (mptAnnounced mpt) p = some s.assetType := by
      have hsome := mptAnnounced_find_isSome mpt p hin
      cases hf : Map.find (mptAnnounced mpt) p with
      | none => rw [hf] at hsome; simp at hsome
      | some t =>
        obtain ⟨asset, hasset, hat, hp⟩ := mptAnnounced_find_some mpt p t hf
        rw [← hat, hsame asset hasset hp]
    apply assetLoop_stream ext p
      (fun o => ∃ s1, o = some s1 ∧
        s1.packetId = s.packetId ∧ s1.assetType = s.assetType ∧
        s1.lastMpuSequenceNumber = s.lastMpuSequenceNumber ∧
        s1.auIndex = s.auIndex ∧ s1.rapFlag = s.rapFlag ∧
        (∀ processor, s.mfuDataProcessor = some processor →
          s1.mfuDataProcessor = some processor) ∧
        ((∀ asset ∈ mpt.assets, p ∈ asset.inBandPacketIds →
            ∀ dsc ∈ asset.descriptors, dsc.isTimestamp = false) →
          s1.mpuTimestamps = s.mpuTimestamps ∧
            s1.mpuExtendedTimestamps = s.mpuExtendedTimestamps ∧
            s1.timeBase = s.timeBase)) mpt.assets
    · intro asset hasset hp o i ⟨s1, ho, h1, _, h3, h4, h5, h6, h7⟩
      have hin1 := ((Asset.mem_registrations asset p).mp hp).2
      subst ho
      refine ⟨_, rfl, h1, hsame asset hasset hin1, h3, h4, h5, ?_, h7⟩
      intro processor hproc
      have := h6 processor hproc
      simp [registerStream, this]
    · intro asset hasset hp o ⟨s1, ho, h1, h2, h3, h4, h5, h6, h7⟩
      have hin1 := ((Asset.mem_registrations asset p).mp hp).2
      subst ho
      obtain ⟨c1, c2, _, c4, c5, c6, c7⟩ :=
        foldl_applyDescriptor_sameCore asset.descriptors s1
      refine ⟨_, rfl, c1.trans h1, c2.trans h2, c4.trans h3, c5.trans h4, c6.trans h5, ?_, ?_⟩
      · intro processor hproc
        rw [c7]; exact h6 processor hproc
      · intro hnots
        obtain ⟨e1, e2, e3⟩ := foldl_applyDescriptor_caches asset.descriptors s1
          (hnots asset hasset hin1)
        obtain ⟨f1, f2, f3⟩ := h7 hnots
        exact ⟨e1.trans f1, e2.trans f2, e3.trans f3⟩
    · refine ⟨s, ?_, rfl, rfl, rfl, rfl, rfl, fun _ h => h, fun _ => ⟨rfl, rfl, rfl⟩⟩
      apply Map.find_filter_keeps _ _ _ _ hreg
      simp [hmap]

/-- Witness of C13: the demuxer with streams under `0x100` (HEVC, full cache)
and `0x200` (AAC), and the MPT that announces `0x100` as HEVC without timestamp
descriptors and does not announce `0x200`. -/
theorem processMmtPackageTable_pruning_witness :
    Map.find (processMmtPackageTable Ext.idle MmtTlvDemuxer.sampleTwo Mpt.sampleKeep).mapStream
        0x200 = none ∧
    ∃ s1, Map.find
        (processMmtPackageTable Ext.idle MmtTlvDemuxer.sampleTwo Mpt.sampleKeep).mapStream
        0x100 = some s1 ∧
      s1.lastMpuSequenceNumber = MmtStream.sampleFull.lastMpuSequenceNumber ∧
      s1.mpuTimestamps = MmtStream.sampleFull.mpuTimestamps := by
  have h200 := (processMmtPackageTable_pruning Ext.idle MmtTlvDemuxer.sampleTwo Mpt.sampleKeep
    0x200 { (MmtStream.new 0x200 : MmtStream Unit) with assetType := AssetType.mp4a }
    (by decide) rfl).1 (by decide)
  obtain ⟨s1, h1, _, _, h4, _, _, _, h8⟩ :=
    (processMmtPackageTable_pruning Ext.idle MmtTlvDemuxer.sampleTwo Mpt.sampleKeep
      0x100 MmtStream.sampleFull (by decide) rfl).2 (by decide) (by decide)
  exact ⟨h200, s1, h1, h4, (h8 (by decide)).1⟩

/-! ### A packet id announced with a new asset type -/

theorem Map.ordered_unique {α : Type} :
    ∀ (m : List (Nat × α)) (p : Nat) (v : α), Map.Ordered m → Map.find m p = some v →
      ∀ e ∈ m, e.1 = p → e = (p, v) := by
  intro m
  induction m with
  | nil => intro p v _ h; simp [Map.find] at h
  | cons e1 rest ih =>
    intro p v hord h e he hep
    obtain ⟨k1, v1⟩ := e1
    unfold Map.Ordered at hord
    simp only [List.map_cons, List.pairwise_cons] at hord
    obtain ⟨hlt, hrest⟩ := hord
    by_cases hk : k1 = p
    · subst hk
      simp only [Map.find, if_true] at h
      have hv : v1 = v := Option.some.inj h
      subst hv
      rcases List.mem_cons.mp he with rfl | he1
      · rfl
      · have := hlt e.1 (List.mem_map.mpr ⟨e, he1, rfl⟩)
        omega
    · simp only [Map.find, hk, if_false] at h
      rcases List.mem_cons.mp he with rfl | he1
      · exact absurd hep hk
      · exact ih p v hrest h e he1 hep

theorem mergeMpuTimestamp_mem (last : Nat) (cache : List MpuTimestampEntry)
    (ts : MpuTimestampEntry) :
    ∀ x ∈ mergeMpuTimestamp last cache ts, x ∈ cache ∨ x = ts := by
  intro x hx
  unfold mergeMpuTimestamp at hx
  split at hx
  · rename_i cache1 h1
    rcases overwriteFirst_mem _ _ _ _ h1 x hx with h2 | ⟨a, _, hpa, hxa⟩
    · left; exact h2
    · right
      have hseq : a.mpuSequenceNumber = ts.mpuSequenceNumber := by simpa using hpa
      rw [hxa]
      cases a; cases ts
      simp only at hseq
      simp [hseq]
  · split at hx
    · rename_i cache1 h1
      rcases overwriteFirst_mem _ _ _ _ h1 x hx with h2 | ⟨a, _, _, hxa⟩
      · left; exact h2
      · right; rw [hxa]
    · split at hx
      · rcases mem_modify _ _ _ x hx with h2 | ⟨a, _, hxa⟩
        · left; exact h2
        · right; rw [hxa]
      · rcases List.mem_append.mp hx with h2 | h2
        · left; exact h2
        · right; simpa using h2

theorem mergeMpuExtendedTimestamp_mem_or_eq (last : Nat)
    (cache : List MpuExtendedTimestampEntry) (ts : MpuExtendedTimestampEntry) :
    ∀ x ∈ mergeMpuExtendedTimestamp last cache ts, x ∈ cache ∨ x = ts := by
  intro x hx
  unfold mergeMpuExtendedTimestamp at hx
  split at hx
  · left; exact hx
  · split at hx
    · rename_i cache1 h1
      rcases overwriteFirst_mem _ _ _ _ h1 x hx with h2 | ⟨a, _, hpa, hxa⟩
      · left; exact h2
      · right
        have hseq : a.mpuSequenceNumber = ts.mpuSequenceNumber := by simpa using hpa
        rw [hxa]
        cases a; cases ts
        simp only at hseq
        simp [MpuExtendedTimestampEntry.assignFrom, hseq]
    · split at hx
      · rename_i cache1 h1
        rcases overwriteFirst_mem _ _ _ _ h1 x hx with h2 | ⟨a, _, _, hxa⟩
        · left; exact h2
        · right; rw [hxa]; simp [MpuExtendedTimestampEntry.assignFrom]
      · split at hx
        · rcases mem_modify _ _ _ x hx with h2 | ⟨a, _, hxa⟩
          · left; exact h2
          · right; rw [hxa]; simp [MpuExtendedTimestampEntry.assignFrom]
        · rcases List.mem_append.mp hx with h2 | h2
          · left; exact h2
          · right; simpa using h2

/-- The caches of a stream after the descriptors of an asset hold only entries
they held before and entries of the asset's timestamp descriptors. -/
theorem foldl_applyDescriptor_entries (asset : Asset) (s : MmtStream P) :
    (∀ e ∈ (asset.descriptors.foldl applyDescriptor s).mpuTimestamps,
        e ∈ s.mpuTimestamps ∨ e ∈ asset.timestampEntries) ∧
      (∀ e ∈ (asset.descriptors.foldl applyDescriptor s).mpuExtendedTimestamps,
        e ∈ s.mpuExtendedTimestamps ∨ e ∈ asset.extendedTimestampEntries) := by
  apply foldl_invariant_mem
    (fun s1 : MmtStream P =>
      (∀ e ∈ s1.mpuTimestamps, e ∈ s.mpuTimestamps ∨ e ∈ asset.timestampEntries) ∧
        (∀ e ∈ s1.mpuExtendedTimestamps,
          e ∈ s.mpuExtendedTimestamps ∨ e ∈ asset.extendedTimestampEntries))
    applyDescriptor asset.descriptors
  · intro dsc hdsc s1 h1
    cases dsc with
    | mpuTimestamp dd =>
      refine ⟨?_, h1.2⟩
      have hsub : ∀ e ∈ dd.entries, e ∈ asset.timestampEntries := by
        intro e he
        unfold Asset.timestampEntries
        exact List.mem_flatMap.mpr ⟨_, hdsc, he⟩
      apply foldl_invariant_mem
        (fun c : List MpuTimestampEntry =>
          ∀ e ∈ c, e ∈ s.mpuTimestamps ∨ e ∈ asset.timestampEntries)
        (mergeMpuTimestamp s1.lastMpuSequenceNumber) dd.entries
      · intro ts hts c hc e he
        rcases mergeMpuTimestamp_mem _ c ts e he with h2 | h2
        · exact hc e h2
        · right; rw [h2]; exact hsub ts hts
      · exact h1.1
    | mpuExtendedTimestamp dd =>
      refine ⟨h1.1, ?_⟩
      have hsub : ∀ e ∈ dd.entries, e ∈ asset.extendedTimestampEntries := by
        intro e he
        unfold Asset.extendedTimestampEntries
        exact List.mem_flatMap.mpr ⟨_, hdsc, he⟩
      apply foldl_invariant_mem
        (fun c : List MpuExtendedTimestampEntry =>
          ∀ e ∈ c, e ∈ s.mpuExtendedTimestamps ∨ e ∈ asset.extendedTimestampEntries)
        (mergeMpuExtendedTimestamp s1.lastMpuSequenceNumber) dd.entries
      · intro ts hts c hc e he
        rcases mergeMpuExtendedTimestamp_mem_or_eq _ c ts e he with h2 | h2
        · exact hc e h2
        · right; rw [h2]; exact hsub ts hts
      · exact h1.2
    | mhStreamIdentification t => exact h1
    | videoComponent dd => exact h1
    | mhAudioComponent dd => exact h1
    | other t => exact h1
  · exact ⟨fun e he => Or.inl he, fun e he => Or.inl he⟩

/-- An MPT that announces one packet id in two assets of different types: the
TTML stream under `0x100` receives an MPT that announces `0x100` in-band as
HEVC and then as AAC.  Afterwards the stream under `0x100` has asset type AAC
and the MFU processor created for HEVC: the processor is created by the first
asset and kept by the second. -/
theorem processMmtPackageTable_retype_keeps_first_processor :
    (Map.find (processMmtPackageTable Ext.typed MmtTlvDemuxer.sampleTtml
        Mpt.sampleTwice).mapStream 0x100).map (fun s => (s.assetType, s.mfuDataProcessor)) =
      some (AssetType.mp4a, some AssetType.hev1) ∧
    Ext.typed.mfuDataProcessorCreate AssetType.mp4a ≠ some AssetType.hev1 := by
  constructor
  · rfl
  · decide

/-- A change of asset type to one of the types the asset loop registers: a
stream `s` is registered under `p` with asset type `A`, the MPT announces `p`
in-band, every asset that announces `p` in-band has the same asset type `B`,
`B` differs from `A`, and `B` is `hev1`, `mp4a` or `stpp`.  Then the stream
registered under `p` afterwards is newly created (packet id `p`, last MPU
sequence number 0, AU index 0), has asset type `B` and the MFU processor the
factory creates for `B`, and every entry of its timestamp caches is an entry of
a timestamp descriptor of an asset of this MPT that announces `p`. -/
theorem processMmtPackageTable_asset_type_change (ext : Ext P) (d : MmtTlvDemuxer P)
    (mpt : Mpt) (p A B : Nat) (s : MmtStream P)
    (hord : Map.Ordered d.mapStream)
    (hreg : Map.find d.mapStream p = some s)
    (hA : s.assetType = A) (hAB : A ≠ B) (hB : registersAssetType B)
    (hann : p ∈ mpt.inBandPacketIds)
    (honly : ∀ asset ∈ mpt.assets, p ∈ asset.inBandPacketIds → asset.assetType = B) :
    ∃ s1, Map.find (processMmtPackageTable ext d mpt).mapStream p = some s1 ∧
      s1.packetId = p ∧ s1.lastMpuSequenceNumber = 0 ∧ s1.auIndex = 0 ∧
      s1.assetType = B ∧
      s1.mfuDataProcessor = ext.mfuDataProcessorCreate B ∧
      (∀ e ∈ s1.mpuTimestamps,
        ∃ asset ∈ mpt.assets, p ∈ asset.inBandPacketIds ∧ e ∈ asset.timestampEntries) ∧
      (∀ e ∈ s1.mpuExtendedTimestamps,
        ∃ asset ∈ mpt.assets, p ∈ asset.inBandPacketIds ∧
          e ∈ asset.extendedTimestampEntries) := by
  have hne : mpt.inBandPacketIds ≠ [] := List.ne_nil_of_mem hann
  have hlen := mptAnnounced_ne_nil mpt hne
  have hfinal : (processMmtPackageTable ext d mpt).mapStream =
      (mpt.assets.foldl (assetStep ext)
        ⟨pruneStreams (mptAnnounced mpt) d.mapStream, [], 0⟩).mapStream := rfl
  rw [hfinal, pruneStreams_eq_filter _ _ hlen]
  have hmap : Map.find (mptAnnounced mpt) p = some B := by
    have hsome := mptAnnounced_find_isSome mpt p hann
    cases hf : Map.find (mptAnnounced mpt) p with
    | none => rw [hf] at hsome; simp at hsome
    | some t =>
      obtain ⟨asset, hasset, hat, hp⟩ := mptAnnounced_find_some mpt p t hf
      rw [← hat, honly asset hasset hp]
  have hpruned : Map.find
      (d.mapStream.filter
        (fun e =>
          match Map.find (mptAnnounced mpt) e.1 with
          | some assetType => assetType == e.2.assetType
          | none => false)) p = none := by
    apply Map.find_filter_none
    intro e he hep
    have heq := Map.ordered_unique d.mapStream p s hord hreg e he hep
    have hBA : ¬ B = A := fun h => hAB h.symm
    simp [heq, hmap, hA, hBA]
  obtain ⟨asset0, hasset0, hp0⟩ := (Mpt.mem_inBandPacketIds_iff_asset mpt p).mp hann
  have hregd : ∃ asset ∈ mpt.assets, p ∈ asset.registrations := by
    refine ⟨asset0, hasset0, (Asset.mem_registrations asset0 p).mpr ⟨?_, hp0⟩⟩
    rw [honly asset0 hasset0 hp0]; exact hB
  have hsome := assetLoop_registered ext p mpt.assets
    ⟨d.mapStream.filter
        (fun e =>
          match Map.find (mptAnnounced mpt) e.1 with
          | some assetType => assetType == e.2.assetType
          | none => false), [], 0⟩ (Or.inr hregd)
  have hQ := assetLoop_stream ext p
    (fun o => ∀ s1, o = some s1 →
      s1.packetId = p ∧ s1.lastMpuSequenceNumber = 0 ∧ s1.auIndex = 0 ∧
      s1.assetType = B ∧
      s1.mfuDataProcessor = ext.mfuDataProcessorCreate B ∧
      (∀ e ∈ s1.mpuTimestamps,
        ∃ asset ∈ mpt.assets, p ∈ asset.inBandPacketIds ∧ e ∈ asset.timestampEntries) ∧
      (∀ e ∈ s1.mpuExtendedTimestamps,
        ∃ asset ∈ mpt.assets, p ∈ asset.inBandPacketIds ∧
          e ∈ asset.extendedTimestampEntries)) mpt.assets
    (by
      intro asset hasset hp o i hQo s1 hs1
      have hin1 := ((Asset.mem_registrations asset p).mp hp).2
      have hs1' : s1 = registerStream ext asset.assetType i (o.getD (MmtStream.new p)) :=
        (Option.some.inj hs1).symm
      have hT : asset.assetType = B := honly asset hasset hin1
      cases o with
      | none =>
        subst hs1'
        simp [registerStream, MmtStream.new, hT]
      | some s0 =>
        obtain ⟨q1, q2, q3, _, q5, q6, q7⟩ := hQo s0 rfl
        subst hs1'
        refine ⟨q1, q2, q3, hT, ?_, q6, q7⟩
        simp only [registerStream, Option.getD_some, hT, q5]
        cases ext.mfuDataProcessorCreate B <;> rfl)
    (by
      intro asset hasset hp o hQo s1 hs1
      have hin1 := ((Asset.mem_registrations asset p).mp hp).2
      cases o with
      | none => simp at hs1
      | some s0 =>
        obtain ⟨q1, q2, q3, q4, q5, q6, q7⟩ := hQo s0 rfl
        have hs1' : s1 = asset.descriptors.foldl applyDescriptor s0 := by
          simpa using hs1.symm
        subst hs1'
        obtain ⟨c1, c2, _, c4, c5, _, c7⟩ :=
          foldl_applyDescriptor_sameCore asset.descriptors s0
        obtain ⟨e1, e2⟩ := foldl_applyDescriptor_entries asset s0
        refine ⟨c1.trans q1, c4.trans q2, c5.trans q3, c2.trans q4, c7.trans q5, ?_, ?_⟩
        · intro e he
          rcases e1 e he with h | h
          · exact q6 e h
          · exact ⟨asset, hasset, hin1, h⟩
        · intro e he
          rcases e2 e he with h | h
          · exact q7 e h
          · exact ⟨asset, hasset, hin1, h⟩)
    ⟨d.mapStream.filter
        (fun e =>
          match Map.find (mptAnnounced mpt) e.1 with
          | some assetType => assetType == e.2.assetType
          | none => false), [], 0⟩
    (by intro s1 hs1; rw [hpruned] at hs1; cases hs1)
  cases hf : Map.find (mpt.assets.foldl (assetStep ext)
      ⟨d.mapStream.filter
        (fun e =>
          match Map.find (mptAnnounced mpt) e.1 with
          | some assetType => assetType == e.2.assetType
          | none => false), [], 0⟩).mapStream p with
  | none => rw [hf] at hsome; simp at hsome
  | some s1 => exact ⟨s1, rfl, hQ s1 hf⟩

/-- Example of a change of asset type to a registered type: the HEVC stream
with a full cache under `0x100` and the MPT that announces `0x100` once, as
AAC, with two timestamp entries. -/
theorem processMmtPackageTable_asset_type_change_witness :
    ∃ s1, Map.find (processMmtPackageTable Ext.idle MmtTlvDemuxer.sample
        Mpt.sampleRetype).mapStream 0x100 = some s1 ∧
      s1.assetType = AssetType.mp4a ∧
      (∀ e ∈ s1.mpuTimestamps,
        ∃ asset ∈ Mpt.sampleRetype.assets, 0x100 ∈ asset.inBandPacketIds ∧
          e ∈ asset.timestampEntries) := by
  obtain ⟨s1, h1, _, _, _, h5, _, h7, _⟩ :=
    processMmtPackageTable_asset_type_change Ext.idle MmtTlvDemuxer.sample Mpt.sampleRetype
      0x100 AssetType.hev1 AssetType.mp4a MmtStream.sampleFull
      (by decide) rfl rfl (by decide) (by decide) (by decide) (by decide)
  exact ⟨s1, h1, h5, h7⟩

/-! ### Stream indices and the by-stream-index view -/

theorem Map.insert_enumFrom {α : Type} (x : α) :
    ∀ (L : List α) (n : Nat),
      Map.insert (L.enumFrom n) (n + L.length) x = (L ++ [x]).enumFrom n := by
  intro L
  induction L with
  | nil => intro n; simp [Map.insert, List.enumFrom]
  | cons a L ih =>
    intro n
    have h1 : ¬ n + (L.length + 1) < n := by omega
    have h2 : ¬ n + (L.length + 1) = n := by omega
    have h3 : n + (L.length + 1) = (n + 1) + L.length := by omega
    simp only [List.enumFrom, List.length_cons, List.cons_append, Map.insert, h1, h2, if_false]
    rw [h3, ih (n + 1)]
    rfl

theorem locationStep_indexed (ext : Ext P) (assetType : Nat) (L : List Nat)
    (acc : MptLoop P × Option Nat) (li : LocationInfo)
    (h0 : li.locationType = 0) (hT : registersAssetType assetType)
    (hnew : li.packetId ∉ L) (h : MptLoop.Indexed L acc.1) :
    MptLoop.Indexed (L ++ [li.packetId]) (locationStep ext assetType acc li).1 := by
  obtain ⟨h1, h2, h3⟩ := h
  rw [locationStep_registers ext assetType acc li h0 hT]
  refine ⟨?_, ?_, ?_⟩
  · simp [h1]
  · show Map.insert acc.1.mapStreamByStreamIdx acc.1.streamIndex li.packetId = _
    rw [h2, h1]
    have h := Map.insert_enumFrom li.packetId L 0
    simpa [List.enum] using h
  · intro i p hip
    show ∃ s, Map.find (Map.insert acc.1.mapStream li.packetId _) p = some s ∧ _
    by_cases hi : i < L.length
    · rw [List.getElem?_append_left hi] at hip
      have hpL : p ∈ L := List.mem_iff_getElem?.mpr ⟨i, hip⟩
      have hne : p ≠ li.packetId := fun h => hnew (h ▸ hpL)
      rw [Map.find_insert_ne _ _ _ _ hne]
      exact h3 i p hip
    · have hlen : i < (L ++ [li.packetId]).length := by
        by_contra hc
        rw [List.getElem?_eq_none (Nat.le_of_not_lt hc)] at hip
        cases hip
      have hil : i = L.length := by
        simp at hlen
        omega
      subst hil
      have hp : p = li.packetId := by
        simpa using hip.symm
      subst hp
      rw [Map.find_insert_self]
      exact ⟨_, rfl, h1⟩

theorem locationFold_indexed (ext : Ext P) (assetType : Nat)
    (hT : registersAssetType assetType) :
    ∀ (lis : List LocationInfo) (L : List Nat) (acc : MptLoop P × Option Nat),
      (L ++ (lis.filter (fun li => li.locationType = 0)).map (·.packetId)).Nodup →
      MptLoop.Indexed L acc.1 →
      MptLoop.Indexed (L ++ (lis.filter (fun li => li.locationType = 0)).map (·.packetId))
        (lis.foldl (locationStep ext assetType) acc).1 := by
  intro lis
  induction lis with
  | nil => intro L acc _ h; simpa using h
  | cons li lis ih =>
    intro L acc hnd h
    rw [List.foldl_cons]
    by_cases h0 : li.locationType = 0
    · have hf : (li :: lis).filter (fun li => li.locationType = 0) =
          li :: lis.filter (fun li => li.locationType = 0) := by
        simp [List.filter, h0]
      rw [hf, List.map_cons] at hnd ⊢
      have happ : ∀ rest : List Nat,
          L ++ li.packetId :: rest = (L ++ [li.packetId]) ++ rest := by
        intro rest; simp
      rw [happ] at hnd ⊢
      apply ih _ _ hnd
      apply locationStep_indexed ext assetType L acc li h0 hT _ h
      intro hmem
      have h1 := (List.nodup_append.mp hnd).1
      have h2 := (List.nodup_append.mp h1).2.2
      exact h2 hmem (List.mem_singleton_self _)
    · have hf : (li :: lis).filter (fun li => li.locationType = 0) =
          lis.filter (fun li => li.locationType = 0) := by
        simp [List.filter, h0]
      rw [hf] at hnd ⊢
      rw [locationStep_skips ext assetType acc li (fun hc => h0 hc.1)]
      exact ih L acc hnd h

theorem MptLoop.indexed_update (L : List Nat) (st : MptLoop P) (pid : Nat)
    (f : MmtStream P → MmtStream P) (hf : ∀ s, (f s).streamIndex = s.streamIndex)
    (h : MptLoop.Indexed L st) :
    MptLoop.Indexed L { st with mapStream := Map.update st.mapStream pid f } := by
  obtain ⟨h1, h2, h3⟩ := h
  refine ⟨h1, h2, ?_⟩
  intro i p hip
  obtain ⟨s, hs, hsi⟩ := h3 i p hip
  show ∃ s, Map.find (Map.update st.mapStream pid f) p = some s ∧ _
  rw [Map.find_update]
  by_cases hp : p = pid
  · subst hp
    rw [if_pos rfl, hs]
    exact ⟨f s, rfl, (hf s).trans hsi⟩
  · rw [if_neg hp]
    exact ⟨s, hs, hsi⟩

theorem assetStep_indexed (ext : Ext P) (L : List Nat) (st : MptLoop P) (asset : Asset)
    (hnd : (L ++ asset.registrations).Nodup) (h : MptLoop.Indexed L st) :
    MptLoop.Indexed (L ++ asset.registrations) (assetStep ext st asset) := by
  have hinner : MptLoop.Indexed (L ++ asset.registrations)
      (asset.locationInfos.foldl (locationStep ext asset.assetType) (st, none)).1 := by
    by_cases hT : registersAssetType asset.assetType
    · have hr : asset.registrations =
          (asset.locationInfos.filter (fun li => li.locationType = 0)).map (·.packetId) := by
        simp [Asset.registrations, hT, Asset.inBandPacketIds]
      rw [hr] at hnd ⊢
      exact locationFold_indexed ext asset.assetType hT asset.locationInfos L (st, none) hnd h
    · have hr : asset.registrations = [] := by
        simp [Asset.registrations, hT]
      rw [hr, List.append_nil]
      rw [foldl_eq_self (locationStep ext asset.assetType) asset.locationInfos (st, none)
        (fun li _ x => locationStep_skips ext asset.assetType x li (fun hc => hT hc.2))]
      exact h
  unfold assetStep
  generalize asset.locationInfos.foldl (locationStep ext asset.assetType) (st, none) = r
    at hinner
  obtain ⟨st1, cur⟩ := r
  cases cur with
  | none => exact hinner
  | some pid =>
    exact MptLoop.indexed_update _ st1 pid _
      (fun s => (foldl_applyDescriptor_sameCore asset.descriptors s).2.2.1) hinner

theorem assetLoop_indexed (ext : Ext P) :
    ∀ (assets : List Asset) (L : List Nat) (st : MptLoop P),
      (L ++ assets.flatMap Asset.registrations).Nodup → MptLoop.Indexed L st →
      MptLoop.Indexed (L ++ assets.flatMap Asset.registrations)
        (assets.foldl (assetStep ext) st) := by
  intro assets
  induction assets with
  | nil => intro L st _ h; simpa using h
  | cons asset assets ih =>
    intro L st hnd h
    rw [List.foldl_cons, List.flatMap_cons, ← List.append_assoc] at *
    exact ih _ _ hnd (assetStep_indexed ext L st asset (List.nodup_append.mp hnd).1 h)

theorem Mpt.registrations_sublist (mpt : Mpt) :
    mpt.registrations.Sublist mpt.inBandPacketIds := by
  unfold Mpt.registrations Mpt.inBandPacketIds
  induction mpt.assets with
  | nil => simp
  | cons asset assets ih =>
    rw [List.flatMap_cons, List.flatMap_cons]
    apply List.Sublist.append _ ih
    unfold Asset.registrations
    split
    · exact List.Sublist.refl _
    · exact List.nil_sublist _

/-! ### The registry stays an ordered map -/

theorem Map.ordered_insert {α : Type} : ∀ (m : List (Nat × α)) (k : Nat) (v : α),
    Map.Ordered m → Map.Ordered (Map.insert m k v) := by
  intro m
  induction m with
  | nil => intro k v _; simp [Map.insert, Map.Ordered]
  | cons e rest ih =>
    intro k v h
    obtain ⟨k1, v1⟩ := e
    unfold Map.Ordered at h
    rw [List.map_cons, List.pairwise_cons] at h
    obtain ⟨hlt, hrest⟩ := h
    unfold Map.insert
    by_cases hk : k < k1
    · rw [if_pos hk]
      unfold Map.Ordered
      rw [List.map_cons, List.pairwise_cons]
      refine ⟨?_, ?_⟩
      · intro k2 hk2
        rw [List.map_cons, List.mem_cons] at hk2
        rcases hk2 with h2 | h2
        · rw [h2]; exact hk
        · exact Nat.lt_trans hk (hlt k2 h2)
      · rw [List.map_cons, List.pairwise_cons]
        exact ⟨hlt, hrest⟩
    · rw [if_neg hk]
      by_cases heq : k = k1
      · rw [if_pos heq]
        unfold Map.Ordered
        rw [List.map_cons, List.pairwise_cons]
        subst heq
        exact ⟨hlt, hrest⟩
      · rw [if_neg heq]
        unfold Map.Ordered
        rw [List.map_cons, List.pairwise_cons]
        refine ⟨?_, ih k v hrest⟩
        intro k2 hk2
        obtain ⟨e2, he2, hfst⟩ := List.mem_map.mp hk2
        rcases Map.mem_insert rest k v e2 he2 with h2 | h2
        · rw [← hfst, h2]
          show k1 < k
          omega
        · rw [← hfst]
          exact hlt e2.1 (List.mem_map_of_mem Prod.fst h2)

theorem Map.keys_update {α : Type} (m : List (Nat × α)) (k : Nat) (f : α → α) :
    (Map.update m k f).map Prod.fst = m.map Prod.fst := by
  unfold Map.update
  rw [List.map_map]
  apply List.map_congr_left
  intro e _
  show (if e.1 = k then (e.1, f e.2) else e).1 = e.1
  split <;> rfl

theorem Map.ordered_update {α : Type} (m : List (Nat × α)) (k : Nat) (f : α → α)
    (h : Map.Ordered m) : Map.Ordered (Map.update m k f) := by
  unfold Map.Ordered
  rw [Map.keys_update]
  exact h

theorem Map.ordered_filter {α : Type} (m : List (Nat × α)) (q : Nat × α → Bool)
    (h : Map.Ordered m) : Map.Ordered (m.filter q) :=
  List.Pairwise.sublist ((List.filter_sublist m).map Prod.fst) h

theorem Map.find_isSome_iff {α : Type} : ∀ (m : List (Nat × α)) (q : Nat),
    (Map.find m q).isSome = true ↔ q ∈ m.map Prod.fst := by
  intro m
  induction m with
  | nil => intro q; simp [Map.find]
  | cons e rest ih =>
    intro q
    obtain ⟨k1, v1⟩ := e
    by_cases hk : k1 = q
    · simp [Map.find, hk]
    · have hq : ¬ q = k1 := fun h => hk h.symm
      simp [Map.find, hk, hq, ih q]

theorem locationStep_ordered (ext : Ext P) (assetType : Nat)
    (acc : MptLoop P × Option Nat) (li : LocationInfo)
    (h : Map.Ordered acc.1.mapStream) :
    Map.Ordered (locationStep ext assetType acc li).1.mapStream := by
  by_cases hc : li.locationType = 0 ∧ registersAssetType assetType
  · rw [locationStep_registers ext assetType acc li hc.1 hc.2]
    exact Map.ordered_insert _ _ _ h
  · rw [locationStep_skips ext assetType acc li hc]
    exact h

theorem assetStep_ordered (ext : Ext P) (st : MptLoop P) (asset : Asset)
    (h : Map.Ordered st.mapStream) : Map.Ordered (assetStep ext st asset).mapStream := by
  have hinner : Map.Ordered
      (asset.locationInfos.foldl (locationStep ext asset.assetType) (st, none)).1.mapStream :=
    foldl_invariant (fun acc : MptLoop P × Option Nat => Map.Ordered acc.1.mapStream)
      (locationStep ext asset.assetType)
      (fun acc li hacc => locationStep_ordered ext asset.assetType acc li hacc)
      asset.locationInfos (st, none) h
  unfold assetStep
  generalize asset.locationInfos.foldl (locationStep ext asset.assetType) (st, none) = r
    at hinner
  obtain ⟨st1, cur⟩ := r
  cases cur with
  | none => exact hinner
  | some pid =>
    exact Map.ordered_update st1.mapStream pid
      (fun s => asset.descriptors.foldl applyDescriptor s) hinner

/-- The registry stays an ordered map with distinct keys across
`processMmtPackageTable`. -/
theorem processMmtPackageTable_ordered (ext : Ext P) (d : MmtTlvDemuxer P) (mpt : Mpt)
    (h : Map.Ordered d.mapStream) :
    Map.Ordered (processMmtPackageTable ext d mpt).mapStream := by
  show Map.Ordered (mpt.assets.foldl (assetStep ext)
    ⟨pruneStreams (mptAnnounced mpt) d.mapStream, [], 0⟩).mapStream
  apply foldl_invariant (fun st : MptLoop P => Map.Ordered st.mapStream) (assetStep ext)
    (fun st asset hst => assetStep_ordered ext st asset hst)
  show Map.Ordered (pruneStreams (mptAnnounced mpt) d.mapStream)
  unfold pruneStreams
  split
  · exact Map.ordered_filter _ _ h
  · exact h

/-- What the code registers: when the MPT announces a packet id in-band and
every stream registered before has asset type `hev1`, `mp4a` or `stpp`, a
stream is registered under `q` afterwards exactly if an asset of type `hev1`,
`mp4a` or `stpp` announces `q` in-band. -/
theorem processMmtPackageTable_registered_iff (ext : Ext P) (d : MmtTlvDemuxer P) (mpt : Mpt)
    (hknown : ∀ e ∈ d.mapStream, registersAssetType e.2.assetType)
    (hann : mpt.inBandPacketIds ≠ []) (q : Nat) :
    (Map.find (processMmtPackageTable ext d mpt).mapStream q).isSome = true ↔
      q ∈ mpt.registrations := by
  have hfinal : (processMmtPackageTable ext d mpt).mapStream =
      (mpt.assets.foldl (assetStep ext)
        ⟨pruneStreams (mptAnnounced mpt) d.mapStream, [], 0⟩).mapStream := rfl
  rw [hfinal]
  constructor
  · apply assetLoop_stream ext q (fun o => o.isSome = true → q ∈ mpt.registrations)
    · intro asset hasset hq o i _ _
      obtain ⟨hT, hin⟩ := (Asset.mem_registrations asset q).mp hq
      exact (Mpt.mem_registrations_iff_asset mpt q).mpr ⟨asset, hasset, hT, hin⟩
    · intro asset _ _ o ho hsome
      apply ho
      cases o with
      | none => simp at hsome
      | some s0 => rfl
    · intro hsome
      show q ∈ mpt.registrations
      have hsome1 : (Map.find (pruneStreams (mptAnnounced mpt) d.mapStream) q).isSome = true :=
        hsome
      rw [pruneStreams_eq_filter _ _ (mptAnnounced_ne_nil mpt hann)] at hsome1
      cases hf : Map.find (d.mapStream.filter
          (fun e =>
            match Map.find (mptAnnounced mpt) e.1 with
            | some assetType => assetType == e.2.assetType
            | none => false)) q with
      | none => rw [hf] at hsome1; simp at hsome1
      | some s0 =>
        have hmem := Map.find_mem _ _ _ hf
        obtain ⟨hmem0, hkeep⟩ := List.mem_filter.mp hmem
        have hT := hknown _ hmem0
        cases hm : Map.find (mptAnnounced mpt) q with
        | none => simp [hm] at hkeep
        | some t =>
          simp only [hm, beq_iff_eq] at hkeep
          obtain ⟨asset, hasset, hat, hin⟩ := mptAnnounced_find_some mpt q t hm
          refine (Mpt.mem_registrations_iff_asset mpt q).mpr ⟨asset, hasset, ?_, hin⟩
          rw [hat, hkeep]
          exact hT
  · intro hq
    obtain ⟨asset, hasset, hT, hin⟩ := (Mpt.mem_registrations_iff_asset mpt q).mp hq
    exact assetLoop_registered ext q mpt.assets _
      (Or.inr ⟨asset, hasset, (Asset.mem_registrations asset q).mpr ⟨hT, hin⟩⟩)

theorem Map.find_of_mem_ordered {α : Type} : ∀ (m : List (Nat × α)), Map.Ordered m →
    ∀ e ∈ m, Map.find m e.1 = some e.2 := by
  intro m
  induction m with
  | nil => intro _ e he; cases he
  | cons e0 rest ih =>
    intro h e he
    obtain ⟨k1, v1⟩ := e0
    unfold Map.Ordered at h
    rw [List.map_cons, List.pairwise_cons] at h
    obtain ⟨hlt, hrest⟩ := h
    rcases List.mem_cons.mp he with heq | hmem
    · subst heq
      simp [Map.find]
    · have hk : k1 < e.1 := hlt e.1 (List.mem_map_of_mem Prod.fst hmem)
      have hne : ¬ k1 = e.1 := Nat.ne_of_lt hk
      simp only [Map.find, hne, if_false]
      exact ih hrest e hmem

/-- C12, evaluation of the code: on the empty registry, the MPT whose only asset
has asset type `aapp` and announces packet id `0x200` in-band leaves the
registry empty, with any collaborators: no stream is registered under `0x200`.
The data dispatch of `processMfuData` has the callback `onApplicationData` for
streams of asset type `aapp`. -/
theorem processMmtPackageTable_application_not_registered (ext : Ext P) :
    Mpt.sampleApplication.inBandPacketIds = [0x200] ∧
    (processMmtPackageTable ext (MmtTlvDemuxer.new : MmtTlvDemuxer P)
      Mpt.sampleApplication).mapStream = [] ∧
    dataCallbackOf AssetType.aapp = some DataCallback.onApplicationData := by
  refine ⟨rfl, ?_, rfl⟩
  rfl

/-- C16: the registry is an ordered map whose streams all have asset type
`hev1`, `mp4a` or `stpp`, and the MPT announces at least one packet id in-band
and no packet id in-band twice.  Let `R` be the packet ids the asset loop
registers, in MPT declaration order, and `N` its length.  After
`processMmtPackageTable` the registered packet ids are exactly those of `R`
(so there are `N` registered streams); their stream indices are exactly
`0, ..., N-1`, each once; the stream under the `i`-th packet id of `R` has
stream index `i`, and the stream index of every registered stream is the
position of its packet id in `R`; and the by-stream-index view is exactly
`i ↦ R[i]` for `i < N`, with no other key. -/
theorem processMmtPackageTable_stream_indices (ext : Ext P) (d : MmtTlvDemuxer P) (mpt : Mpt)
    (hord : Map.Ordered d.mapStream)
    (hknown : ∀ e ∈ d.mapStream, registersAssetType e.2.assetType)
    (hann : mpt.inBandPacketIds ≠ [])
    (hdistinct : mpt.inBandPacketIds.Nodup) :
    ((processMmtPackageTable ext d mpt).mapStream.map Prod.fst).Perm mpt.registrations ∧
    ((processMmtPackageTable ext d mpt).mapStream.map (fun e => e.2.streamIndex)).Perm
      (List.range mpt.registrations.length) ∧
    (∀ i p, mpt.registrations[i]? = some p →
      ∃ s, Map.find (processMmtPackageTable ext d mpt).mapStream p = some s ∧
        s.streamIndex = i) ∧
    (∀ q s, Map.find (processMmtPackageTable ext d mpt).mapStream q = some s →
      mpt.registrations[s.streamIndex]? = some q) ∧
    (processMmtPackageTable ext d mpt).mapStreamByStreamIdx = mpt.registrations.enum := by
  have hR : mpt.registrations.Nodup :=
    List.Nodup.sublist (Mpt.registrations_sublist mpt) hdistinct
  have hidx : MptLoop.Indexed mpt.registrations
      (mpt.assets.foldl (assetStep ext)
        ⟨pruneStreams (mptAnnounced mpt) d.mapStream, [], 0⟩) := by
    have h := assetLoop_indexed ext mpt.assets []
      ⟨pruneStreams (mptAnnounced mpt) d.mapStream, [], 0⟩
      (by rw [List.nil_append]; exact hR)
      ⟨rfl, rfl, by intro i p h; simp at h⟩
    rw [List.nil_append] at h
    exact h
  obtain ⟨_, hview, hstream⟩ := hidx
  have hordA := processMmtPackageTable_ordered ext d mpt hord
  have hiff := processMmtPackageTable_registered_iff ext d mpt hknown hann
  have hnodup : ((processMmtPackageTable ext d mpt).mapStream.map Prod.fst).Nodup :=
    List.Pairwise.imp (fun h => Nat.ne_of_lt h) hordA
  have hkeys : ((processMmtPackageTable ext d mpt).mapStream.map Prod.fst).Perm
      mpt.registrations :=
    (List.perm_ext_iff_of_nodup hnodup hR).mpr
      (fun q => (Map.find_isSome_iff _ q).symm.trans (hiff q))
  have hpos : ∀ q s, Map.find (processMmtPackageTable ext d mpt).mapStream q = some s →
      mpt.registrations[s.streamIndex]? = some q := by
    intro q s hs
    have hq : q ∈ mpt.registrations := (hiff q).mp (by rw [hs]; rfl)
    obtain ⟨i, hi⟩ := List.mem_iff_getElem?.mp hq
    obtain ⟨s1, hs1, hsi⟩ := hstream i q hi
    have heq : s1 = s := Option.some.inj (hs1.symm.trans hs)
    rw [← heq, hsi]
    exact hi
  refine ⟨hkeys, ?_, hstream, hpos, hview⟩
  have hmap : (processMmtPackageTable ext d mpt).mapStream.map (fun e => e.2.streamIndex) =
      ((processMmtPackageTable ext d mpt).mapStream.map Prod.fst).map
        (fun q => List.indexOf q mpt.registrations) := by
    rw [List.map_map]
    apply List.map_congr_left
    intro e he
    have hf := Map.find_of_mem_ordered _ hordA e he
    obtain ⟨hlt, hget⟩ := List.getElem?_eq_some.mp (hpos e.1 e.2 hf)
    show e.2.streamIndex = List.indexOf e.1 mpt.registrations
    rw [← hget, List.indexOf_getElem hR]
  have hrange : mpt.registrations.map (fun q => List.indexOf q mpt.registrations) =
      List.range mpt.registrations.length := by
    apply List.ext_getElem
    · simp
    · intro n h1 h2
      rw [List.getElem_map, List.getElem_range, List.indexOf_getElem hR]
  rw [hmap, ← hrange]
  exact hkeys.map _

/-- Witness of C16: the registry holds `0x100` (HEVC) and `0x200` (AAC); the MPT
declares `0x300` as AAC, then `0x100` as HEVC, then `0x050` with an asset type
that registers nothing.  The asset loop registers `0x300` and `0x100`, in this
order, and the by-stream-index view is `0 ↦ 0x300`, `1 ↦ 0x100`. -/
theorem processMmtPackageTable_stream_indices_witness :
    Mpt.sampleOrder.registrations = [0x300, 0x100] ∧
    ((processMmtPackageTable Ext.idle MmtTlvDemuxer.sampleTwo
        Mpt.sampleOrder).mapStream.map (fun e => e.2.streamIndex)).Perm
      (List.range Mpt.sampleOrder.registrations.length) ∧
    (processMmtPackageTable Ext.idle MmtTlvDemuxer.sampleTwo
        Mpt.sampleOrder).mapStreamByStreamIdx = [(0, 0x300), (1, 0x100)] := by
  have h := processMmtPackageTable_stream_indices Ext.idle MmtTlvDemuxer.sampleTwo
    Mpt.sampleOrder (by decide) (by decide) (by decide) (by decide)
  exact ⟨by decide, h.2.1, h.2.2.2.2⟩

/-! ### The sequence numbers of a timestamp cache stay pairwise distinct -/

theorem overwriteFirst_none_all {α : Type} (p : α → Bool) (f : α → α) :
    ∀ (l : List α), overwriteFirst p f l = none → ∀ a ∈ l, p a = false := by
  intro l
  induction l with
  | nil => intro _ a ha; cases ha
  | cons a rest ih =>
    intro h b hb
    unfold overwriteFirst at h
    by_cases ha : p a = true
    · simp [ha] at h
    · simp only [ha, Bool.false_eq_true, if_false] at h
      cases hr : overwriteFirst p f rest with
      | some rest1 => simp [hr] at h
      | none =>
        rcases List.mem_cons.mp hb with rfl | hb1
        · simpa using ha
        · exact ih hr b hb1

theorem overwriteFirst_keys_same {α : Type} (key : α → Nat) (p : α → Bool) (f : α → α)
    (hf : ∀ a, key (f a) = key a) :
    ∀ (l l1 : List α), overwriteFirst p f l = some l1 → l1.map key = l.map key := by
  intro l
  induction l with
  | nil => intro l1 h; simp [overwriteFirst] at h
  | cons a rest ih =>
    intro l1 h
    unfold overwriteFirst at h
    by_cases ha : p a = true
    · simp [ha] at h
      subst h
      simp [hf a]
    · simp [ha] at h
      cases hr : overwriteFirst p f rest with
      | none => simp [hr] at h
      | some rest1 =>
        simp [hr] at h
        subst h
        simp [ih rest1 hr]

theorem overwriteFirst_keys_fresh {α : Type} (key : α → Nat) (p : α → Bool) (f : α → α)
    (k : Nat) (hf : ∀ a, key (f a) = k) :
    ∀ (l l1 : List α), overwriteFirst p f l = some l1 → k ∉ l.map key →
      (l.map key).Nodup → (l1.map key).Nodup := by
  intro l
  induction l with
  | nil => intro l1 h; simp [overwriteFirst] at h
  | cons a rest ih =>
    intro l1 h hk hnd
    rw [List.map_cons, List.nodup_cons] at hnd
    rw [List.map_cons, List.mem_cons, not_or] at hk
    unfold overwriteFirst at h
    by_cases ha : p a = true
    · simp [ha] at h
      subst h
      rw [List.map_cons, List.nodup_cons, hf a]
      exact ⟨hk.2, hnd.2⟩
    · simp [ha] at h
      cases hr : overwriteFirst p f rest with
      | none => simp [hr] at h
      | some rest1 =>
        simp [hr] at h
        subst h
        rw [List.map_cons, List.nodup_cons]
        refine ⟨?_, ih rest1 hr hk.2 hnd.2⟩
        intro hmem
        obtain ⟨x, hx, hkx⟩ := List.mem_map.mp hmem
        rcases overwriteFirst_mem p f rest rest1 hr x hx with h1 | ⟨b, _, _, hxb⟩
        · exact hnd.1 (hkx ▸ List.mem_map_of_mem key h1)
        · rw [hxb, hf b] at hkx
          exact hk.1 hkx

theorem modify_keys_fresh {α : Type} (key : α → Nat) (f : α → α) (k : Nat)
    (hf : ∀ a, key (f a) = k) :
    ∀ (l : List α) (n : Nat), k ∉ l.map key → (l.map key).Nodup →
      ((l.modify f n).map key).Nodup := by
  intro l
  induction l with
  | nil => intro n _ _; simp
  | cons a rest ih =>
    intro n hk hnd
    rw [List.map_cons, List.nodup_cons] at hnd
    rw [List.map_cons, List.mem_cons, not_or] at hk
    cases n with
    | zero =>
      rw [List.modify_zero_cons, List.map_cons, List.nodup_cons, hf a]
      exact ⟨hk.2, hnd.2⟩
    | succ m =>
      rw [List.modify_succ_cons, List.map_cons, List.nodup_cons]
      refine ⟨?_, ih m hk.2 hnd.2⟩
      intro hmem
      obtain ⟨x, hx, hkx⟩ := List.mem_map.mp hmem
      rcases mem_modify f rest m x hx with h1 | ⟨b, _, hxb⟩
      · exact hnd.1 (hkx ▸ List.mem_map_of_mem key h1)
      · rw [hxb, hf b] at hkx
        exact hk.1 hkx

theorem mergeMpuTimestamp_distinct (last : Nat) (cache : List MpuTimestampEntry)
    (ts : MpuTimestampEntry) (h : (cache.map (·.mpuSequenceNumber)).Nodup) :
    ((mergeMpuTimestamp last cache ts).map (·.mpuSequenceNumber)).Nodup := by
  unfold mergeMpuTimestamp
  cases h1 : overwriteFirst (fun e => e.mpuSequenceNumber == ts.mpuSequenceNumber)
      (fun e => { e with mpuPresentationTime := ts.mpuPresentationTime }) cache with
  | some cache1 =>
    show (cache1.map (·.mpuSequenceNumber)).Nodup
    rw [overwriteFirst_keys_same (fun e : MpuTimestampEntry => e.mpuSequenceNumber)
      (fun e => e.mpuSequenceNumber == ts.mpuSequenceNumber)
      (fun e => { e with mpuPresentationTime := ts.mpuPresentationTime })
      (fun _ => rfl) cache cache1 h1]
    exact h
  | none =>
    have hfresh : ts.mpuSequenceNumber ∉ cache.map (·.mpuSequenceNumber) := by
      intro hmem
      obtain ⟨x, hx, hkx⟩ := List.mem_map.mp hmem
      have hp := overwriteFirst_none_all _ _ cache h1 x hx
      simp at hp
      exact hp hkx
    cases h2 : overwriteFirst (fun e => decide (e.mpuSequenceNumber < last))
        (fun e => { e with mpuSequenceNumber := ts.mpuSequenceNumber,
                           mpuPresentationTime := ts.mpuPresentationTime }) cache with
    | some cache1 =>
      exact overwriteFirst_keys_fresh (·.mpuSequenceNumber) _ _ ts.mpuSequenceNumber
        (fun _ => rfl) cache cache1 h2 hfresh h
    | none =>
      show ((if cache.length ≥ 100 then _ else _ : List MpuTimestampEntry).map
        (·.mpuSequenceNumber)).Nodup
      split
      · exact modify_keys_fresh (·.mpuSequenceNumber) _ ts.mpuSequenceNumber
          (fun _ => rfl) cache _ hfresh h
      · rw [List.map_append, List.nodup_append]
        refine ⟨h, by simp, ?_⟩
        intro x hx hx1
        rw [List.map_cons, List.map_nil, List.mem_singleton] at hx1
        exact hfresh (hx1 ▸ hx)

theorem mergeMpuExtendedTimestamp_distinct (last : Nat)
    (cache : List MpuExtendedTimestampEntry) (ts : MpuExtendedTimestampEntry)
    (h : (cache.map (·.mpuSequenceNumber)).Nodup) :
    ((mergeMpuExtendedTimestamp last cache ts).map (·.mpuSequenceNumber)).Nodup := by
  unfold mergeMpuExtendedTimestamp
  split
  · exact h
  · cases h1 : overwriteFirst (fun e => e.mpuSequenceNumber == ts.mpuSequenceNumber)
        (fun e => e.assignFrom ts false) cache with
    | some cache1 =>
      show (cache1.map (·.mpuSequenceNumber)).Nodup
      rw [overwriteFirst_keys_same (fun e : MpuExtendedTimestampEntry => e.mpuSequenceNumber)
        (fun e => e.mpuSequenceNumber == ts.mpuSequenceNumber)
        (fun e => e.assignFrom ts false)
        (fun _ => rfl) cache cache1 h1]
      exact h
    | none =>
      have hfresh : ts.mpuSequenceNumber ∉ cache.map (·.mpuSequenceNumber) := by
        intro hmem
        obtain ⟨x, hx, hkx⟩ := List.mem_map.mp hmem
        have hp := overwriteFirst_none_all _ _ cache h1 x hx
        simp at hp
        exact hp hkx
      cases h2 : overwriteFirst (fun e => decide (e.mpuSequenceNumber < last))
          (fun e => e.assignFrom ts true) cache with
      | some cache1 =>
        exact overwriteFirst_keys_fresh (·.mpuSequenceNumber) _ _ ts.mpuSequenceNumber
          (fun _ => rfl) cache cache1 h2 hfresh h
      | none =>
        show ((if cache.length ≥ 100 then _ else _ : List MpuExtendedTimestampEntry).map
          (·.mpuSequenceNumber)).Nodup
        split
        · exact modify_keys_fresh (·.mpuSequenceNumber) _ ts.mpuSequenceNumber
            (fun _ => rfl) cache _ hfresh h
        · rw [List.map_append, List.nodup_append]
          refine ⟨h, by simp, ?_⟩
          intro x hx hx1
          rw [List.map_cons, List.map_nil, List.mem_singleton] at hx1
          exact hfresh (hx1 ▸ hx)

/-- C24: the distinct-key invariant of the timestamp caches.  If the MPU
sequence numbers in `mpuTimestamps` are pairwise distinct before
`processMpuTimestampDescriptor`, they are pairwise distinct afterwards; and if
those in `mpuExtendedTimestamps` are pairwise distinct before
`processMpuExtendedTimestampDescriptor`, they are pairwise distinct afterwards.
Both hold for every stream and every descriptor, in particular one that
repeats a sequence number. -/
theorem timestamp_caches_stay_distinct (s : MmtStream P)
    (descriptor : MpuTimestampDescriptor)
    (extendedDescriptor : MpuExtendedTimestampDescriptor) :
    ((s.mpuTimestamps.map (·.mpuSequenceNumber)).Nodup →
      ((processMpuTimestampDescriptor descriptor s).mpuTimestamps.map
        (·.mpuSequenceNumber)).Nodup) ∧
    ((s.mpuExtendedTimestamps.map (·.mpuSequenceNumber)).Nodup →
      ((processMpuExtendedTimestampDescriptor extendedDescriptor s).mpuExtendedTimestamps.map
        (·.mpuSequenceNumber)).Nodup) := by
  constructor
  · intro h
    exact foldl_invariant
      (fun c : List MpuTimestampEntry => (c.map (·.mpuSequenceNumber)).Nodup)
      (mergeMpuTimestamp s.lastMpuSequenceNumber)
      (fun c ts hc => mergeMpuTimestamp_distinct s.lastMpuSequenceNumber c ts hc)
      descriptor.entries s.mpuTimestamps h
  · intro h
    exact foldl_invariant
      (fun c : List MpuExtendedTimestampEntry => (c.map (·.mpuSequenceNumber)).Nodup)
      (mergeMpuExtendedTimestamp s.lastMpuSequenceNumber)
      (fun c ts hc => mergeMpuExtendedTimestamp_distinct s.lastMpuSequenceNumber c ts hc)
      extendedDescriptor.entries s.mpuExtendedTimestamps h

/-- Witness of C24: the stream with the cache `5, 2, 1, 7` (last MPU sequence
number 3) and the timestamp descriptor `7, 5, 7, 8`; the stream with the
extended cache `10, 12` (last MPU sequence number 10) and the extended
descriptor `12, 3, 14, 14`. -/
theorem timestamp_caches_stay_distinct_witness :
    ((processMpuTimestampDescriptor MpuTimestampDescriptor.sampleRepeat
        MmtStream.sampleStale).mpuTimestamps.map (·.mpuSequenceNumber)).Nodup ∧
    ((processMpuExtendedTimestampDescriptor MpuExtendedTimestampDescriptor.sampleRepeat
        MmtStream.sampleExtended).mpuExtendedTimestamps.map (·.mpuSequenceNumber)).Nodup :=
  ⟨(timestamp_caches_stay_distinct MmtStream.sampleStale
      MpuTimestampDescriptor.sampleRepeat MpuExtendedTimestampDescriptor.sampleRepeat).1
      (by decide),
    (timestamp_caches_stay_distinct MmtStream.sampleExtended
      MpuTimestampDescriptor.sampleRepeat MpuExtendedTimestampDescriptor.sampleRepeat).2
      (by decide)⟩

/-! ### The callback of `processTlvTable` -/

/-- The switch of `processTlvTable` has one case, the table id `Ecm`: on any
other table id, in particular that of a NIT, nothing is delivered. -/
theorem processTlvTable_other_id (ext : Ext P) (d : MmtTlvDemuxer P) (stream : ReadStream)
    (tableId : Nat) (hpeek : stream.peek8U = some tableId)
    (hid : tableId ≠ ext.consts.tableEcm) :
    processTlvTable ext d stream = some d := by
  unfold processTlvTable
  simp only [hpeek]
  cases ext.tlvTableFactory tableId with
  | none => rfl
  | some unpack => simp [hid]

/-- On the table id `Ecm`, `processTlvTable` calls `onNit` with the table the
factory created, cast to `Nit`. -/
theorem processTlvTable_ecm_id (ext : Ext P) (d : MmtTlvDemuxer P) (stream : ReadStream)
    (unpack : ReadStream → Table × ReadStream)
    (hpeek : stream.peek8U = some ext.consts.tableEcm)
    (hfactory : ext.tlvTableFactory ext.consts.tableEcm = some unpack) :
    processTlvTable ext d stream = some (tableCallback d .onNit (unpack stream).1) := by
  unfold processTlvTable
  simp [hpeek, hfactory]

/-- C21, evaluation of the code: with a handler installed and a TLV table
factory that knows the NIT (table id `0x40`) and the table id `0x82` of the
ECM, `processTlvTable` on a NIT makes no handler call, and on a table with the
ECM table id it calls `onNit`, with a null pointer since that table is not a
`Nit`. -/
theorem processTlvTable_routing_example :
    (processTlvTable Ext.tlvTables MmtTlvDemuxer.sampleHandler
        ⟨[0x40, 0x01, 0x02], 0⟩).map (fun d1 => d1.demuxerHandler) = some (some []) ∧
    (processTlvTable Ext.tlvTables MmtTlvDemuxer.sampleHandler
        ⟨[0x82, 0x01, 0x02], 0⟩).map (fun d1 => d1.demuxerHandler) =
      some (some [.table .onNit none]) ∧
    Ext.tlvTables.consts.tableEcm = 0x82 := by
  refine ⟨?_, ?_, ?_⟩ <;> rfl

/-! ### The stream handed to a data callback -/

/-- The stream `processMfuData` hands to the data callback is the one at
position `streamIndex` of the registry in packet id order
(`std::next(mapStream.begin(), mfuData.streamIndex)`), whatever the packet id
of the MMTP packet. -/
theorem processMfuData_hands_position (ext : Ext P) (d : MmtTlvDemuxer P) (data : List Nat)
    (s s1 : MmtStream P) (processor : P) (out : MfuData) (it : Nat × MmtStream P)
    (cb : DataCallback)
    (hreg : getStream d d.mmt.packetId = some s)
    (hproc : s.mfuDataProcessor = some processor)
    (hout : ext.mfuProcess processor s data = (some out, s1))
    (hit : (Map.update d.mapStream d.mmt.packetId (fun _ => s1)).get? out.streamIndex = some it)
    (hcb : dataCallbackOf s1.assetType = some cb) :
    (processMfuData ext d data).map (fun d1 => d1.demuxerHandler) =
      some (d.demuxerHandler.map (fun log => log ++ [.data cb it.1 out])) := by
  have hle : ¬ out.streamIndex >
      (Map.update d.mapStream d.mmt.packetId (fun _ => s1)).length := by
    have := (List.get?_eq_some.mp hit).1
    omega
  unfold processMfuData
  simp only [hreg, hproc, hout, hle, if_false, hit, hcb]
  rfl

/-- C22, evaluation of the code: the MPT declared `0x300` (AAC) before `0x100`
(HEVC), so the stream under `0x300` has stream index 0 and the stream under
`0x100` has stream index 1.  For an MMTP packet with packet id `0x300` whose
MFU processor reports the stream's own stream index 0, `processMfuData` calls
`onAudioData` with the stream registered under `0x100`: the first stream in
packet id order. -/
theorem processMfuData_hands_other_stream :
    MmtTlvDemuxer.sampleDeclared.mmt.packetId = 0x300 ∧
    MmtTlvDemuxer.sampleDeclared.mapStream.map (fun e => (e.1, e.2.streamIndex)) =
      [(0x100, 1), (0x300, 0)] ∧
    (processMfuData Ext.reporting MmtTlvDemuxer.sampleDeclared [0xAA]).map
        (fun d1 => d1.demuxerHandler) =
      some (some [.data .onAudioData 0x100 ⟨0, [0xAA]⟩]) := by
  refine ⟨?_, ?_, ?_⟩ <;> rfl

/-! ### The MH-BIT parser -/

theorem ReadStream.read_leftBytes (s s1 : ReadStream) (n : Nat) (bytes : List Nat)
    (h : s.read n = some (bytes, s1)) : s1.leftBytes + n = s.leftBytes := by
  unfold ReadStream.read at h
  split at h
  · cases h
  · rename_i hlt
    injection h with h
    injection h with _ h2
    subst h2
    unfold ReadStream.leftBytes at hlt ⊢
    simp only
    omega

theorem ReadStream.read_none (s : ReadStream) (n : Nat) (h : s.leftBytes < n) :
    s.read n = none := by
  simp [ReadStream.read, h]

theorem ReadStream.skip_leftBytes (s s1 : ReadStream) (n : Nat)
    (h : s.skip n = some s1) : s1.leftBytes + n = s.leftBytes := by
  unfold ReadStream.skip at h
  split at h
  · cases h
  · rename_i hlt
    injection h with h
    subst h
    unfold ReadStream.leftBytes at hlt ⊢
    simp only
    omega

theorem MhBit.Broadcaster.unpack_consumes {D : Type} (ext : SectionExt D)
    (stream stream1 : ReadStream) (entry : MhBit.Broadcaster D)
    (h : MhBit.Broadcaster.unpack ext stream = some (entry, stream1)) :
    stream1.leftBytes + 3 ≤ stream.leftBytes := by
  unfold MhBit.Broadcaster.unpack at h
  cases h1 : stream.get8U with
  | none => simp [h1] at h
  | some r1 =>
    obtain ⟨broadcasterId, s1⟩ := r1
    cases h2 : s1.getBe16U with
    | none => simp [h1, h2] at h
    | some r2 =>
      obtain ⟨uint16, s2⟩ := r2
      cases h3 : ext.descriptorsUnpack ext.descriptorsNew (s2.sub (uint16 &&& 0b0000111111111111)) with
      | none => simp [h1, h2, h3] at h
      | some descriptors =>
        cases h4 : s2.skip (uint16 &&& 0b0000111111111111) with
        | none => simp [h1, h2, h3, h4] at h
        | some s3 =>
          simp [h1, h2, h3, h4] at h
          have hs : s3 = stream1 := h.2
          subst hs
          have e1 : s1.leftBytes + 1 = stream.leftBytes := by
            unfold ReadStream.get8U at h1
            cases hr : stream.read 1 with
            | none => simp [hr] at h1
            | some r =>
              simp [hr] at h1
              exact ReadStream.read_leftBytes stream s1 1 r.1 (by rw [hr, ← h1.2])
          have e2 : s2.leftBytes + 2 = s1.leftBytes := by
            unfold ReadStream.getBe16U at h2
            cases hr : s1.read 2 with
            | none => simp [hr] at h2
            | some r =>
              simp [hr] at h2
              exact ReadStream.read_leftBytes s1 s2 2 r.1 (by rw [hr, ← h2.2])
          have e3 := ReadStream.skip_leftBytes s2 s3 _ h4
          omega

/-- The broadcaster loop ends normally only at the end of the input. -/
theorem MhBit.broadcasterLoop_exhausts {D : Type} (ext : SectionExt D) :
    ∀ (fuel : Nat) (stream : ReadStream) (broadcasters : List (MhBit.Broadcaster D))
      (result : List (MhBit.Broadcaster D)) (stream2 : ReadStream),
      MhBit.broadcasterLoop ext fuel stream broadcasters = some (some (result, stream2)) →
      stream2.leftBytes = 0 := by
  intro fuel
  induction fuel with
  | zero => intro stream broadcasters result stream2 h; simp [MhBit.broadcasterLoop] at h
  | succ n ih =>
    intro stream broadcasters result stream2 h
    unfold MhBit.broadcasterLoop at h
    by_cases hl : stream.leftBytes ≠ 0
    · rw [if_pos hl] at h
      cases hu : MhBit.Broadcaster.unpack ext stream with
      | none => simp [hu] at h
      | some r =>
        obtain ⟨entry, stream1⟩ := r
        simp only [hu] at h
        exact ih stream1 _ result stream2 h
    · rw [if_neg hl] at h
      simp at h
      rw [← h.2]
      omega

/-- With more fuel than bytes left, the broadcaster loop does not run out of
fuel. -/
theorem MhBit.broadcasterLoop_returns {D : Type} (ext : SectionExt D) :
    ∀ (fuel : Nat) (stream : ReadStream) (broadcasters : List (MhBit.Broadcaster D)),
      stream.leftBytes < fuel → MhBit.broadcasterLoop ext fuel stream broadcasters ≠ none := by
  intro fuel
  induction fuel with
  | zero => intro stream broadcasters h; omega
  | succ n ih =>
    intro stream broadcasters h
    unfold MhBit.broadcasterLoop
    by_cases hl : stream.leftBytes ≠ 0
    · rw [if_pos hl]
      cases hu : MhBit.Broadcaster.unpack ext stream with
      | none => simp
      | some r =>
        obtain ⟨entry, stream1⟩ := r
        simp only []
        apply ih
        have := MhBit.Broadcaster.unpack_consumes ext stream stream1 entry hu
        omega
    · rw [if_neg hl]
      simp

/-- For every input, table object, collaborators and fuel, `MhBit::unpack` does
not return `true`: when the broadcaster loop ends, no byte is left for the
CRC32. -/
theorem MhBit.unpack_never_true {D : Type} (ext : SectionExt D) (fuel : Nat) (bit : MhBit D)
    (stream : ReadStream) (r : MhBit D × ReadStream) :
    MhBit.unpack ext fuel bit stream ≠ some (some r) := by
  unfold MhBit.unpack
  cases hh : MhBit.unpackHeader ext bit stream with
  | none => simp
  | some hr =>
    obtain ⟨bit1, stream1⟩ := hr
    simp only []
    cases hloop : MhBit.broadcasterLoop ext fuel stream1 bit1.broadcasters with
    | none => simp
    | some o =>
      cases o with
      | none => simp
      | some lr =>
        obtain ⟨broadcasters, stream2⟩ := lr
        have hz := MhBit.broadcasterLoop_exhausts ext fuel stream1 _ broadcasters stream2 hloop
        have hcrc : stream2.getBe32U = none := by
          unfold ReadStream.getBe32U
          rw [ReadStream.read_none stream2 4 (by omega)]
        simp [hcrc]

/-- With more fuel than the bytes left behind the fixed fields and first
descriptors, `MhBit::unpack` returns, and what it returns is `false`. -/
theorem MhBit.unpack_returns_false {D : Type} (ext : SectionExt D) (fuel : Nat)
    (bit : MhBit D) (stream : ReadStream)
    (hfuel : ∀ bit1 stream1, MhBit.unpackHeader ext bit stream = some (bit1, stream1) →
      stream1.leftBytes < fuel) :
    MhBit.unpack ext fuel bit stream = some none := by
  cases hres : MhBit.unpack ext fuel bit stream with
  | none =>
    unfold MhBit.unpack at hres
    cases hh : MhBit.unpackHeader ext bit stream with
    | none => simp [hh] at hres
    | some hr =>
      obtain ⟨bit1, stream1⟩ := hr
      simp only [hh] at hres
      have hret := MhBit.broadcasterLoop_returns ext fuel stream1 bit1.broadcasters
        (hfuel bit1 stream1 hh)
      cases hloop : MhBit.broadcasterLoop ext fuel stream1 bit1.broadcasters with
      | none => exact absurd hloop hret
      | some o =>
        rw [hloop] at hres
        cases o with
        | none => simp at hres
        | some lr =>
          obtain ⟨broadcasters, stream2⟩ := lr
          simp only [] at hres
          cases hcrc : stream2.getBe32U with
          | none => simp [hcrc] at hres
          | some cr => simp [hcrc] at hres
  | some o =>
    cases o with
    | none => rfl
    | some r => exact absurd hres (MhBit.unpack_never_true ext fuel bit stream r)

/-- C23, evaluation of the code on a well-formed MH-BIT section (one
broadcaster entry, then the CRC32 `DE AD BE EF`): the fixed fields and first
descriptors end at offset 10, the broadcaster entry unpacks to broadcaster id
1 with the descriptor bytes `AA BB` and ends at offset 15, where exactly the
four CRC32 bytes are left, and `MhBit::unpack` returns `false`: the loop
`while (stream.leftBytes())` goes on to read the CRC32 as a broadcaster
entry. -/
theorem MhBit.unpack_sample_section :
    (MhBit.unpackHeader SectionExt.sample MhBit.sampleEmpty
        ⟨MhBit.sampleSection, 0⟩).map (fun r => r.2) = some ⟨MhBit.sampleSection, 10⟩ ∧
    MhBit.Broadcaster.unpack SectionExt.sample ⟨MhBit.sampleSection, 10⟩ =
      some (⟨1, 2, [0xAA, 0xBB]⟩, ⟨MhBit.sampleSection, 15⟩) ∧
    (⟨MhBit.sampleSection, 15⟩ : ReadStream).remaining = [0xDE, 0xAD, 0xBE, 0xEF] ∧
    MhBit.unpack SectionExt.sample 20 MhBit.sampleEmpty ⟨MhBit.sampleSection, 0⟩ =
      some none := by
  refine ⟨?_, ?_, ?_, ?_⟩ <;> decide

/-! ### The video component descriptor parser -/

theorem and_shiftRight_lt (x mask k bound : Nat) (h : mask < bound * 2 ^ k) :
    (x &&& mask) >>> k < bound := by
  rw [Nat.shiftRight_eq_div_pow]
  apply Nat.div_lt_of_lt_mul
  have h1 : x &&& mask ≤ mask := Nat.and_le_right
  rw [Nat.mul_comm]
  omega

theorem and_lt (x mask bound : Nat) (h : mask < bound) : x &&& mask < bound := by
  have h1 : x &&& mask ≤ mask := Nat.and_le_right
  omega

/-- C25: the descriptor header parses with descriptor length `L` and at least
`L` bytes follow it.  Then `VideoComponentDescriptor::unpack` returns `true`
exactly if `L ≥ 8`; and when it returns `true`, `videoResolution`,
`videoAspectRatio` and `videoTransferCharacteristics` are below 16,
`videoFrameRate` is below 32, `videoScanFlag` is 0 or 1, `componentTag` is
body byte 2 times 256 plus body byte 3, `text` is the body bytes from offset 8
to `L - 1` (length `L - 8`; for `L = 8`, where the parser does not assign
`text`, provided the object's `text` was empty, as in a new object), and the
reader is the reader behind the header advanced by exactly `L` bytes. -/
theorem VideoComponentDescriptor.unpack_spec
    (headerUnpack : ReadStream → Option (Nat × ReadStream))
    (d : VideoComponentDescriptor) (stream rest : ReadStream) (L : Nat)
    (hheader : headerUnpack stream = some (L, rest))
    (hbody : L ≤ rest.leftBytes) :
    ((VideoComponentDescriptor.unpack headerUnpack d stream).isSome = true ↔ 8 ≤ L) ∧
    ∀ r stream1, VideoComponentDescriptor.unpack headerUnpack d stream = some (r, stream1) →
      r.videoResolution < 16 ∧ r.videoAspectRatio < 16 ∧
      r.videoTransferCharacteristics < 16 ∧ r.videoFrameRate < 32 ∧
      (r.videoScanFlag = 0 ∨ r.videoScanFlag = 1) ∧
      (∃ b2 b3, (rest.remaining.take L)[2]? = some b2 ∧
        (rest.remaining.take L)[3]? = some b3 ∧ r.componentTag = b2 * 256 + b3) ∧
      ((8 < L ∨ d.text = []) →
        r.text = (rest.remaining.take L).drop 8 ∧ r.text.length = L - 8) ∧
      stream1 = { rest with cur := rest.cur + L } := by
  have hlen : (rest.remaining.take L).length = L := by
    rw [List.length_take, ← ReadStream.leftBytes_eq_length_remaining]
    omega
  have hskip : rest.skip L = some { rest with cur := rest.cur + L } := by
    have hnot : ¬ rest.leftBytes < L := by omega
    simp [ReadStream.skip, hnot]
  unfold VideoComponentDescriptor.unpack
  simp only [hheader, ReadStream.sub, hskip]
  generalize rest.remaining.take L = buf at hlen ⊢
  rcases buf with _ | ⟨b0, _ | ⟨b1, _ | ⟨b2, _ | ⟨b3, _ | ⟨b4, _ | ⟨l0, _ | ⟨l1, _ | ⟨l2, text⟩⟩⟩⟩⟩⟩⟩⟩
  all_goals simp only [List.length_cons, List.length_nil] at hlen
  · constructor
    · simp [ReadStream.get8U, ReadStream.read, ReadStream.leftBytes]; omega
    · intro r stream1 h; simp [ReadStream.get8U, ReadStream.read, ReadStream.leftBytes] at h
  · constructor
    · simp [ReadStream.get8U, ReadStream.read, ReadStream.leftBytes]; omega
    · intro r stream1 h; simp [ReadStream.get8U, ReadStream.read, ReadStream.leftBytes] at h
  · constructor
    · simp [ReadStream.get8U, ReadStream.getBe16U, ReadStream.read, ReadStream.leftBytes]; omega
    · intro r stream1 h
      simp [ReadStream.get8U, ReadStream.getBe16U, ReadStream.read, ReadStream.leftBytes] at h
  · constructor
    · simp [ReadStream.get8U, ReadStream.getBe16U, ReadStream.read, ReadStream.leftBytes]; omega
    · intro r stream1 h
      simp [ReadStream.get8U, ReadStream.getBe16U, ReadStream.read, ReadStream.leftBytes] at h
  · constructor
    · simp [ReadStream.get8U, ReadStream.getBe16U, ReadStream.read, ReadStream.leftBytes]; omega
    · intro r stream1 h
      simp [ReadStream.get8U, ReadStream.getBe16U, ReadStream.read, ReadStream.leftBytes] at h
  · constructor
    · simp [ReadStream.get8U, ReadStream.getBe16U, ReadStream.read, ReadStream.leftBytes]; omega
    · intro r stream1 h
      simp [ReadStream.get8U, ReadStream.getBe16U, ReadStream.read, ReadStream.leftBytes] at h
  · constructor
    · simp [ReadStream.get8U, ReadStream.getBe16U, ReadStream.read, ReadStream.leftBytes]; omega
    · intro r stream1 h
      simp [ReadStream.get8U, ReadStream.getBe16U, ReadStream.read, ReadStream.leftBytes] at h
  · constructor
    · simp [ReadStream.get8U, ReadStream.getBe16U, ReadStream.read, ReadStream.leftBytes]; omega
    · intro r stream1 h
      simp [ReadStream.get8U, ReadStream.getBe16U, ReadStream.read, ReadStream.leftBytes] at h
  · have hL : 8 ≤ L := by omega
    rcases text with _ | ⟨t0, tl⟩
    · simp only [List.length_nil] at hlen
      simp [ReadStream.get8U, ReadStream.getBe16U, ReadStream.read, ReadStream.leftBytes,
        ReadStream.remaining, ReadStream.beValue, hL]
      refine ⟨and_shiftRight_lt _ _ _ _ (by decide), and_lt _ _ _ (by decide),
        and_shiftRight_lt _ _ _ _ (by decide), and_lt _ _ _ (by decide), ?_, ?_⟩
      · have h2 := and_shiftRight_lt b1 128 7 2 (by decide)
        omega
      · intro h
        have hd : d.text = [] := by
          rcases h with h | h
          · omega
          · exact h
        rw [hd]
        exact ⟨rfl, by simp; omega⟩
    · simp only [List.length_cons] at hlen
      have e1 : ¬ (tl.length + 1 + 6 < 2) := by omega
      have e2 : ¬ (tl.length + 4 < 3) := by omega
      simp [ReadStream.get8U, ReadStream.getBe16U, ReadStream.read, ReadStream.leftBytes,
        ReadStream.remaining, ReadStream.beValue, hL, e1, e2]
      refine ⟨and_shiftRight_lt _ _ _ _ (by decide), and_lt _ _ _ (by decide),
        and_shiftRight_lt _ _ _ _ (by decide), and_lt _ _ _ (by decide), ?_, ?_⟩
      · have h2 := and_shiftRight_lt b1 128 7 2 (by decide)
        omega
      · intro _
        omega

/-- Witness of C25: a header parser that reads a 16-bit tag and an 8-bit
length, on a descriptor of length 10 followed by one more byte.  The parser
returns `true` with video resolution 5, aspect ratio 1, scan flag 1, frame
rate 5, component tag `0x0030`, transfer characteristics 2, the language
`6A 70 6E` and the text `41 42`, and the reader stands behind the descriptor,
at offset 13. -/
theorem VideoComponentDescriptor.unpack_spec_witness :
    VideoComponentDescriptor.unpack sampleDescriptorHeader VideoComponentDescriptor.sampleEmpty
        ⟨VideoComponentDescriptor.sampleBytes, 0⟩ =
      some (⟨5, 1, 1, 5, 0x0030, 2, [0x6A, 0x70, 0x6E, 0], [0x41, 0x42]⟩,
        ⟨VideoComponentDescriptor.sampleBytes, 13⟩) ∧
    ((VideoComponentDescriptor.unpack sampleDescriptorHeader
        VideoComponentDescriptor.sampleEmpty
        ⟨VideoComponentDescriptor.sampleBytes, 0⟩).isSome = true ↔ 8 ≤ 10) :=
  ⟨by decide,
    (VideoComponentDescriptor.unpack_spec sampleDescriptorHeader
      VideoComponentDescriptor.sampleEmpty ⟨VideoComponentDescriptor.sampleBytes, 0⟩
      ⟨VideoComponentDescriptor.sampleBytes, 3⟩ 10 (by decide) (by decide)).1⟩

/-- C15, evaluation of the code: the HEVC stream registered under `0x100`
receives an MPT that announces `0x100` in-band with the different asset type
`aapp` (application).  Afterwards the registry is empty, with any
collaborators: the old stream is erased by the pruning loop and the asset loop
registers no stream for `aapp`, so there is no newly created stream under
`0x100`. -/
theorem processMmtPackageTable_retype_application (ext : Ext Unit) :
    (Map.find MmtTlvDemuxer.sample.mapStream 0x100).map (fun s => s.assetType) =
      some AssetType.hev1 ∧
    mptAnnounced Mpt.sampleRetypeApplication = [(0x100, AssetType.aapp)] ∧
    (processMmtPackageTable ext MmtTlvDemuxer.sample
      Mpt.sampleRetypeApplication).mapStream = [] := by
  refine ⟨rfl, rfl, ?_⟩
  rfl

end Theorems

end MmtTlv
